import Mathlib

/-!
# timeapi: duration and interval parsers

A shallow embedding of `format.go` and of the `Interval` / `Duration` parts of
`time.go`, followed by theorems about them.

Conventions of the embedding

* A Go `string` is a sequence of bytes: `GoString := List Nat`, every element
  standing for one byte.  `str` turns an ASCII literal into its bytes.
* `uint64` values are naturals; every arithmetic operation of the source that
  can wrap carries an explicit `% 2 ^ 64`.
* `int` is the 64-bit signed integer of a 64-bit platform, embedded in `Int`;
  the conversion `int(v)` from `uint64` is `toInt`.
* `strconv.Quote` belongs to the Go standard library; the parsers take it as
  the parameter `Quote`.
* A Go function returning `(value, error)` returns `Outcome.ret value err`
  with `err = none` for the nil error.  The two other outcomes of the
  embedding are a run-time panic (an index out of range) and running out of
  the fuel that bounds the parser loop.
-/

namespace Timeapi

/-! ## Strings and errors -/

/-- A Go string: a sequence of bytes. -/
abbrev GoString := List Nat

/-- A Go error value made by `errors.New`, identified with its message. -/
abbrev Error := GoString

/-- Bytes of an ASCII string literal. -/
def str (s : String) : GoString := s.toList.map Char.toNat

/-- The byte test `'0' <= c && c <= '9'`. -/
def isDigit (c : Nat) : Bool := decide (48 ≤ c) && decide (c ≤ 57)

/-- Outcome of a call of a Go function of result type `(α, error)`. -/
inductive Outcome (α : Type) where
  /-- normal return of `(v, err)`; `err = none` is the nil error -/
  | ret (v : α) (err : Option Error)
  /-- run-time panic -/
  | panic
  /-- the loop of the embedding ran out of fuel -/
  | outOfFuel
  deriving DecidableEq, Repr

/-- Control flow at the end of one round of a parser loop: go on with the
loop in state `st`, or leave the function with outcome `o`. -/
inductive Flow (σ α : Type) where
  | next (st : σ)
  | stop (o : Outcome α)

/-- A Go loop `for guard { body }` over the local variables `σ`, run for at
most `fuel` rounds.  `Flow.next st` is the state in which the guard fails;
`Flow.stop o` is a `return` (or panic) inside the body. -/
def forLoop {σ α : Type} (guard : σ → Bool) (body : σ → Flow σ α) :
    Nat → σ → Flow σ α
  | 0, st => if guard st then .stop .outOfFuel else .next st
  | fuel + 1, st =>
    if guard st then
      match body st with
      | .stop o => .stop o
      | .next st1 => forLoop guard body fuel st1
    else .next st

/-! ## Machine integers -/

/-- The conversion `int(v)` of a `uint64` on a 64-bit platform. -/
def toInt (v : Nat) : Int := if v < 2 ^ 63 then (v : Int) else (v : Int) - 2 ^ 64

/-- Reduction of an integer to the range of a 64-bit `int`. -/
def wrapInt (z : Int) : Int := (z + 2 ^ 63) % 2 ^ 64 - 2 ^ 63

/-- The constant `math.MaxInt` on a 64-bit platform. -/
def MaxInt : Nat := 2 ^ 63 - 1

/-! ## format.go: the numeric lexer -/

/-- Loop of `leadingInt`: `s` is the text from index `i` on, `x` the value
accumulated so far.  The result is `(x, rem, err)`; on overflow the source
returns the zero values of `x` and `rem` with the error. -/
def leadingIntLoop : GoString → Nat → Nat × GoString × Option Error
  | [], x => (x, [], none)
  | c :: rest, x =>
    if c < 48 ∨ c > 57 then (x, c :: rest, none)
    else if x > 2 ^ 63 / 10 then (0, [], some (str "timeapi: bad [0-9]*"))
    else
      -- x = x*10 + uint64(c) - '0', in uint64 arithmetic
      let x1 := (x * 10 + c - 48) % 2 ^ 64
      if x1 > 2 ^ 63 then (0, [], some (str "timeapi: bad [0-9]*"))
      else leadingIntLoop rest x1

/-- The function `leadingInt`: consumes the leading `[0-9]*` from `s`. -/
def leadingInt (s : GoString) : Nat × GoString × Option Error :=
  leadingIntLoop s 0

/-- The unit scan `for ; i < len(s); i++ { if '0' <= s[i] && s[i] <= '9' { break } }`:
the final value of `i`. -/
def unitEnd : GoString → Nat
  | [] => 0
  | c :: rest => if 48 ≤ c ∧ c ≤ 57 then 0 else unitEnd rest + 1

/-! ## time.go: Duration and Interval -/

/-- The struct `Duration`. -/
structure Duration where
  neg : Int
  hour : Int
  minute : Int
  second : Int
  deriving DecidableEq, Repr

/-- The struct `Interval`. -/
structure Interval where
  year : Int
  month : Int
  day : Int
  hour : Int
  minute : Int
  second : Int
  deriving DecidableEq, Repr

/-- The function `abs` of format.go; `-n` wraps for the minimum `int`. -/
def abs (n : Int) : Int := if n < 0 then wrapInt (-n) else n

/-- The function `NewDuration`. -/
def NewDuration (hour minute second : Int) : Duration :=
  let neg : Int := if hour < 0 ∨ minute < 0 ∨ second < 0 then -1 else 1
  { neg := neg, hour := abs hour, minute := abs minute, second := abs second }

/-- The function `NewInterval`. -/
def NewInterval (year month day hour minute second : Int) : Interval :=
  { year := year, month := month, day := day,
    hour := hour, minute := minute, second := second }

/-- Decimal digits of `n`, most significant first, as `strconv` writes them;
`fuel` bounds the number of digits. -/
def formatBits : Nat → Nat → GoString
  | 0, _ => []
  | fuel + 1, n =>
    if n < 10 then [48 + n] else formatBits fuel (n / 10) ++ [48 + n % 10]

/-- Model of `strconv.Itoa` of the Go standard library: the decimal text of
`i`, with a leading `-` when `i` is negative. -/
def Itoa (i : Int) : GoString :=
  if i < 0 then 45 :: formatBits (i.natAbs + 1) i.natAbs
  else formatBits (i.toNat + 1) i.toNat

/-- The method `Interval.IsZero`. -/
def Interval.IsZero (i : Interval) : Bool :=
  i.year == 0 && i.month == 0 && i.day == 0 && i.hour == 0 &&
    i.minute == 0 && i.second == 0

/-- The method `Interval.String`. -/
def Interval.String (i : Interval) : GoString :=
  if i.IsZero then str "0"
  else
    let s : GoString := []
    let s := if i.year ≠ 0 then s ++ (Itoa i.year ++ str "y") else s
    let s := if i.month ≠ 0 then s ++ (Itoa i.month ++ str "mo") else s
    let s := if i.day ≠ 0 then s ++ (Itoa i.day ++ str "d") else s
    let s := if i.hour ≠ 0 then s ++ (Itoa i.hour ++ str "h") else s
    let s := if i.minute ≠ 0 then s ++ (Itoa i.minute ++ str "m") else s
    let s := if i.second ≠ 0 then s ++ (Itoa i.second ++ str "s") else s
    s

/-- The method `Duration.String`. -/
def Duration.String (d : Duration) : GoString :=
  if d.hour = 0 ∧ d.minute = 0 ∧ d.second = 0 then str "0h0m0s"
  else
    let s : GoString := []
    let s := if d.neg = -1 then s ++ str "-" else s
    let s := if d.hour ≠ 0 then s ++ (Itoa d.hour ++ str "h") else s
    let s := if d.minute ≠ 0 then s ++ (Itoa d.minute ++ str "m") else s
    let s := if d.second ≠ 0 then s ++ (Itoa d.second ++ str "s") else s
    s

/-- The method `Duration.IsZero`. -/
def Duration.IsZero (d : Duration) : Bool :=
  d.hour == 0 && d.minute == 0 && d.second == 0

/-- The method `Duration.Hours`: `d.neg * d.hour` in `int` arithmetic. -/
def Duration.Hours (d : Duration) : Int := wrapInt (d.neg * d.hour)

/-- The method `Duration.Minutes`: `d.neg * d.minute` in `int` arithmetic. -/
def Duration.Minutes (d : Duration) : Int := wrapInt (d.neg * d.minute)

/-- The method `Duration.Seconds`: `d.neg * d.second` in `int` arithmetic. -/
def Duration.Seconds (d : Duration) : Int := wrapInt (d.neg * d.second)

/-- The constant `time.Hour` of the Go standard library, in nanoseconds. -/
def timeHour : Int := 3600000000000

/-- The constant `time.Minute` of the Go standard library, in nanoseconds. -/
def timeMinute : Int := 60000000000

/-- The constant `time.Second` of the Go standard library, in nanoseconds. -/
def timeSecond : Int := 1000000000

/-- The method `Duration.GoDuration`: the expression
`time.Duration(d.neg)*time.Duration(d.hour)*time.Hour +
time.Duration(d.minute)*time.Minute + time.Duration(d.second)*time.Second`
in `int64` arithmetic, as Go parses it: the product with `d.neg` is the first
summand only. -/
def Duration.GoDuration (d : Duration) : Int :=
  wrapInt (wrapInt (wrapInt (wrapInt (d.neg * d.hour) * timeHour) +
    wrapInt (d.minute * timeMinute)) + wrapInt (d.second * timeSecond))

/-! ## format.go: ParseDuration -/

/-- The map `durationUnitMap`; the values are `uint64(time.Hour)`,
`uint64(time.Minute)` and `uint64(time.Second)`, in nanoseconds. -/
def durationUnitMap (u : GoString) : Option Nat :=
  if u = str "h" then some 3600000000000
  else if u = str "m" then some 60000000000
  else if u = str "s" then some 1000000000
  else none

/-- The map `durationUnitRank`. -/
def durationUnitRank (u : GoString) : Option Int :=
  if u = str "h" then some 0
  else if u = str "m" then some 1
  else if u = str "s" then some 2
  else none

/-- Local variables of `ParseDuration` that its loop reads and writes. -/
structure DurState where
  /-- the rest of the input -/
  s : GoString
  d : Duration
  dtmp : Nat
  /-- the map `seen`: `none` for a missing key -/
  seen : GoString → Option Bool
  maxRank : Int

/-- Initial value of the map `seen` of `ParseDuration`. -/
def durationSeen : GoString → Option Bool := fun u =>
  if u = str "s" ∨ u = str "m" ∨ u = str "h" then some false else none

section Parsers

variable (Quote : GoString → GoString)

/-- The error `"timeapi: invalid duration " + strconv.Quote(orig)`. -/
def errInvalidDuration (orig : GoString) : Error :=
  str "timeapi: invalid duration " ++ Quote orig

/-- The statement `switch u { case "h": d.hour = v ... }` of `ParseDuration`. -/
def Duration.assign (d : Duration) (u : GoString) (v : Int) : Duration :=
  if u = str "h" then { d with hour := v }
  else if u = str "m" then { d with minute := v }
  else if u = str "s" then { d with second := v }
  else d

/-- Second half of a round of the loop of `ParseDuration`, from the lookup
`durationUnitMap[u]` to the end of the round: `v` is the magnitude read, `u`
the unit text and `s` the rest of the input after the unit. -/
def durationUnit (orig : GoString) (st : DurState) (v : Nat) (u s : GoString) :
    Flow DurState Duration :=
  match durationUnitMap u with
  | none =>
    .stop (.ret st.d (some (str "timeapi: unknown unit " ++ Quote u ++
      str " in duration " ++ Quote orig)))
  | some unit =>
    if (st.seen u).getD false then
      .stop (.ret st.d (some (str "timeapi: unit " ++ Quote u ++
        str " repeated in duration " ++ Quote orig)))
    else
      -- make sure unit is in order h, m, s
      let seenRank := (durationUnitRank u).getD 0
      if seenRank < st.maxRank then
        .stop (.ret st.d (some (str "timeapi: unit " ++ Quote u ++
          str " must be in the order of h, m, s in duration " ++ Quote orig)))
      else
        let maxRank := max seenRank st.maxRank
        let seen : GoString → Option Bool :=
          fun k => if k = u then some true else st.seen k
        if v > 2 ^ 63 / unit then
          -- overflow
          .stop (.ret st.d (some (errInvalidDuration Quote orig)))
        else
          let d := st.d.assign u (toInt v)
          let v := (v * unit) % 2 ^ 64
          let dtmp := (st.dtmp + v) % 2 ^ 64
          if dtmp > 2 ^ 63 then
            .stop (.ret d (some (errInvalidDuration Quote orig)))
          else
            .next { s := s, d := d, dtmp := dtmp, seen := seen, maxRank := maxRank }

/-- One round of the loop `for s != ""` of `ParseDuration`: the digit test,
the lexer and the unit scan, then `durationUnit`. -/
def durationBody (orig : GoString) (st : DurState) : Flow DurState Duration :=
  match st.s with
  | [] => .stop .panic -- s[0] out of range
  | c :: _ =>
    -- The next character must be [0-9.]
    if ¬ (48 ≤ c ∧ c ≤ 57) then
      .stop (.ret st.d (some (errInvalidDuration Quote orig)))
    else
      -- Consume [0-9]*
      match leadingInt st.s with
      | (_, _, some _) => .stop (.ret st.d (some (errInvalidDuration Quote orig)))
      | (v, s, none) =>
        -- Consume unit.
        let i := unitEnd s
        if i = 0 then
          .stop (.ret st.d (some (str "timeapi: missing unit in duration " ++ Quote orig)))
        else
          let u := s.take i
          let s := s.drop i
          durationUnit Quote orig st v u s

/-- The loop `for s != "" { ... }` of `ParseDuration`, bounded by `fuel` rounds. -/
def durationLoop (orig : GoString) (fuel : Nat) (st : DurState) : Flow DurState Duration :=
  forLoop (fun st => decide (st.s ≠ [])) (durationBody Quote orig) fuel st

/-- The function `ParseDuration`.  Every round of the loop consumes at least
one byte, so the loop is given `len(s)` rounds. -/
def ParseDuration (s : GoString) : Outcome Duration :=
  let orig := s
  let d : Duration := { neg := 0, hour := 0, minute := 0, second := 0 }
  -- Consume [-+]?
  let (neg, s) : Bool × GoString :=
    match s with
    | [] => (false, s)
    | c :: rest => if c = 45 ∨ c = 43 then (decide (c = 45), rest) else (false, s)
  if s = [] then .ret d (some (errInvalidDuration Quote orig))
  else
    let d : Duration := { d with neg := if neg then -1 else 1 }
    -- Special case: if all that is left is "0", this is zero.
    if s = str "0" then .ret d none
    else
      match durationLoop Quote orig s.length
          { s := s, d := d, dtmp := 0, seen := durationSeen, maxRank := -1 } with
      | .stop o => o
      | .next st =>
        if neg then .ret st.d none
        else if st.dtmp > 2 ^ 63 - 1 then
          .ret st.d (some (errInvalidDuration Quote orig))
        else .ret st.d none

/-! ## format.go: ParseInterval -/

/-- The map `intervalUnitRank`. -/
def intervalUnitRank (u : GoString) : Option Int :=
  if u = str "y" then some 0
  else if u = str "mo" then some 1
  else if u = str "d" then some 2
  else if u = str "h" then some 3
  else if u = str "m" then some 4
  else if u = str "s" then some 5
  else none

/-- Local variables of `ParseInterval` that its loop reads and writes. -/
structure IvlState where
  /-- the rest of the input -/
  s : GoString
  ivl : Interval
  /-- the map `seen`: `none` for a missing key -/
  seen : GoString → Option Bool
  maxRank : Int

/-- Initial value of the map `seen` of `ParseInterval`. -/
def intervalSeen : GoString → Option Bool := fun u =>
  if u = str "y" ∨ u = str "mo" ∨ u = str "d" ∨ u = str "h" ∨ u = str "m" ∨ u = str "s"
  then some false else none

/-- The error `"timeapi: invalid interval " + strconv.Quote(orig)`. -/
def errInvalidInterval (orig : GoString) : Error :=
  str "timeapi: invalid interval " ++ Quote orig

/-- The statement `switch u { case "y": ivl.year = v ... }` of `ParseInterval`. -/
def Interval.assign (ivl : Interval) (u : GoString) (v : Int) : Interval :=
  if u = str "y" then { ivl with year := v }
  else if u = str "mo" then { ivl with month := v }
  else if u = str "d" then { ivl with day := v }
  else if u = str "h" then { ivl with hour := v }
  else if u = str "m" then { ivl with minute := v }
  else if u = str "s" then { ivl with second := v }
  else ivl

/-- Second half of a round of the loop of `ParseInterval`, from the lookup
`seen[u]` to the end of the round: `v` is the magnitude read, `u` the unit
text and `s` the rest of the input after the unit. -/
def intervalUnit (orig : GoString) (st : IvlState) (v : Nat) (u s : GoString) :
    Flow IvlState Interval :=
  match st.seen u with
  | none =>
    .stop (.ret st.ivl (some (str "timeapi: unknown unit " ++ Quote u ++
      str " in interval " ++ Quote orig)))
  | some wasSeen =>
    if wasSeen then
      .stop (.ret st.ivl (some (str "timeapi: unit " ++ Quote u ++
        str " repeated in interval " ++ Quote orig)))
    else
      -- make sure unit is in order
      let seenRank := (intervalUnitRank u).getD 0
      if seenRank < st.maxRank then
        .stop (.ret st.ivl (some (str "timeapi: unit " ++ Quote u ++
          str " must be in the order of y, mo, d, h, m, s in interval " ++
          Quote orig)))
      else
        let maxRank := max seenRank st.maxRank
        let seen : GoString → Option Bool :=
          fun k => if k = u then some true else st.seen k
        if v > MaxInt then
          -- overflow
          .stop (.ret st.ivl (some (errInvalidInterval Quote orig)))
        else
          let ivl := st.ivl.assign u (toInt v)
          .next { s := s, ivl := ivl, seen := seen, maxRank := maxRank }

/-- One round of the loop `for s != ""` of `ParseInterval`: the digit test,
the lexer and the unit scan, then `intervalUnit`. -/
def intervalBody (orig : GoString) (st : IvlState) : Flow IvlState Interval :=
  match st.s with
  | [] => .stop .panic -- s[0] out of range
  | c :: _ =>
    -- The next character must be [0-9]
    if ¬ (48 ≤ c ∧ c ≤ 57) then
      .stop (.ret st.ivl (some (errInvalidInterval Quote orig)))
    else
      -- Consume [0-9]*
      match leadingInt st.s with
      | (_, _, some _) => .stop (.ret st.ivl (some (errInvalidInterval Quote orig)))
      | (v, s, none) =>
        -- Consume unit.
        let i := unitEnd s
        if i = 0 then
          .stop (.ret st.ivl (some (str "timeapi: missing unit in interval " ++ Quote orig)))
        else
          let u := s.take i
          let s := s.drop i
          intervalUnit Quote orig st v u s

/-- The loop `for s != "" { ... }` of `ParseInterval`, bounded by `fuel` rounds. -/
def intervalLoop (orig : GoString) (fuel : Nat) (st : IvlState) : Flow IvlState Interval :=
  forLoop (fun st => decide (st.s ≠ [])) (intervalBody Quote orig) fuel st

/-- The function `ParseInterval`.  Every round of the loop consumes at least
one byte, so the loop is given `len(s)` rounds. -/
def ParseInterval (s : GoString) : Outcome Interval :=
  let orig := s
  let ivl : Interval :=
    { year := 0, month := 0, day := 0, hour := 0, minute := 0, second := 0 }
  -- Special case: if all that is left is "0", this is zero.
  if s = str "0" then .ret ivl none
  else if s = [] then .ret ivl (some (errInvalidInterval Quote orig))
  else
    match intervalLoop Quote orig s.length
        { s := s, ivl := ivl, seen := intervalSeen, maxRank := -1 } with
    | .stop o => o
    | .next st => .ret st.ivl none

end Parsers

/-! ## error.go and time.go: UnmarshalJSON -/

/-- The function `NewErrJsonValue` followed by the method `ErrJsonValue.Error`:
the message `"timeapi: " + e.err.Error()` of the error that wraps `err`. -/
def NewErrJsonValue (err : Error) : Error := str "timeapi: " ++ err

section Json

variable (Quote : GoString → GoString)

/-- The method `(*Duration).UnmarshalJSON`, called on a receiver that holds
`d`: the result is the value the receiver holds afterwards, with the error
returned.  `fmt.Errorf` with the verb `%q` quotes `string(b)` as `strconv.Quote`
does. -/
def Duration.UnmarshalJSON (d : Duration) (b : GoString) : Outcome Duration :=
  -- strip quotes
  if b.length < 2 then
    .ret d (some (NewErrJsonValue (str "duration " ++ Quote b ++ str " is invalid")))
  else
    -- b = b[1 : len(b)-1]
    let b := (b.take (b.length - 1)).drop 1
    match ParseDuration Quote b with
    | .ret dur err =>
      match err with
      | some e => .ret d (some (NewErrJsonValue e))
      | none => .ret dur none
    | .panic => .panic
    | .outOfFuel => .outOfFuel

/-- The method `(*Interval).UnmarshalJSON`, called on a receiver that holds
`i`: the result is the value the receiver holds afterwards, with the error
returned. -/
def Interval.UnmarshalJSON (i : Interval) (b : GoString) : Outcome Interval :=
  if b.length < 2 then
    .ret i (some (NewErrJsonValue (str "interval " ++ Quote b ++ str " is invalid")))
  else
    -- b = b[1 : len(b)-1]
    let b := (b.take (b.length - 1)).drop 1
    match ParseInterval Quote b with
    | .ret ivl err =>
      match err with
      | some e => .ret i (some (NewErrJsonValue e))
      | none => .ret ivl none
    | .panic => .panic
    | .outOfFuel => .outOfFuel

end Json

/-! ## time.go: Time -/

/-- The struct `Time`. -/
structure Time where
  hour : Int
  min : Int
  sec : Int
  deriving DecidableEq, Repr

/-- The method `Time.Before`. -/
def Time.Before (t u : Time) : Bool :=
  decide (t.hour < u.hour) ||
    (decide (t.hour = u.hour) &&
      (decide (t.min < u.min) || (decide (t.min = u.min) && decide (t.sec < u.sec))))

/-- The method `Time.After`. -/
def Time.After (t u : Time) : Bool :=
  decide (t.hour > u.hour) ||
    (decide (t.hour = u.hour) &&
      (decide (t.min > u.min) || (decide (t.min = u.min) && decide (t.sec > u.sec))))

/-- The method `Time.Equal`. -/
def Time.Equal (t u : Time) : Bool :=
  decide (t.hour = u.hour) && decide (t.min = u.min) && decide (t.sec = u.sec)

/-- Quoting of a text of printable ASCII bytes other than the double quote and
the backslash, on which `strconv.Quote` only adds the enclosing quotes. -/
def quoteAscii (s : GoString) : GoString := 34 :: (s ++ [34])

/-! ## Specification vocabulary -/

section Vocabulary

variable (Quote : GoString → GoString)

/-- Value of a decimal text read from the left, starting from `x`. -/
def valFrom (x : Nat) (ds : GoString) : Nat :=
  ds.foldl (fun a c => a * 10 + (c - 48)) x

/-- The natural number a run of ASCII decimal digits denotes. -/
def digitsVal (ds : GoString) : Nat := valFrom 0 ds

/-- A non-empty run of ASCII decimal digits. -/
def IsDigitRun (ds : GoString) : Prop := ds ≠ [] ∧ ∀ c ∈ ds, isDigit c = true

/-- The text is empty or starts with a digit. -/
def EndOrDigit (r : GoString) : Prop := ∀ c ∈ r.head?, isDigit c = true

/-- Sequencing: go on with `k` after `next`, keep a `stop`. -/
def Flow.andThen {σ α : Type} (f : Flow σ α) (k : σ → Flow σ α) : Flow σ α :=
  match f with
  | .stop o => .stop o
  | .next st => k st

/-- End of a function after its loop: the outcome of a `stop`, or `k` applied
to the state in which the loop ended. -/
def Flow.finish {σ α : Type} (f : Flow σ α) (k : σ → Outcome α) : Outcome α :=
  match f with
  | .stop o => o
  | .next st => k st

/-- The maximal digit prefix of a text. -/
def digitPart (s : GoString) : GoString := s.takeWhile isDigit

/-- The maximal run without digits that follows the digit prefix: the unit. -/
def unitPart (s : GoString) : GoString :=
  (s.dropWhile isDigit).takeWhile (fun c => !isDigit c)

/-- What follows the digit prefix and the unit. -/
def restPart (s : GoString) : GoString :=
  (s.dropWhile isDigit).dropWhile (fun c => !isDigit c)

/-- A digit run followed by its unit, or nothing when the unit is omitted. -/
def piece (o : Option GoString) (u : GoString) : GoString :=
  match o with
  | none => []
  | some ds => ds ++ u

/-- Value of an optional digit run: 0 for an omitted unit. -/
def optVal (o : Option GoString) : Nat :=
  match o with
  | none => 0
  | some ds => digitsVal ds

/-- An optional digit run is, when present, a non-empty run of digits. -/
def OptRun (o : Option GoString) : Prop := ∀ ds ∈ o, IsDigitRun ds

/-- The state after a round of `ParseDuration` that accepts magnitude `v` with
unit `u` of multiplier `unit`, when nothing wraps. -/
def durAccept (st : DurState) (v : Nat) (u : GoString) (unit : Nat) (rest : GoString) :
    DurState :=
  { s := rest, d := st.d.assign u (toInt v), dtmp := st.dtmp + v * unit,
    seen := fun k => if k = u then some true else st.seen k,
    maxRank := max ((durationUnitRank u).getD 0) st.maxRank }

/-- The loop of `ParseDuration` at the fuel `len(s)`. -/
def durationRun (orig : GoString) (st : DurState) : Flow DurState Duration :=
  durationLoop Quote orig st.s.length st

/-- State after an optional digit run with its unit. -/
def durPiece (st : DurState) (o : Option GoString) (u : GoString) (unit : Nat)
    (rest : GoString) : DurState :=
  match o with
  | none => st
  | some ds => durAccept st (digitsVal ds) u unit rest

/-- The text of a duration without its sign: the units h, m, s in this order,
each with its digit run or omitted. -/
def durationText (oh om os : Option GoString) : GoString :=
  piece oh (str "h") ++ (piece om (str "m") ++ piece os (str "s"))

/-- The state in which `ParseDuration` enters its loop. -/
def durInit (s : GoString) (d : Duration) : DurState :=
  { s := s, d := d, dtmp := 0, seen := durationSeen, maxRank := -1 }

/-- The state of the loop of `ParseDuration` after the text `durationText oh om os`
that `rest` follows. -/
def durAfter (d : Duration) (oh om os : Option GoString) (rest : GoString) : DurState :=
  durPiece
    (durPiece
      (durPiece (durInit (durationText oh om os ++ rest) d) oh (str "h") 3600000000000
        (piece om (str "m") ++ (piece os (str "s") ++ rest)))
      om (str "m") 60000000000 (piece os (str "s") ++ rest))
    os (str "s") 1000000000 rest

/-- The step `Consume [-+]?` of `ParseDuration`: the flag `neg` and the text
after the sign. -/
def stripSign (s : GoString) : Bool × GoString :=
  match s with
  | [] => (false, [])
  | c :: rest => if c = 45 ∨ c = 43 then (decide (c = 45), rest) else (false, c :: rest)

/-- The function `ParseDuration` after the step `Consume [-+]?`. -/
def durationTail (orig : GoString) (neg : Bool) (t : GoString) : Outcome Duration :=
  if t = [] then
    .ret { neg := 0, hour := 0, minute := 0, second := 0 } (some (errInvalidDuration Quote orig))
  else if t = str "0" then
    .ret { neg := if neg then -1 else 1, hour := 0, minute := 0, second := 0 } none
  else
    (durationRun Quote orig
      (durInit t { neg := if neg then -1 else 1, hour := 0, minute := 0, second := 0 })).finish
      (fun st =>
        if neg then .ret st.d none
        else if st.dtmp > 2 ^ 63 - 1 then .ret st.d (some (errInvalidDuration Quote orig))
        else .ret st.d none)

/-- The digit run that `String` writes for a field: none for the value 0. -/
def fieldRun (n : Nat) : Option GoString := if n = 0 then none else some (Itoa (n : Int))

instance (ds : GoString) : Decidable (IsDigitRun ds) := by
  unfold IsDigitRun
  infer_instance

/-- Invariant of the loop of `ParseDuration` on its numeric variables: the
fields are non-negative, `dtmp` is their total in nanoseconds and does not
exceed `2 ^ 63`, and the field of a unit not seen yet is 0. -/
def DurInv (st : DurState) : Prop :=
  0 ≤ st.d.hour ∧ 0 ≤ st.d.minute ∧ 0 ≤ st.d.second ∧
  (st.dtmp : Int) = 1000000000 * (3600 * st.d.hour + 60 * st.d.minute + st.d.second) ∧
  st.dtmp ≤ 2 ^ 63 ∧
  ((st.seen (str "h")).getD false = false → st.d.hour = 0) ∧
  ((st.seen (str "m")).getD false = false → st.d.minute = 0) ∧
  ((st.seen (str "s")).getD false = false → st.d.second = 0)

/-- Concatenation of pairs (digit run, unit). -/
def pairsText : List (GoString × GoString) → GoString
  | [] => []
  | p :: ps => p.1 ++ (p.2 ++ pairsText ps)

/-- Invariant of a parser loop on the text read so far: the input `t0` is the
pairs `ps` followed by the rest `s`; every pair is a digit run with a unit that
is marked as seen and of rank at most `maxRank`; the ranks increase strictly. -/
def GramInv (isUnit : GoString → Prop) (rank : GoString → Int) (t0 s : GoString)
    (seen : GoString → Option Bool) (maxRank : Int) : Prop :=
  ∃ ps : List (GoString × GoString), t0 = pairsText ps ++ s ∧
    (∀ p ∈ ps, IsDigitRun p.1 ∧ isUnit p.2 ∧ seen p.2 = some true ∧ rank p.2 ≤ maxRank) ∧
    ps.Pairwise (fun p q => rank p.2 < rank q.2)

/-- The units of a duration. -/
def IsDurationUnit (u : GoString) : Prop := u = str "h" ∨ u = str "m" ∨ u = str "s"

/-- Rank of a unit of a duration, as the loop reads it from `durationUnitRank`. -/
def durRank (u : GoString) : Int := (durationUnitRank u).getD 0

/-- The grammar `(digits unit)+` of a duration after its sign: between one and
three pairs of a non-empty digit run and a unit h, m or s, the ranks of the
units increasing strictly. -/
def DurationGrammar (t : GoString) : Prop :=
  ∃ ps : List (GoString × GoString), t = pairsText ps ∧ 1 ≤ ps.length ∧ ps.length ≤ 3 ∧
    (∀ p ∈ ps, IsDigitRun p.1 ∧ IsDurationUnit p.2) ∧
    ps.Pairwise (fun p q => durRank p.2 < durRank q.2)

/-- The unit `u` occurs in the text `durationText oh om os`. -/
def Present (oh om os : Option GoString) (u : GoString) : Prop :=
  (u = str "h" ∧ oh.isSome = true) ∨ (u = str "m" ∧ om.isSome = true) ∨
    (u = str "s" ∧ os.isSome = true)

/-- The units of an interval. -/
def IsIntervalUnit (u : GoString) : Prop :=
  u = str "y" ∨ u = str "mo" ∨ u = str "d" ∨ u = str "h" ∨ u = str "m" ∨ u = str "s"

/-- Rank of a unit of an interval, as the loop reads it from `intervalUnitRank`. -/
def ivlRank (u : GoString) : Int := (intervalUnitRank u).getD 0

/-- The state after a round of `ParseInterval` that accepts magnitude `v` with
unit `u`, for `v` within the range of `int`. -/
def ivlAccept (st : IvlState) (v : Nat) (u rest : GoString) : IvlState :=
  { s := rest, ivl := st.ivl.assign u (v : Int),
    seen := fun k => if k = u then some true else st.seen k,
    maxRank := max (ivlRank u) st.maxRank }

/-- State after an optional digit run with its unit. -/
def ivlPiece (st : IvlState) (o : Option GoString) (u rest : GoString) : IvlState :=
  match o with
  | none => st
  | some ds => ivlAccept st (digitsVal ds) u rest

/-- The state in which `ParseInterval` enters its loop. -/
def ivlInit (s : GoString) : IvlState :=
  { s := s,
    ivl := { year := 0, month := 0, day := 0, hour := 0, minute := 0, second := 0 },
    seen := intervalSeen, maxRank := -1 }

/-- No unit of rank `k` or more has been read: the watermark is below `k` and
these units are marked as not seen. -/
def Fresh (k : Int) (st : IvlState) : Prop :=
  st.maxRank < k ∧ ∀ u, IsIntervalUnit u → k ≤ ivlRank u → st.seen u = some false

/-- The loop of `ParseInterval` at the fuel `len(s)`. -/
def intervalRun (orig : GoString) (st : IvlState) : Flow IvlState Interval :=
  intervalLoop Quote orig st.s.length st

/-- The text of an interval: the units y, mo, d, h, m, s in this order, each
with its digit run or omitted. -/
def intervalText (oy omo od oh om os : Option GoString) : GoString :=
  piece oy (str "y") ++ (piece omo (str "mo") ++ (piece od (str "d") ++
    (piece oh (str "h") ++ (piece om (str "m") ++ piece os (str "s")))))

/-- The state of the loop of `ParseInterval` after the text
`intervalText oy omo od oh om os` that `rest` follows. -/
def ivlAfter (oy omo od oh om os : Option GoString) (rest : GoString) : IvlState :=
  ivlPiece (ivlPiece (ivlPiece (ivlPiece (ivlPiece (ivlPiece
    (ivlInit (intervalText oy omo od oh om os ++ rest))
    oy (str "y") (piece omo (str "mo") ++ (piece od (str "d") ++ (piece oh (str "h") ++
      (piece om (str "m") ++ (piece os (str "s") ++ rest))))))
    omo (str "mo") (piece od (str "d") ++ (piece oh (str "h") ++
      (piece om (str "m") ++ (piece os (str "s") ++ rest)))))
    od (str "d") (piece oh (str "h") ++ (piece om (str "m") ++ (piece os (str "s") ++ rest))))
    oh (str "h") (piece om (str "m") ++ (piece os (str "s") ++ rest)))
    om (str "m") (piece os (str "s") ++ rest))
    os (str "s") rest

/-- The grammar `(digits unit)+` of an interval: between one and six pairs of
a non-empty digit run and a unit y, mo, d, h, m or s, the ranks of the units
increasing strictly. -/
def IntervalGrammar (t : GoString) : Prop :=
  ∃ ps : List (GoString × GoString), t = pairsText ps ∧ 1 ≤ ps.length ∧ ps.length ≤ 6 ∧
    (∀ p ∈ ps, IsDigitRun p.1 ∧ IsIntervalUnit p.2) ∧
    ps.Pairwise (fun p q => ivlRank p.2 < ivlRank q.2)

/-- Invariant of the loop of `ParseInterval` on the text read so far; the keys
of the map `seen` are units. -/
def IvlGramInv (t0 : GoString) (st : IvlState) : Prop :=
  GramInv IsIntervalUnit ivlRank t0 st.s st.seen st.maxRank ∧
    ∀ u b, st.seen u = some b → IsIntervalUnit u

/-- The text `s` with one leading `+` or `-` removed if present. -/
def dropSign (s : GoString) : GoString :=
  match s with
  | [] => []
  | c :: rest => if c = 43 ∨ c = 45 then rest else c :: rest

/-- Two control flows are related: both go on, in related states, or both
stop, with related outcomes. -/
def FlowRel {σ α : Type} (R : σ → σ → Prop) (Ro : Outcome α → Outcome α → Prop) :
    Flow σ α → Flow σ α → Prop
  | .next a, .next b => R a b
  | .stop o, .stop p => Ro o p
  | _, _ => False

/-- The state `st` with the sign of its duration set to `n`. -/
def DurState.withNeg (st : DurState) (n : Int) : DurState :=
  { st with d := { st.d with neg := n } }

/-- Two outcomes of `ParseDuration` agree up to the sign and the text of the
error: the first duration has sign `m`, the second is the first with sign `n`,
and one error is nil exactly when the other is. -/
def OutRel (m n : Int) : Outcome Duration → Outcome Duration → Prop
  | .ret d e, .ret d1 e1 => d.neg = m ∧ d1 = { d with neg := n } ∧ (e = none ↔ e1 = none)
  | .panic, .panic => True
  | .outOfFuel, .outOfFuel => True
  | _, _ => False

/-- The text starts with a pair that the first round of `ParseDuration`
accepts: a non-empty digit run, then a run without digits that is one of the
units h, m, s, the value of the digit run being at most `2 ^ 63 / unit`. -/
def FirstAccepted (t : GoString) : Prop :=
  digitPart t ≠ [] ∧
    ∃ unit, durationUnitMap (unitPart t) = some unit ∧ digitsVal (digitPart t) ≤ 2 ^ 63 / unit

/-- The field of a duration that the unit `u` names. -/
def Duration.field (d : Duration) (u : GoString) : Int :=
  if u = str "h" then d.hour
  else if u = str "m" then d.minute
  else if u = str "s" then d.second
  else 0

/-- The loop of `leadingInt` with a record: the second component lists, for
every round that computes `x = x*10 + uint64(c) - '0'`, the exact value of
`x*10 + uint64(c)` as a natural number. -/
def leadingIntTrace : GoString → Nat → (Nat × GoString × Option Error) × List Nat
  | [], x => ((x, [], none), [])
  | c :: rest, x =>
    if c < 48 ∨ c > 57 then ((x, c :: rest, none), [])
    else if x > 2 ^ 63 / 10 then ((0, [], some (str "timeapi: bad [0-9]*")), [])
    else
      let x1 := (x * 10 + c - 48) % 2 ^ 64
      if x1 > 2 ^ 63 then ((0, [], some (str "timeapi: bad [0-9]*")), [x * 10 + c])
      else ((leadingIntTrace rest x1).1, (x * 10 + c) :: (leadingIntTrace rest x1).2)

/-- A loop `forLoop` whose body keeps a record: the records of the rounds are
concatenated. -/
def forLoopTrace {σ α τ : Type} (guard : σ → Bool) (body : σ → Flow σ α × List τ) :
    Nat → σ → Flow σ α × List τ
  | 0, st => (if guard st then .stop .outOfFuel else .next st, [])
  | fuel + 1, st =>
    if guard st then
      match body st with
      | (.stop o, tr) => (.stop o, tr)
      | (.next st1, tr) =>
        ((forLoopTrace guard body fuel st1).1, tr ++ (forLoopTrace guard body fuel st1).2)
    else (.next st, [])

/-- The second half of a round of `ParseDuration` with a record: the second
component lists the exact values, as natural numbers, of the product `v * unit`
of `v *= unit` and of the sum of `dtmp += v`, when the round computes them. -/
def durationUnitTrace (orig : GoString) (st : DurState) (v : Nat) (u s : GoString) :
    Flow DurState Duration × List Nat :=
  match durationUnitMap u with
  | none =>
    (.stop (.ret st.d (some (str "timeapi: unknown unit " ++ Quote u ++
      str " in duration " ++ Quote orig))), [])
  | some unit =>
    if (st.seen u).getD false then
      (.stop (.ret st.d (some (str "timeapi: unit " ++ Quote u ++
        str " repeated in duration " ++ Quote orig))), [])
    else
      let seenRank := (durationUnitRank u).getD 0
      if seenRank < st.maxRank then
        (.stop (.ret st.d (some (str "timeapi: unit " ++ Quote u ++
          str " must be in the order of h, m, s in duration " ++ Quote orig))), [])
      else
        let maxRank := max seenRank st.maxRank
        let seen : GoString → Option Bool :=
          fun k => if k = u then some true else st.seen k
        if v > 2 ^ 63 / unit then
          (.stop (.ret st.d (some (errInvalidDuration Quote orig))), [])
        else
          let d := st.d.assign u (toInt v)
          let product := v * unit
          let v := product % 2 ^ 64
          let sum := st.dtmp + v
          let dtmp := sum % 2 ^ 64
          if dtmp > 2 ^ 63 then
            (.stop (.ret d (some (errInvalidDuration Quote orig))), [product, sum])
          else
            (.next { s := s, d := d, dtmp := dtmp, seen := seen, maxRank := maxRank },
              [product, sum])

/-- One round of the loop of `ParseDuration` with the record of its arithmetic. -/
def durationBodyTrace (orig : GoString) (st : DurState) :
    Flow DurState Duration × List Nat :=
  match st.s with
  | [] => (.stop .panic, [])
  | c :: _ =>
    if ¬ (48 ≤ c ∧ c ≤ 57) then
      (.stop (.ret st.d (some (errInvalidDuration Quote orig))), [])
    else
      match leadingInt st.s with
      | (_, _, some _) => (.stop (.ret st.d (some (errInvalidDuration Quote orig))), [])
      | (v, s, none) =>
        let i := unitEnd s
        if i = 0 then
          (.stop (.ret st.d (some (str "timeapi: missing unit in duration " ++ Quote orig))),
            [])
        else
          durationUnitTrace Quote orig st v (s.take i) (s.drop i)

/-- The function `ParseDuration` with the record of the products `v * unit` and
the sums `dtmp + v` that its loop computes, in the order of the computation. -/
def ParseDurationTrace (s : GoString) : Outcome Duration × List Nat :=
  let orig := s
  let d : Duration := { neg := 0, hour := 0, minute := 0, second := 0 }
  let (neg, s) : Bool × GoString :=
    match s with
    | [] => (false, s)
    | c :: rest => if c = 45 ∨ c = 43 then (decide (c = 45), rest) else (false, s)
  if s = [] then (.ret d (some (errInvalidDuration Quote orig)), [])
  else
    let d : Duration := { d with neg := if neg then -1 else 1 }
    if s = str "0" then (.ret d none, [])
    else
      match forLoopTrace (fun st => decide (st.s ≠ [])) (durationBodyTrace Quote orig) s.length
          { s := s, d := d, dtmp := 0, seen := durationSeen, maxRank := -1 } with
      | (.stop o, tr) => (o, tr)
      | (.next st, tr) =>
        (if neg then .ret st.d none
          else if st.dtmp > 2 ^ 63 - 1 then .ret st.d (some (errInvalidDuration Quote orig))
          else .ret st.d none, tr)

end Vocabulary

/-! ## The lexer -/

theorem isDigit_iff (c : Nat) : isDigit c = true ↔ 48 ≤ c ∧ c ≤ 57 := by
  simp [isDigit]

theorem isDigit_false_iff (c : Nat) : isDigit c = false ↔ c < 48 ∨ c > 57 := by
  simp only [isDigit, Bool.and_eq_false_iff, decide_eq_false_iff_not]; omega

theorem valFrom_cons (x c : Nat) (ds : GoString) :
    valFrom x (c :: ds) = valFrom (x * 10 + (c - 48)) ds := rfl

theorem valFrom_nil (x : Nat) : valFrom x [] = x := rfl

theorem le_valFrom (ds : GoString) : ∀ x, x ≤ valFrom x ds := by
  induction ds with
  | nil => intro x; exact Nat.le_refl x
  | cons c ds ih =>
    intro x
    rw [valFrom_cons]
    have := ih (x * 10 + (c - 48))
    omega

theorem valFrom_append (x : Nat) (ds es : GoString) :
    valFrom x (ds ++ es) = valFrom (valFrom x ds) es := by
  simp [valFrom, List.foldl_append]

/-- What `leadingInt` computes, for any starting value within range: the value
of the maximal digit prefix and the rest of the text, or the overflow error
when that value exceeds `2 ^ 63`. -/
theorem leadingIntLoop_eq (s : GoString) : ∀ x, x ≤ 2 ^ 63 →
    leadingIntLoop s x =
      if valFrom x (s.takeWhile isDigit) ≤ 2 ^ 63 then
        (valFrom x (s.takeWhile isDigit), s.dropWhile isDigit, none)
      else (0, [], some (str "timeapi: bad [0-9]*")) := by
  induction s with
  | nil =>
    intro x hx
    rw [leadingIntLoop, List.takeWhile_nil, List.dropWhile_nil, valFrom_nil, if_pos hx]
  | cons c rest ih =>
    intro x hx
    rw [leadingIntLoop]
    by_cases hc : isDigit c = true
    · have hc2 := (isDigit_iff c).1 hc
      have hnot : ¬ (c < 48 ∨ c > 57) := by omega
      rw [if_neg hnot, List.takeWhile_cons_of_pos hc, List.dropWhile_cons_of_pos hc,
        valFrom_cons]
      have hle := le_valFrom (rest.takeWhile isDigit) (x * 10 + (c - 48))
      by_cases hbig : x > 2 ^ 63 / 10
      · rw [if_pos hbig, if_neg]
        have : 2 ^ 63 < x * 10 + (c - 48) := by
          norm_num at hbig ⊢; omega
        omega
      · rw [if_neg hbig]
        have hx1 : (x * 10 + c - 48) % 2 ^ 64 = x * 10 + (c - 48) := by
          norm_num at hbig ⊢; omega
        simp only [hx1]
        by_cases hbig2 : x * 10 + (c - 48) > 2 ^ 63
        · rw [if_pos hbig2, if_neg]; omega
        · rw [if_neg hbig2]
          exact ih _ (by omega)
    · have hc1 : isDigit c = false := by simpa using hc
      have hc2 := (isDigit_false_iff c).1 hc1
      rw [if_pos hc2, List.takeWhile_cons_of_neg hc, List.dropWhile_cons_of_neg hc,
        valFrom_nil, if_pos hx]

theorem leadingInt_eq (s : GoString) :
    leadingInt s =
      if digitsVal (s.takeWhile isDigit) ≤ 2 ^ 63 then
        (digitsVal (s.takeWhile isDigit), s.dropWhile isDigit, none)
      else (0, [], some (str "timeapi: bad [0-9]*")) :=
  leadingIntLoop_eq s 0 (by norm_num)

theorem take_unitEnd (s : GoString) :
    s.take (unitEnd s) = s.takeWhile (fun c => !isDigit c) := by
  induction s with
  | nil => rfl
  | cons c rest ih =>
    rw [unitEnd]
    by_cases hc : isDigit c = true
    · have hc2 := (isDigit_iff c).1 hc
      rw [if_pos hc2, List.takeWhile_cons_of_neg (by simp [hc])]
      rfl
    · have hc1 : isDigit c = false := by simpa using hc
      have hc2 : ¬ (48 ≤ c ∧ c ≤ 57) := fun h => hc ((isDigit_iff c).2 h)
      rw [if_neg hc2, List.takeWhile_cons_of_pos (by simp [hc1]), List.take_succ_cons, ih]

theorem drop_unitEnd (s : GoString) :
    s.drop (unitEnd s) = s.dropWhile (fun c => !isDigit c) := by
  induction s with
  | nil => rfl
  | cons c rest ih =>
    rw [unitEnd]
    by_cases hc : isDigit c = true
    · have hc2 := (isDigit_iff c).1 hc
      rw [if_pos hc2, List.dropWhile_cons_of_neg (by simp [hc])]
      rfl
    · have hc1 : isDigit c = false := by simpa using hc
      have hc2 : ¬ (48 ≤ c ∧ c ≤ 57) := fun h => hc ((isDigit_iff c).2 h)
      rw [if_neg hc2, List.dropWhile_cons_of_pos (by simp [hc1]), List.drop_succ_cons, ih]

theorem unitEnd_eq_zero_iff (s : GoString) : unitEnd s = 0 ↔ EndOrDigit s := by
  cases s with
  | nil => simp [unitEnd, EndOrDigit]
  | cons c rest =>
    simp only [unitEnd, EndOrDigit, List.head?_cons, Option.mem_def, Option.some.injEq,
      forall_eq', isDigit_iff]
    by_cases h : 48 ≤ c ∧ c ≤ 57 <;> simp [h]

/-! ## The loop combinator -/

section Loop

variable {σ α : Type} (guard : σ → Bool) (body : σ → Flow σ α) (μ : σ → Nat)

/-- With a measure that every round decreases, any fuel at least the measure
gives the same result. -/
theorem forLoop_fuel (hpos : ∀ st, guard st = true → 0 < μ st)
    (hdec : ∀ st st1, guard st = true → body st = .next st1 → μ st1 < μ st) :
    ∀ fuel1 fuel2 st, μ st ≤ fuel1 → μ st ≤ fuel2 →
      forLoop guard body fuel1 st = forLoop guard body fuel2 st := by
  intro fuel1
  induction fuel1 with
  | zero =>
    intro fuel2 st h1 _
    have hg : guard st = false := by
      cases hgs : guard st with
      | false => rfl
      | true => have := hpos st hgs; omega
    cases fuel2 <;> simp [forLoop, hg]
  | succ n ih =>
    intro fuel2 st h1 h2
    cases hgs : guard st with
    | false => cases fuel2 <;> simp [forLoop, hgs]
    | true =>
      have hp := hpos st hgs
      cases fuel2 with
      | zero => omega
      | succ m =>
        simp only [forLoop, hgs, if_true]
        cases hb : body st with
        | stop o => rfl
        | next st1 =>
          have := hdec st st1 hgs hb
          exact ih m st1 (by omega) (by omega)

theorem forLoop_done (fuel : Nat) (st : σ) (hg : guard st = false) :
    forLoop guard body fuel st = .next st := by
  cases fuel <;> simp [forLoop, hg]

/-- One round of the loop at the canonical fuel. -/
theorem forLoop_step (hpos : ∀ st, guard st = true → 0 < μ st)
    (hdec : ∀ st st1, guard st = true → body st = .next st1 → μ st1 < μ st)
    (st : σ) (hg : guard st = true) :
    forLoop guard body (μ st) st =
      (body st).andThen (fun st1 => forLoop guard body (μ st1) st1) := by
  have hp := hpos st hg
  obtain ⟨k, hk⟩ : ∃ k, μ st = k + 1 := ⟨μ st - 1, by omega⟩
  rw [hk]
  simp only [forLoop, hg, if_true]
  cases hb : body st with
  | stop o => rfl
  | next st1 =>
    have := hdec st st1 hg hb
    simp only [Flow.andThen]
    exact forLoop_fuel guard body μ hpos hdec k (μ st1) st1 (by omega) (Nat.le_refl _)

/-- Loop invariant rule: an invariant kept by every round holds in the state in
which the loop ends, and the guard fails there. -/
theorem forLoop_next_inv (P : σ → Prop)
    (hstep : ∀ st st1, P st → guard st = true → body st = .next st1 → P st1) :
    ∀ fuel st stf, P st → forLoop guard body fuel st = .next stf →
      P stf ∧ guard stf = false := by
  intro fuel
  induction fuel with
  | zero =>
    intro st stf hP h
    cases hg : guard st with
    | false =>
      simp only [forLoop, hg] at h
      cases h
      exact ⟨hP, hg⟩
    | true => simp [forLoop, hg] at h
  | succ n ih =>
    intro st stf hP h
    cases hg : guard st with
    | false =>
      simp only [forLoop, hg] at h
      cases h
      exact ⟨hP, hg⟩
    | true =>
      simp only [forLoop, hg, if_true] at h
      cases hb : body st with
      | stop o => rw [hb] at h; cases h
      | next st1 =>
        rw [hb] at h
        exact ih st1 stf (hstep st st1 hP hg hb) h

/-- Loop rule for a return inside the loop: it comes from a round started in a
state that satisfies the invariant, or the fuel ran out. -/
theorem forLoop_stop_inv (P : σ → Prop) (R : Outcome α → Prop)
    (hstep : ∀ st st1, P st → guard st = true → body st = .next st1 → P st1)
    (hstop : ∀ st o, P st → guard st = true → body st = .stop o → R o)
    (hfuel : R .outOfFuel) :
    ∀ fuel st o, P st → forLoop guard body fuel st = .stop o → R o := by
  intro fuel
  induction fuel with
  | zero =>
    intro st o hP h
    cases hg : guard st with
    | false => simp [forLoop, hg] at h
    | true =>
      simp only [forLoop, hg, if_true] at h
      cases h
      exact hfuel
  | succ n ih =>
    intro st o hP h
    cases hg : guard st with
    | false => simp [forLoop, hg] at h
    | true =>
      simp only [forLoop, hg, if_true] at h
      cases hb : body st with
      | stop o1 =>
        rw [hb] at h
        cases h
        exact hstop st o hP hg hb
      | next st1 =>
        rw [hb] at h
        exact ih st1 o (hstep st st1 hP hg hb) h

end Loop

/-! ## One round of the parser loops -/

theorem takeWhile_run {p : Nat → Bool} (l r : GoString) (h1 : ∀ a ∈ l, p a = true)
    (h2 : ∀ a ∈ r.head?, p a = false) :
    (l ++ r).takeWhile p = l ∧ (l ++ r).dropWhile p = r := by
  induction l with
  | nil =>
    cases r with
    | nil => exact ⟨rfl, rfl⟩
    | cons a r =>
      have ha : p a = false := h2 a rfl
      simp [List.takeWhile, List.dropWhile, ha]
  | cons a l ih =>
    have ha : p a = true := h1 a (List.mem_cons_self a l)
    have := ih (fun b hb => h1 b (List.mem_cons_of_mem a hb))
    simp [List.takeWhile, List.dropWhile, ha, this.1, this.2]

theorem parts_append (s : GoString) : digitPart s ++ (unitPart s ++ restPart s) = s := by
  simp [digitPart, unitPart, restPart, List.takeWhile_append_dropWhile]

theorem digitPart_all (s : GoString) : ∀ c ∈ digitPart s, isDigit c = true :=
  fun _ hc => List.mem_takeWhile_imp hc

theorem unitPart_all (s : GoString) : ∀ c ∈ unitPart s, isDigit c = false := by
  intro c hc
  have := List.mem_takeWhile_imp hc
  simpa using this

theorem restPart_endOrDigit (s : GoString) : EndOrDigit (restPart s) := by
  intro c hc
  have h := List.head?_dropWhile_not (fun c => !isDigit c) (s.dropWhile isDigit)
  unfold restPart at hc
  cases hd : ((s.dropWhile isDigit).dropWhile (fun c => !isDigit c)).head? with
  | none => rw [hd] at hc; cases hc
  | some a =>
    rw [hd] at hc h
    cases hc
    simpa using h

/-- The three parts of a text made of a digit run, a run without digits and a
rest that is empty or starts with a digit. -/
theorem parts_of_pair (ds u rest : GoString) (hds : ∀ c ∈ ds, isDigit c = true)
    (hu : u ≠ []) (hu2 : ∀ c ∈ u, isDigit c = false) (hr : EndOrDigit rest) :
    digitPart (ds ++ (u ++ rest)) = ds ∧ unitPart (ds ++ (u ++ rest)) = u ∧
      restPart (ds ++ (u ++ rest)) = rest := by
  have h1 := takeWhile_run (p := isDigit) ds (u ++ rest) hds (by
    cases u with
    | nil => exact absurd rfl hu
    | cons a u =>
      intro c hc
      cases hc
      exact hu2 a (List.mem_cons_self a u))
  have h2 := takeWhile_run (p := fun c => !isDigit c) u rest
    (by intro a ha; simp [hu2 a ha])
    (by intro a ha; simp [hr a ha])
  refine ⟨h1.1, ?_, ?_⟩
  · unfold unitPart; rw [h1.2]; exact h2.1
  · unfold restPart; rw [h1.2]; exact h2.2

section Body

variable (Quote : GoString → GoString)

/-- One round of the loop of `ParseDuration` in terms of the three parts of
the text. -/
theorem durationBody_eq (orig : GoString) (st : DurState) (hs : st.s ≠ []) :
    durationBody Quote orig st =
      if digitPart st.s = [] ∨ 2 ^ 63 < digitsVal (digitPart st.s) then
        .stop (.ret st.d (some (errInvalidDuration Quote orig)))
      else if unitPart st.s = [] then
        .stop (.ret st.d (some (str "timeapi: missing unit in duration " ++ Quote orig)))
      else durationUnit Quote orig st (digitsVal (digitPart st.s)) (unitPart st.s)
        (restPart st.s) := by
  unfold durationBody
  cases hst : st.s with
  | nil => exact absurd hst hs
  | cons c rest =>
    simp only
    by_cases hc : isDigit c = true
    · have hc2 := (isDigit_iff c).1 hc
      have hne : digitPart (c :: rest) ≠ [] := by
        simp [digitPart, List.takeWhile_cons_of_pos hc]
      rw [if_neg (not_not.2 hc2), leadingInt_eq]
      by_cases hv : digitsVal (List.takeWhile isDigit (c :: rest)) ≤ 2 ^ 63
      · have hv2 : ¬ (digitPart (c :: rest) = [] ∨ 2 ^ 63 < digitsVal (digitPart (c :: rest))) := by
          simp only [digitPart, not_or, not_lt]
          exact ⟨hne, hv⟩
        rw [if_pos hv, if_neg hv2]
        simp only [take_unitEnd, drop_unitEnd]
        by_cases hu : unitPart (c :: rest) = []
        · have hu0 : unitEnd (List.dropWhile isDigit (c :: rest)) = 0 := by
            have := take_unitEnd (List.dropWhile isDigit (c :: rest))
            unfold unitPart at hu
            rw [hu] at this
            have h3 := (unitEnd_eq_zero_iff (List.dropWhile isDigit (c :: rest)))
            by_contra hne0
            cases hd : List.dropWhile isDigit (c :: rest) with
            | nil => rw [hd] at hne0; exact hne0 rfl
            | cons a l =>
              rw [hd] at this hne0
              obtain ⟨k, hk⟩ : ∃ k, unitEnd (a :: l) = k + 1 :=
                ⟨unitEnd (a :: l) - 1, by omega⟩
              rw [hk] at this
              simp at this
          rw [if_pos hu0, if_pos hu]
        · have hu0 : unitEnd (List.dropWhile isDigit (c :: rest)) ≠ 0 := by
            intro h0
            have := take_unitEnd (List.dropWhile isDigit (c :: rest))
            rw [h0] at this
            exact hu (by unfold unitPart; rw [← this]; rfl)
          rw [if_neg hu0, if_neg hu]
          rfl
      · have hv2 : digitPart (c :: rest) = [] ∨ 2 ^ 63 < digitsVal (digitPart (c :: rest)) :=
          Or.inr (by simp only [digitPart]; omega)
        rw [if_neg hv, if_pos hv2]
    · have hc1 : ¬ (48 ≤ c ∧ c ≤ 57) := fun h => hc ((isDigit_iff c).2 h)
      have hd : digitPart (c :: rest) = [] := by
        simp [digitPart, List.takeWhile_cons_of_neg hc]
      rw [if_pos hc1, if_pos (Or.inl hd)]

/-- One round of the loop of `ParseInterval` in terms of the three parts of
the text. -/
theorem intervalBody_eq (orig : GoString) (st : IvlState) (hs : st.s ≠ []) :
    intervalBody Quote orig st =
      if digitPart st.s = [] ∨ 2 ^ 63 < digitsVal (digitPart st.s) then
        .stop (.ret st.ivl (some (errInvalidInterval Quote orig)))
      else if unitPart st.s = [] then
        .stop (.ret st.ivl (some (str "timeapi: missing unit in interval " ++ Quote orig)))
      else intervalUnit Quote orig st (digitsVal (digitPart st.s)) (unitPart st.s)
        (restPart st.s) := by
  unfold intervalBody
  cases hst : st.s with
  | nil => exact absurd hst hs
  | cons c rest =>
    simp only
    by_cases hc : isDigit c = true
    · have hc2 := (isDigit_iff c).1 hc
      have hne : digitPart (c :: rest) ≠ [] := by
        simp [digitPart, List.takeWhile_cons_of_pos hc]
      rw [if_neg (not_not.2 hc2), leadingInt_eq]
      by_cases hv : digitsVal (List.takeWhile isDigit (c :: rest)) ≤ 2 ^ 63
      · have hv2 : ¬ (digitPart (c :: rest) = [] ∨ 2 ^ 63 < digitsVal (digitPart (c :: rest))) := by
          simp only [digitPart, not_or, not_lt]
          exact ⟨hne, hv⟩
        rw [if_pos hv, if_neg hv2]
        simp only [take_unitEnd, drop_unitEnd]
        by_cases hu : unitPart (c :: rest) = []
        · have hu0 : unitEnd (List.dropWhile isDigit (c :: rest)) = 0 := by
            have := take_unitEnd (List.dropWhile isDigit (c :: rest))
            unfold unitPart at hu
            rw [hu] at this
            by_contra hne0
            cases hd : List.dropWhile isDigit (c :: rest) with
            | nil => rw [hd] at hne0; exact hne0 rfl
            | cons a l =>
              rw [hd] at this hne0
              obtain ⟨k, hk⟩ : ∃ k, unitEnd (a :: l) = k + 1 :=
                ⟨unitEnd (a :: l) - 1, by omega⟩
              rw [hk] at this
              simp at this
          rw [if_pos hu0, if_pos hu]
        · have hu0 : unitEnd (List.dropWhile isDigit (c :: rest)) ≠ 0 := by
            intro h0
            have := take_unitEnd (List.dropWhile isDigit (c :: rest))
            rw [h0] at this
            exact hu (by unfold unitPart; rw [← this]; rfl)
          rw [if_neg hu0, if_neg hu]
          rfl
      · have hv2 : digitPart (c :: rest) = [] ∨ 2 ^ 63 < digitsVal (digitPart (c :: rest)) :=
          Or.inr (by simp only [digitPart]; omega)
        rw [if_neg hv, if_pos hv2]
    · have hc1 : ¬ (48 ≤ c ∧ c ≤ 57) := fun h => hc ((isDigit_iff c).2 h)
      have hd : digitPart (c :: rest) = [] := by
        simp [digitPart, List.takeWhile_cons_of_neg hc]
      rw [if_pos hc1, if_pos (Or.inl hd)]

end Body

/-! ## ParseDuration: rounds that accept a unit -/

@[simp] theorem piece_none (u : GoString) : piece none u = [] := rfl

@[simp] theorem piece_some (ds u : GoString) : piece (some ds) u = ds ++ u := rfl

@[simp] theorem optVal_none : optVal none = 0 := rfl

@[simp] theorem optVal_some (ds : GoString) : optVal (some ds) = digitsVal ds := rfl

theorem str_h : str "h" = [104] := rfl
theorem str_m : str "m" = [109] := rfl
theorem str_s : str "s" = [115] := rfl
theorem str_y : str "y" = [121] := rfl
theorem str_mo : str "mo" = [109, 111] := rfl
theorem str_d : str "d" = [100] := rfl
theorem str_zero : str "0" = [48] := rfl

theorem durationUnitMap_some {u : GoString} {unit : Nat} (h : durationUnitMap u = some unit) :
    (u = str "h" ∧ unit = 3600000000000) ∨ (u = str "m" ∧ unit = 60000000000) ∨
      (u = str "s" ∧ unit = 1000000000) := by
  unfold durationUnitMap at h
  split_ifs at h with h1 h2 h3
  · exact Or.inl ⟨h1, (Option.some.inj h).symm⟩
  · exact Or.inr (Or.inl ⟨h2, (Option.some.inj h).symm⟩)
  · exact Or.inr (Or.inr ⟨h3, (Option.some.inj h).symm⟩)

theorem unit_shape {u : GoString}
    (h : u = str "y" ∨ u = str "mo" ∨ u = str "d" ∨ u = str "h" ∨ u = str "m" ∨ u = str "s") :
    u ≠ [] ∧ ∀ c ∈ u, isDigit c = false := by
  rcases h with h | h | h | h | h | h <;> subst h <;> decide

theorem durationUnit_shape {u : GoString} {unit : Nat} (h : durationUnitMap u = some unit) :
    u ≠ [] ∧ ∀ c ∈ u, isDigit c = false := by
  rcases durationUnitMap_some h with h | h | h
  · exact unit_shape (Or.inr (Or.inr (Or.inr (Or.inl h.1))))
  · exact unit_shape (Or.inr (Or.inr (Or.inr (Or.inr (Or.inl h.1)))))
  · exact unit_shape (Or.inr (Or.inr (Or.inr (Or.inr (Or.inr h.1)))))

section DurationRounds

variable (Quote : GoString → GoString)

/-- Conditions under which the second half of a round accepts the unit. -/
theorem durationUnit_accept (orig : GoString) (st : DurState) (v : Nat) (u rest : GoString)
    (unit : Nat) (hu : durationUnitMap u = some unit)
    (hseen : (st.seen u).getD false = false)
    (hrank : st.maxRank ≤ (durationUnitRank u).getD 0)
    (hv : v ≤ 2 ^ 63 / unit) (ht : st.dtmp + v * unit ≤ 2 ^ 63) :
    durationUnit Quote orig st v u rest = .next (durAccept st v u unit rest) := by
  have h1 : v * unit % 2 ^ 64 = v * unit := Nat.mod_eq_of_lt (by norm_num at ht ⊢; omega)
  have h2 : (st.dtmp + v * unit) % 2 ^ 64 = st.dtmp + v * unit :=
    Nat.mod_eq_of_lt (by norm_num at ht ⊢; omega)
  unfold durationUnit
  simp only [hu, hseen, h1, h2]
  rw [if_neg (by simp), if_neg (not_lt.2 hrank), if_neg (not_lt.2 hv), if_neg (not_lt.2 ht)]
  rfl

/-- A round that goes on with the loop accepted the unit: what then holds. -/
theorem durationUnit_next {orig : GoString} {st st1 : DurState} {v : Nat} {u rest : GoString}
    (h : durationUnit Quote orig st v u rest = .next st1) :
    ∃ unit, durationUnitMap u = some unit ∧ (st.seen u).getD false = false ∧
      st.maxRank ≤ (durationUnitRank u).getD 0 ∧ v ≤ 2 ^ 63 / unit ∧
      (st.dtmp + v * unit % 2 ^ 64) % 2 ^ 64 ≤ 2 ^ 63 ∧
      st1 = { s := rest, d := st.d.assign u (toInt v),
              dtmp := (st.dtmp + v * unit % 2 ^ 64) % 2 ^ 64,
              seen := fun k => if k = u then some true else st.seen k,
              maxRank := max ((durationUnitRank u).getD 0) st.maxRank } := by
  unfold durationUnit at h
  cases hu : durationUnitMap u with
  | none => rw [hu] at h; cases h
  | some unit =>
    rw [hu] at h
    simp only at h
    split_ifs at h with h1 h2 h3 h4
    refine ⟨unit, rfl, by simpa using h1, not_lt.1 h2, not_lt.1 h3, not_lt.1 h4, ?_⟩
    cases h
    rfl

theorem durationBody_next_length {orig : GoString} {st st1 : DurState}
    (hs : st.s ≠ []) (h : durationBody Quote orig st = .next st1) :
    st1.s.length < st.s.length := by
  rw [durationBody_eq Quote orig st hs] at h
  split_ifs at h with h1 h2
  obtain ⟨unit, -, -, -, -, -, hst⟩ := durationUnit_next Quote h
  have hlen := congrArg List.length (parts_append st.s)
  simp only [List.length_append] at hlen
  have : 0 < (digitPart st.s).length := by
    cases hd : digitPart st.s with
    | nil => exact absurd (Or.inl hd) h1
    | cons a l => simp
  rw [hst]
  simp only
  omega

theorem durationRun_nil (orig : GoString) (st : DurState) (hs : st.s = []) :
    durationRun Quote orig st = .next st := by
  unfold durationRun durationLoop
  exact forLoop_done _ _ _ _ (by simp [hs])

theorem durationRun_step (orig : GoString) (st : DurState) (hs : st.s ≠ []) :
    durationRun Quote orig st =
      (durationBody Quote orig st).andThen (durationRun Quote orig) := by
  unfold durationRun durationLoop
  exact forLoop_step (fun st : DurState => decide (st.s ≠ [])) (durationBody Quote orig)
    (fun st => st.s.length)
    (by
      intro st hg
      have : st.s ≠ [] := by simpa using hg
      exact List.length_pos.2 this)
    (by
      intro st st1 hg hb
      have : st.s ≠ [] := by simpa using hg
      exact durationBody_next_length Quote this hb)
    st (by simp [hs])

/-- A round on a text that starts with a digit run followed by a run without
digits. -/
theorem durationRun_pair (orig : GoString) (st : DurState) (ds u rest : GoString)
    (hs : st.s = ds ++ (u ++ rest)) (hds : IsDigitRun ds)
    (hu1 : u ≠ []) (hu2 : ∀ c ∈ u, isDigit c = false)
    (hr : EndOrDigit rest) (hval : digitsVal ds ≤ 2 ^ 63) :
    durationRun Quote orig st =
      (durationUnit Quote orig st (digitsVal ds) u rest).andThen (durationRun Quote orig) := by
  have hne : st.s ≠ [] := by
    rw [hs]
    intro h
    exact hds.1 (List.append_eq_nil.1 h).1
  obtain ⟨p1, p2, p3⟩ := parts_of_pair ds u rest hds.2 hu1 hu2 hr
  rw [durationRun_step Quote orig st hne, durationBody_eq Quote orig st hne, hs, p1, p2, p3,
    if_neg (by
      rw [not_or, not_lt]
      exact ⟨hds.1, hval⟩),
    if_neg hu1]

/-- The loop over an optional digit run with its unit, when the unit is new,
in order and within bounds. -/
theorem durationRun_piece (orig : GoString) (st : DurState) (o : Option GoString)
    (u rest : GoString) (unit : Nat)
    (hs : st.s = piece o u ++ rest) (ho : OptRun o) (hu : durationUnitMap u = some unit)
    (hr : EndOrDigit rest) (hseen : (st.seen u).getD false = false)
    (hrank : st.maxRank ≤ (durationUnitRank u).getD 0)
    (hv : optVal o ≤ 2 ^ 63 / unit) (ht : st.dtmp + optVal o * unit ≤ 2 ^ 63) :
    durationRun Quote orig st = durationRun Quote orig (durPiece st o u unit rest) := by
  cases o with
  | none => rfl
  | some ds =>
    have hds : IsDigitRun ds := ho ds rfl
    have hval : digitsVal ds ≤ 2 ^ 63 :=
      Nat.le_trans hv (Nat.div_le_self _ _)
    have hshape := durationUnit_shape hu
    rw [durationRun_pair Quote orig st ds u rest (by simpa [piece] using hs) hds hshape.1
        hshape.2 hr hval,
      durationUnit_accept Quote orig st (digitsVal ds) u rest unit hu hseen hrank hv ht]
    rfl

end DurationRounds

/-! ## ParseDuration on well-formed texts -/

theorem endOrDigit_piece (o : Option GoString) (u r : GoString) (ho : OptRun o)
    (hr : EndOrDigit r) : EndOrDigit (piece o u ++ r) := by
  cases o with
  | none => exact hr
  | some ds =>
    obtain ⟨hne, hall⟩ := ho ds rfl
    cases ds with
    | nil => exact absurd rfl hne
    | cons a l =>
      intro c hc
      cases hc
      exact hall a (List.mem_cons_self a l)

theorem endOrDigit_nil : EndOrDigit [] := by
  intro c hc
  cases hc

theorem toInt_of_lt {v : Nat} (h : v < 2 ^ 63) : toInt v = (v : Int) := by
  unfold toInt
  rw [if_pos h]

theorem durAfter_s (d : Duration) (oh om os : Option GoString) (rest : GoString) :
    (durAfter d oh om os rest).s = rest := by
  cases oh <;> cases om <;> cases os <;>
    simp [durAfter, durPiece, durAccept, durInit, durationText, piece]

theorem durAfter_dtmp (d : Duration) (oh om os : Option GoString) (rest : GoString) :
    (durAfter d oh om os rest).dtmp =
      optVal oh * 3600000000000 + optVal om * 60000000000 + optVal os * 1000000000 := by
  cases oh <;> cases om <;> cases os <;>
    simp [durAfter, durPiece, durAccept, durInit, optVal]

theorem durAfter_d (d : Duration) (oh om os : Option GoString) (rest : GoString) :
    (durAfter d oh om os rest).d =
      { neg := d.neg,
        hour := match oh with
          | none => d.hour
          | some ds => toInt (digitsVal ds),
        minute := match om with
          | none => d.minute
          | some ds => toInt (digitsVal ds),
        second := match os with
          | none => d.second
          | some ds => toInt (digitsVal ds) } := by
  cases oh <;> cases om <;> cases os <;>
    simp [durAfter, durPiece, durAccept, durInit, Duration.assign, str_h, str_m, str_s]

theorem durAfter_seen (d : Duration) (oh om os : Option GoString) (rest : GoString) :
    ((durAfter d oh om os rest).seen (str "h")).getD false = oh.isSome ∧
    ((durAfter d oh om os rest).seen (str "m")).getD false = om.isSome ∧
    ((durAfter d oh om os rest).seen (str "s")).getD false = os.isSome := by
  cases oh <;> cases om <;> cases os <;>
    simp [durAfter, durPiece, durAccept, durInit, durationSeen, str_h, str_m, str_s]

theorem durAfter_maxRank (d : Duration) (oh om os : Option GoString) (rest : GoString) :
    (durAfter d oh om os rest).maxRank =
      if os.isSome then 2 else if om.isSome then 1 else if oh.isSome then 0 else -1 := by
  cases oh <;> cases om <;> cases os <;>
    simp [durAfter, durPiece, durAccept, durInit, durationUnitRank, str_h, str_m, str_s]

section DurationForward

variable (Quote : GoString → GoString)

/-- The loop of `ParseDuration` runs through every text of units in the order
h, m, s whose total is within bounds. -/
theorem durationRun_text (orig : GoString) (d : Duration) (oh om os : Option GoString)
    (rest : GoString) (hh : OptRun oh) (hm : OptRun om) (hs : OptRun os)
    (hr : EndOrDigit rest)
    (hb : 3600 * optVal oh + 60 * optVal om + optVal os ≤ 9223372036) :
    durationRun Quote orig (durInit (durationText oh om os ++ rest) d) =
      durationRun Quote orig (durAfter d oh om os rest) := by
  have e3 : EndOrDigit (piece os (str "s") ++ rest) := endOrDigit_piece _ _ _ hs hr
  have e2 : EndOrDigit (piece om (str "m") ++ (piece os (str "s") ++ rest)) :=
    endOrDigit_piece _ _ _ hm e3
  unfold durAfter
  rw [durationRun_piece Quote orig _ oh (str "h") _ 3600000000000
        (by simp [durInit, durationText, List.append_assoc]) hh rfl e2
        (by simp [durInit, durationSeen, str_h, str_m, str_s])
        (by simp [durInit, durationUnitRank])
        (by norm_num; omega)
        (by simp only [durInit]; norm_num; omega),
      durationRun_piece Quote orig _ om (str "m") _ 60000000000
        (by cases oh <;> simp [durPiece, durAccept, durInit, durationText])
        hm rfl e3
        (by cases oh <;> simp [durPiece, durAccept, durInit, durationSeen, str_h, str_m, str_s])
        (by cases oh <;> simp [durPiece, durAccept, durInit, durationUnitRank, str_h, str_m, str_s])
        (by norm_num; omega)
        (by
          cases oh <;> simp only [durPiece, durAccept, durInit, optVal] at hb ⊢ <;>
            norm_num <;> omega),
      durationRun_piece Quote orig _ os (str "s") _ 1000000000
        (by cases oh <;> cases om <;> simp [durPiece, durAccept, durInit, durationText])
        hs rfl hr
        (by
          cases oh <;> cases om <;>
            simp [durPiece, durAccept, durInit, durationSeen, str_h, str_m, str_s])
        (by
          cases oh <;> cases om <;>
            simp [durPiece, durAccept, durInit, durationUnitRank, str_h, str_m, str_s])
        (by norm_num; omega)
        (by
          cases oh <;> cases om <;> simp only [durPiece, durAccept, durInit, optVal] at hb ⊢ <;>
            norm_num <;> omega)]

theorem ParseDuration_eq (s : GoString) :
    ParseDuration Quote s = durationTail Quote s (stripSign s).1 (stripSign s).2 := by
  cases s with
  | nil => rfl
  | cons c rest =>
    unfold ParseDuration durationTail stripSign
    by_cases hc : c = 45 ∨ c = 43
    · simp only [if_pos hc, durationRun, durInit, Flow.finish]
      split_ifs <;> first | rfl | (generalize durationLoop Quote _ _ _ = f; cases f <;> rfl)
    · simp only [if_neg hc, durationRun, durInit, Flow.finish]
      split_ifs <;> first | rfl | (generalize durationLoop Quote _ _ _ = f; cases f <;> rfl)

theorem stripSign_digit (t : GoString) (h : EndOrDigit t) : stripSign t = (false, t) := by
  cases t with
  | nil => rfl
  | cons c rest =>
    have hc := (isDigit_iff c).1 (h c rfl)
    simp only [stripSign]
    rw [if_neg (by omega)]

theorem durationText_shape (oh om os : Option GoString) (hh : OptRun oh) (hm : OptRun om)
    (hs : OptRun os) (hne : ¬ (oh = none ∧ om = none ∧ os = none)) :
    2 ≤ (durationText oh om os).length := by
  unfold durationText
  cases oh with
  | some ds =>
    have := List.length_pos.2 (hh ds rfl).1
    simp only [piece_some, List.length_append, str_h, List.length_singleton]
    omega
  | none =>
    cases om with
    | some ds =>
      have := List.length_pos.2 (hm ds rfl).1
      simp only [piece_some, piece_none, List.length_append, str_m, List.length_singleton,
        List.nil_append]
      omega
    | none =>
      cases os with
      | some ds =>
        have := List.length_pos.2 (hs ds rfl).1
        simp only [piece_some, piece_none, List.length_append, str_s, List.length_singleton,
          List.nil_append]
        omega
      | none => exact absurd ⟨rfl, rfl, rfl⟩ hne

/-- `ParseDuration` after the sign, on a text of units in the order h, m, s
whose total is within bounds. -/
theorem durationTail_text (orig : GoString) (neg : Bool) (oh om os : Option GoString)
    (hh : OptRun oh) (hm : OptRun om) (hs : OptRun os)
    (hne : ¬ (oh = none ∧ om = none ∧ os = none))
    (hb : 3600 * optVal oh + 60 * optVal om + optVal os ≤ 9223372036) :
    durationTail Quote orig neg (durationText oh om os) =
      .ret { neg := if neg then -1 else 1, hour := (optVal oh : Int),
             minute := (optVal om : Int), second := (optVal os : Int) } none := by
  have hlen := durationText_shape oh om os hh hm hs hne
  have h1 : durationText oh om os ≠ [] := by
    intro h; rw [h] at hlen; simp at hlen
  have h2 : durationText oh om os ≠ str "0" := by
    intro h; rw [h] at hlen; simp [str_zero] at hlen
  have hrun := durationRun_text Quote orig
    { neg := if neg then -1 else 1, hour := 0, minute := 0, second := 0 } oh om os []
    hh hm hs endOrDigit_nil hb
  rw [List.append_nil] at hrun
  unfold durationTail
  rw [if_neg h1, if_neg h2, hrun, durationRun_nil Quote orig _ (durAfter_s _ _ _ _ _)]
  simp only [Flow.finish, durAfter_dtmp, durAfter_d]
  have hd : ∀ o : Option GoString, optVal o ≤ 9223372036 →
      (match o with
        | none => (0 : Int)
        | some ds => toInt (digitsVal ds)) = (optVal o : Int) := by
    intro o ho
    cases o with
    | none => rfl
    | some ds => exact toInt_of_lt (by simp only [optVal_some] at ho; norm_num; omega)
  rw [hd oh (by omega), hd om (by omega), hd os (by omega)]
  cases neg with
  | true => rfl
  | false =>
    simp only [Bool.false_eq_true, if_false]
    rw [if_neg (by norm_num; omega)]

end DurationForward

theorem natCast_abs (n : Nat) : abs (n : Int) = (n : Int) := by
  unfold abs
  rw [if_neg (by omega)]

theorem NewDuration_nat (h m s : Nat) :
    NewDuration (h : Int) (m : Int) (s : Int) =
      { neg := 1, hour := (h : Int), minute := (m : Int), second := (s : Int) } := by
  unfold NewDuration
  simp only [natCast_abs]
  rw [if_neg (by omega)]

theorem endOrDigit_durationText (oh om os : Option GoString) (hh : OptRun oh) (hm : OptRun om)
    (hs : OptRun os) : EndOrDigit (durationText oh om os) := by
  unfold durationText
  have := endOrDigit_piece oh (str "h") _ hh
    (endOrDigit_piece om (str "m") _ hm (endOrDigit_piece os (str "s") [] hs endOrDigit_nil))
  simpa using this

/-! ## strconv.Itoa -/

theorem formatBits_spec : ∀ fuel n, n < fuel →
    IsDigitRun (formatBits fuel n) ∧ digitsVal (formatBits fuel n) = n := by
  intro fuel
  induction fuel with
  | zero => intro n h; omega
  | succ k ih =>
    intro n hn
    unfold formatBits
    by_cases h10 : n < 10
    · rw [if_pos h10]
      refine ⟨⟨by simp, ?_⟩, ?_⟩
      · intro c hc
        simp only [List.mem_singleton] at hc
        subst hc
        rw [isDigit_iff]; omega
      · simp [digitsVal, valFrom]
    · rw [if_neg h10]
      obtain ⟨⟨hne, hall⟩, hval⟩ := ih (n / 10) (by omega)
      refine ⟨⟨by simp, ?_⟩, ?_⟩
      · intro c hc
        rcases List.mem_append.1 hc with hc | hc
        · exact hall c hc
        · simp only [List.mem_singleton] at hc
          subst hc
          rw [isDigit_iff]; omega
      · unfold digitsVal at hval ⊢
        rw [valFrom_append, hval]
        simp only [valFrom, List.foldl_cons, List.foldl_nil]
        omega

theorem Itoa_nat (n : Nat) : Itoa (n : Int) = formatBits (n + 1) n := by
  unfold Itoa
  rw [if_neg (by omega)]
  simp

theorem Itoa_run (n : Nat) : IsDigitRun (Itoa (n : Int)) ∧ digitsVal (Itoa (n : Int)) = n := by
  rw [Itoa_nat]
  exact formatBits_spec (n + 1) n (by omega)

theorem fieldRun_optRun (n : Nat) : OptRun (fieldRun n) := by
  intro ds hds
  unfold fieldRun at hds
  split_ifs at hds
  · cases hds
  · cases hds
    exact (Itoa_run n).1

theorem fieldRun_val (n : Nat) : optVal (fieldRun n) = n := by
  unfold fieldRun
  split_ifs with h
  · simp [h]
  · simp [(Itoa_run n).2]

theorem piece_fieldRun (n : Nat) (u : GoString) :
    piece (fieldRun n) u = if (n : Int) ≠ 0 then Itoa (n : Int) ++ u else [] := by
  unfold fieldRun
  by_cases h : n = 0
  · simp [h]
  · have : (n : Int) ≠ 0 := by omega
    simp [h]

theorem Duration_String_eq (neg : Int) (h m s : Nat) :
    Duration.String { neg := neg, hour := (h : Int), minute := (m : Int), second := (s : Int) } =
      if h = 0 ∧ m = 0 ∧ s = 0 then str "0h0m0s"
      else (if neg = -1 then str "-" else []) ++
        durationText (fieldRun h) (fieldRun m) (fieldRun s) := by
  unfold Duration.String durationText
  simp only [piece_fieldRun, Nat.cast_eq_zero, List.nil_append, ne_eq]
  by_cases hz : h = 0 ∧ m = 0 ∧ s = 0
  · rw [if_pos hz, if_pos hz]
  · rw [if_neg hz, if_neg hz]
    by_cases hn : neg = -1 <;> by_cases h0 : h = 0 <;> by_cases m0 : m = 0 <;>
      by_cases s0 : s = 0 <;> simp [hn, h0, m0, s0]

section DurationFormat
variable (Quote : GoString → GoString)

/-- Parsing the text that `String` writes for a duration with non-negative
fields whose total is within bounds. -/
theorem ParseDuration_String (neg : Int) (hneg : neg = 1 ∨ neg = -1) (h m s : Nat)
    (hb : 3600 * h + 60 * m + s ≤ 9223372036) :
    ParseDuration Quote
        (Duration.String
          { neg := neg, hour := (h : Int), minute := (m : Int), second := (s : Int) }) =
      .ret { neg := if h = 0 ∧ m = 0 ∧ s = 0 then 1 else neg,
             hour := (h : Int), minute := (m : Int), second := (s : Int) } none := by
  rw [Duration_String_eq]
  by_cases hz : h = 0 ∧ m = 0 ∧ s = 0
  · obtain ⟨h0, m0, s0⟩ := hz
    subst h0 m0 s0
    rfl
  · rw [if_neg hz, if_neg hz, ParseDuration_eq]
    have hruns := fieldRun_optRun
    have hne : ¬ (fieldRun h = none ∧ fieldRun m = none ∧ fieldRun s = none) := by
      intro hnone
      apply hz
      unfold fieldRun at hnone
      refine ⟨?_, ?_, ?_⟩
      · by_contra h0; simp [h0] at hnone
      · by_contra h0; simp [h0] at hnone
      · by_contra h0; simp [h0] at hnone
    have hb2 : 3600 * optVal (fieldRun h) + 60 * optVal (fieldRun m) + optVal (fieldRun s)
        ≤ 9223372036 := by
      rw [fieldRun_val, fieldRun_val, fieldRun_val]; exact hb
    rcases hneg with hn | hn
    · subst hn
      have hstrip := stripSign_digit _
        (endOrDigit_durationText (fieldRun h) (fieldRun m) (fieldRun s)
          (hruns h) (hruns m) (hruns s))
      simp only [show ¬ ((1 : Int) = -1) by decide, if_false, List.nil_append, hstrip]
      have := durationTail_text Quote (durationText (fieldRun h) (fieldRun m) (fieldRun s))
        false (fieldRun h) (fieldRun m) (fieldRun s) (hruns h) (hruns m) (hruns s) hne hb2
      rw [this, fieldRun_val, fieldRun_val, fieldRun_val]
      rfl
    · subst hn
      have hstrip : stripSign (str "-" ++ durationText (fieldRun h) (fieldRun m) (fieldRun s)) =
          (true, durationText (fieldRun h) (fieldRun m) (fieldRun s)) := by
        simp [stripSign, str]
      simp only [if_true, hstrip]
      have := durationTail_text Quote
        (str "-" ++ durationText (fieldRun h) (fieldRun m) (fieldRun s))
        true (fieldRun h) (fieldRun m) (fieldRun s) (hruns h) (hruns m) (hruns s) hne hb2
      rw [this, fieldRun_val, fieldRun_val, fieldRun_val]
      rfl

end DurationFormat

/-! ## Accepted texts and constructed durations -/

theorem abs_eq_natAbs (n : Int) (h : n.natAbs ≤ 9223372036) : abs n = (n.natAbs : Int) := by
  unfold abs wrapInt
  split_ifs with hn
  · omega
  · omega

theorem NewDuration_eq (h m s : Int)
    (hb : 3600 * h.natAbs + 60 * m.natAbs + s.natAbs ≤ 9223372036) :
    NewDuration h m s =
      { neg := if h < 0 ∨ m < 0 ∨ s < 0 then -1 else 1, hour := (h.natAbs : Int),
        minute := (m.natAbs : Int), second := (s.natAbs : Int) } := by
  unfold NewDuration
  rw [abs_eq_natAbs h (by omega), abs_eq_natAbs m (by omega), abs_eq_natAbs s (by omega)]

/-- C1: `ParseDuration` accepts every well-formed text: for every choice of
non-empty digit runs for a non-empty subset of the units h, m, s, written in
this order, with values `vh`, `vm`, `vs` (0 for an omitted unit) such that
`3600*vh + 60*vm + vs <= 9223372036`, it returns the nil error and the value
`NewDuration(vh, vm, vs)`, the fields being stored as read. -/
theorem ParseDuration_accepts_wellformed (Quote : GoString → GoString)
    (oh om os : Option GoString) (hh : OptRun oh) (hm : OptRun om) (hs : OptRun os)
    (hne : ¬ (oh = none ∧ om = none ∧ os = none))
    (hb : 3600 * optVal oh + 60 * optVal om + optVal os ≤ 9223372036) :
    ParseDuration Quote (durationText oh om os) =
      .ret (NewDuration (optVal oh) (optVal om) (optVal os)) none := by
  rw [ParseDuration_eq, stripSign_digit _ (endOrDigit_durationText oh om os hh hm hs),
    NewDuration_nat]
  exact durationTail_text Quote _ false oh om os hh hm hs hne hb

theorem optRun_some (ds : GoString) (h : IsDigitRun ds) : OptRun (some ds) := by
  intro x hx
  cases hx
  exact h

theorem optRun_none : OptRun none := by
  intro x hx
  cases hx

/-- C1, witness: the text "1h2m3s" parses to `NewDuration(1, 2, 3)`; the text
"2h59m59s" parses to `NewDuration(2, 59, 59)`. -/
theorem ParseDuration_accepts_wellformed_witness :
    ParseDuration quoteAscii (str "1h2m3s") = .ret (NewDuration 1 2 3) none ∧
      ParseDuration quoteAscii (str "2h59m59s") = .ret (NewDuration 2 59 59) none :=
  ⟨ParseDuration_accepts_wellformed quoteAscii (some (str "1")) (some (str "2"))
      (some (str "3")) (optRun_some _ (by decide)) (optRun_some _ (by decide))
      (optRun_some _ (by decide)) (by simp) (by decide),
    by decide⟩

/-- C5: round trip on constructed values: for all integers `h`, `m`, `s` with
`3600*|h| + 60*|m| + |s| <= 9223372036`, parsing the text of
`NewDuration(h, m, s)` returns the nil error and `NewDuration(h, m, s)`. -/
theorem Duration_roundtrip_constructed (Quote : GoString → GoString) (h m s : Int)
    (hb : 3600 * h.natAbs + 60 * m.natAbs + s.natAbs ≤ 9223372036) :
    ParseDuration Quote (NewDuration h m s).String = .ret (NewDuration h m s) none := by
  rw [NewDuration_eq h m s hb,
    ParseDuration_String Quote _ (by split_ifs <;> simp) h.natAbs m.natAbs s.natAbs hb]
  by_cases hz : h.natAbs = 0 ∧ m.natAbs = 0 ∧ s.natAbs = 0
  · rw [if_pos hz, if_neg (by omega)]
  · rw [if_neg hz]

/-- C5, witness: `NewDuration(-1, 2, 3)` is written "-1h2m3s", which parses
back to `NewDuration(-1, 2, 3)`. -/
theorem Duration_roundtrip_constructed_witness :
    (NewDuration (-1) 2 3).String = str "-1h2m3s" ∧
      ParseDuration quoteAscii (NewDuration (-1) 2 3).String =
        .ret (NewDuration (-1) 2 3) none :=
  ⟨by decide, Duration_roundtrip_constructed quoteAscii (-1) 2 3 (by decide)⟩

/-! ## ParseDuration: what a success implies -/

section DurationSuccess
variable (Quote : GoString → GoString)

theorem durInv_step {orig : GoString} {st st1 : DurState} (hinv : DurInv st)
    (hs : st.s ≠ []) (hb : durationBody Quote orig st = .next st1) :
    DurInv st1 ∧ st1.d.neg = st.d.neg := by
  rw [durationBody_eq Quote orig st hs] at hb
  split_ifs at hb with h1 h2
  obtain ⟨unit, hu, hseen, -, hv, ht, hst⟩ := durationUnit_next Quote hb
  obtain ⟨i1, i2, i3, i4, i5, i6, i7, i8⟩ := hinv
  generalize digitsVal (digitPart st.s) = v at hv ht hst
  generalize unitPart st.s = u at hu hseen hst
  rcases durationUnitMap_some hu with ⟨rfl, rfl⟩ | ⟨rfl, rfl⟩ | ⟨rfl, rfl⟩
  · have hv2 : v ≤ 2562047 := by norm_num at hv; exact hv
    have e1 : v * 3600000000000 % 2 ^ 64 = v * 3600000000000 := by norm_num; omega
    have e0 := i6 hseen
    have e2 : (st.dtmp + v * 3600000000000) % 2 ^ 64 = st.dtmp + v * 3600000000000 := by
      norm_num at i5 ⊢; omega
    have e3 : toInt v = (v : Int) := toInt_of_lt (by norm_num; omega)
    rw [e1, e2] at ht hst
    subst hst
    simp only [DurInv, Duration.assign, e3, str_h, str_m, str_s, if_true] at i7 i8 ⊢
    simp only [List.cons.injEq, and_true, show ¬ ((109 : Nat) = 104) by decide,
      show ¬ ((115 : Nat) = 104) by decide, if_false]
    refine ⟨by omega, i2, i3, ?_, ht, ?_, i7, i8⟩
    · push_cast; omega
    · intro h; simp at h
  · have hv2 : v ≤ 153722867 := by norm_num at hv; exact hv
    have e1 : v * 60000000000 % 2 ^ 64 = v * 60000000000 := by norm_num; omega
    have e0 := i7 hseen
    have e2 : (st.dtmp + v * 60000000000) % 2 ^ 64 = st.dtmp + v * 60000000000 := by
      norm_num at i5 ⊢; omega
    have e3 : toInt v = (v : Int) := toInt_of_lt (by norm_num; omega)
    rw [e1, e2] at ht hst
    subst hst
    simp only [DurInv, Duration.assign, e3, str_h, str_m, str_s, if_true] at i6 i8 ⊢
    simp only [List.cons.injEq, and_true, show ¬ ((104 : Nat) = 109) by decide,
      show ¬ ((109 : Nat) = 104) by decide,
      show ¬ ((115 : Nat) = 109) by decide, if_false, if_true]
    refine ⟨i1, by omega, i3, ?_, ht, i6, ?_, i8⟩
    · push_cast; omega
    · intro h; simp at h
  · have hv2 : v ≤ 9223372036 := by norm_num at hv; exact hv
    have e1 : v * 1000000000 % 2 ^ 64 = v * 1000000000 := by norm_num; omega
    have e0 := i8 hseen
    have e2 : (st.dtmp + v * 1000000000) % 2 ^ 64 = st.dtmp + v * 1000000000 := by
      norm_num at i5 ⊢; omega
    have e3 : toInt v = (v : Int) := toInt_of_lt (by norm_num; omega)
    rw [e1, e2] at ht hst
    subst hst
    simp only [DurInv, Duration.assign, e3, str_h, str_m, str_s, if_true] at i6 i7 ⊢
    simp only [List.cons.injEq, and_true, show ¬ ((104 : Nat) = 115) by decide,
      show ¬ ((109 : Nat) = 115) by decide, show ¬ ((115 : Nat) = 104) by decide,
      show ¬ ((115 : Nat) = 109) by decide, if_false, if_true]
    refine ⟨i1, i2, by omega, ?_, ht, i6, i7, ?_⟩
    · push_cast; omega
    · intro h; simp at h

theorem durationUnit_stop {orig : GoString} {st : DurState} {v : Nat} {u rest : GoString}
    {o : Outcome Duration} (h : durationUnit Quote orig st v u rest = .stop o) :
    ∃ d e, o = .ret d (some e) := by
  unfold durationUnit at h
  cases hu : durationUnitMap u with
  | none =>
    rw [hu] at h
    cases h
    exact ⟨_, _, rfl⟩
  | some unit =>
    rw [hu] at h
    simp only at h
    split_ifs at h <;> cases h <;> exact ⟨_, _, rfl⟩

theorem durationBody_stop {orig : GoString} {st : DurState} {o : Outcome Duration}
    (hs : st.s ≠ []) (h : durationBody Quote orig st = .stop o) :
    ∃ d e, o = .ret d (some e) := by
  rw [durationBody_eq Quote orig st hs] at h
  split_ifs at h
  · cases h; exact ⟨_, _, rfl⟩
  · cases h; exact ⟨_, _, rfl⟩
  · exact durationUnit_stop Quote h

/-- Invariant rule for the loop of `ParseDuration` when it runs to its end. -/
theorem durationRun_next_inv (orig : GoString) (P : DurState → Prop)
    (hstep : ∀ st st1, P st → st.s ≠ [] → durationBody Quote orig st = .next st1 → P st1)
    {st stf : DurState} (hP : P st) (h : durationRun Quote orig st = .next stf) :
    P stf ∧ stf.s = [] := by
  have := forLoop_next_inv (fun st : DurState => decide (st.s ≠ [])) (durationBody Quote orig) P
    (fun st st1 hp hg hb => hstep st st1 hp (by simpa using hg) hb) st.s.length st stf hP h
  exact ⟨this.1, by simpa using this.2⟩

/-- A `return` inside the loop of `ParseDuration` carries an error. -/
theorem durationRun_stop (orig : GoString) {st : DurState} {o : Outcome Duration}
    (h : durationRun Quote orig st = .stop o) : ∀ d, o ≠ .ret d none := by
  refine forLoop_stop_inv (fun st : DurState => decide (st.s ≠ [])) (durationBody Quote orig)
    (fun _ => True) (fun o => ∀ d, o ≠ .ret d none) (fun _ _ _ _ _ => trivial) ?_ ?_
    st.s.length st o trivial h
  · intro st o _ hg hb d hd
    obtain ⟨d1, e, he⟩ := durationBody_stop Quote (by simpa using hg) hb
    rw [he] at hd
    cases hd
  · intro d hd
    cases hd

/-- What a successful run of `ParseDuration` after the sign gives: the text is
"0" and the value is zero, or the loop ran to its end from the initial state, and
the value is the `d` of the final state. -/
theorem durationTail_ok {orig t : GoString} {neg : Bool} {v : Duration}
    (h : durationTail Quote orig neg t = .ret v none) :
    (t = str "0" ∧ v = { neg := if neg then -1 else 1, hour := 0, minute := 0, second := 0 }) ∨
    (t ≠ [] ∧ ∃ stf, durationRun Quote orig
        (durInit t { neg := if neg then -1 else 1, hour := 0, minute := 0, second := 0 }) =
          .next stf ∧ v = stf.d) := by
  unfold durationTail at h
  by_cases h1 : t = []
  · rw [if_pos h1] at h
    cases h
  · rw [if_neg h1] at h
    by_cases h2 : t = str "0"
    · rw [if_pos h2] at h
      cases h
      exact Or.inl ⟨h2, rfl⟩
    · rw [if_neg h2] at h
      right
      refine ⟨h1, ?_⟩
      cases hrun : durationRun Quote orig
          (durInit t { neg := if neg then -1 else 1, hour := 0, minute := 0, second := 0 }) with
      | stop o =>
        rw [hrun] at h
        simp only [Flow.finish] at h
        exact absurd h (durationRun_stop Quote orig hrun v)
      | next stf =>
        rw [hrun] at h
        simp only [Flow.finish] at h
        refine ⟨stf, rfl, ?_⟩
        split_ifs at h <;> cases h <;> rfl

theorem durInv_init (t : GoString) (n : Int) :
    DurInv (durInit t { neg := n, hour := 0, minute := 0, second := 0 }) := by
  simp [DurInv, durInit]

/-- The value of a successful `ParseDuration`: the sign is +1 or -1, the
fields are non-negative and their total is at most 9223372036 seconds. -/
theorem ParseDuration_ok {s : GoString} {v : Duration}
    (h : ParseDuration Quote s = .ret v none) :
    (v.neg = 1 ∨ v.neg = -1) ∧ 0 ≤ v.hour ∧ 0 ≤ v.minute ∧ 0 ≤ v.second ∧
      3600 * v.hour + 60 * v.minute + v.second ≤ 9223372036 := by
  rw [ParseDuration_eq] at h
  have hneg : ∀ b : Bool, ((if b then (-1 : Int) else 1) = 1 ∨ (if b then (-1 : Int) else 1) = -1) := by
    intro b; cases b <;> simp
  rcases durationTail_ok Quote h with ⟨-, hv⟩ | ⟨-, stf, hrun, hv⟩
  · subst hv
    exact ⟨hneg _, by simp, by simp, by simp, by simp⟩
  · have := durationRun_next_inv Quote s
      (fun st => DurInv st ∧ st.d.neg = if (stripSign s).1 then -1 else 1)
      (fun st st1 hp hs hb => by
        have := durInv_step Quote hp.1 hs hb
        exact ⟨this.1, by rw [this.2]; exact hp.2⟩)
      (show DurInv _ ∧ _ from ⟨durInv_init _ _, rfl⟩) hrun
    obtain ⟨⟨⟨i1, i2, i3, i4, i5, -, -, -⟩, hn⟩, -⟩ := this
    subst hv
    refine ⟨by rw [hn]; exact hneg _, i1, i2, i3, ?_⟩
    norm_num at i5
    omega

end DurationSuccess

/-! ## Round trip of durations -/

/-- C4 (as amended): round trip on parsed values: when `ParseDuration` accepts
a text with value `v`, it also accepts the text `v.String()`, and returns a
value with the hour, minute and second of `v`, and with the sign of `v` unless
all three fields are 0, in which case the sign returned is +1. -/
theorem Duration_roundtrip_parsed (Quote : GoString → GoString) (s : GoString) (v : Duration)
    (h : ParseDuration Quote s = .ret v none) :
    ParseDuration Quote v.String =
      .ret { neg := if v.hour = 0 ∧ v.minute = 0 ∧ v.second = 0 then 1 else v.neg,
             hour := v.hour, minute := v.minute, second := v.second } none := by
  obtain ⟨hneg, h1, h2, h3, hb⟩ := ParseDuration_ok Quote h
  obtain ⟨n, a, b, c⟩ := v
  simp only at hneg h1 h2 h3 hb ⊢
  obtain ⟨a1, rfl⟩ := Int.eq_ofNat_of_zero_le h1
  obtain ⟨b1, rfl⟩ := Int.eq_ofNat_of_zero_le h2
  obtain ⟨c1, rfl⟩ := Int.eq_ofNat_of_zero_le h3
  rw [ParseDuration_String Quote n hneg a1 b1 c1 (by omega)]
  simp only [Nat.cast_eq_zero]

/-- C4, witness: the text "-1h2m3s". -/
theorem Duration_roundtrip_parsed_witness :
    ParseDuration quoteAscii (str "-1h2m3s") = .ret (NewDuration (-1) 2 3) none ∧
      ParseDuration quoteAscii (NewDuration (-1) 2 3).String =
        .ret { neg := -1, hour := 1, minute := 2, second := 3 } none :=
  ⟨by decide, Duration_roundtrip_parsed quoteAscii (str "-1h2m3s") (NewDuration (-1) 2 3)
    (by decide)⟩

/-- C4, counterexample: "-0" parses to the zero duration with sign -1, whose
text "0h0m0s" parses to the zero duration with sign +1. -/
theorem Duration_roundtrip_parsed_counterexample :
    ParseDuration quoteAscii (str "-0") =
        .ret { neg := -1, hour := 0, minute := 0, second := 0 } none ∧
      ParseDuration quoteAscii
          (Duration.String { neg := -1, hour := 0, minute := 0, second := 0 }) ≠
        .ret { neg := -1, hour := 0, minute := 0, second := 0 } none := by
  decide

/-! ## ParseDuration: the strict grammar -/

theorem pairsText_append (ps qs : List (GoString × GoString)) :
    pairsText (ps ++ qs) = pairsText ps ++ pairsText qs := by
  induction ps with
  | nil => rfl
  | cons p ps ih => simp [pairsText, ih]

theorem gramInv_step {isUnit : GoString → Prop} {rank : GoString → Int}
    (hinj : ∀ u w, isUnit u → isUnit w → rank u = rank w → u = w)
    {t0 s ds u rest : GoString} {seen : GoString → Option Bool} {maxRank : Int}
    (hinv : GramInv isUnit rank t0 s seen maxRank) (hs : s = ds ++ (u ++ rest))
    (hds : IsDigitRun ds) (hu : isUnit u) (hseen : (seen u).getD false = false)
    (hrank : maxRank ≤ rank u) :
    GramInv isUnit rank t0 rest (fun k => if k = u then some true else seen k)
      (max (rank u) maxRank) := by
  obtain ⟨ps, ht, hall, hpw⟩ := hinv
  refine ⟨ps ++ [(ds, u)], ?_, ?_, ?_⟩
  · rw [ht, hs, pairsText_append]
    simp [pairsText]
  · intro p hp
    rcases List.mem_append.1 hp with hp | hp
    · obtain ⟨a, b, c, d⟩ := hall p hp
      refine ⟨a, b, ?_, le_trans d (le_max_right _ _)⟩
      simp only
      split_ifs
      · rfl
      · exact c
    · simp only [List.mem_singleton] at hp
      subst hp
      exact ⟨hds, hu, by simp, le_max_left _ _⟩
  · rw [List.pairwise_append]
    refine ⟨hpw, List.pairwise_singleton _ _, ?_⟩
    intro p hp q hq
    simp only [List.mem_singleton] at hq
    subst hq
    obtain ⟨-, b, c, d⟩ := hall p hp
    have hne : p.2 ≠ u := by
      intro he
      rw [he] at c
      rw [c] at hseen
      simp at hseen
    have hne2 : rank p.2 ≠ rank u := fun he => hne (hinj _ _ b hu he)
    show rank p.2 < rank u
    omega

theorem pairwise_rank_length {α : Type} (rank : α → Int) (n : Int) :
    ∀ (ps : List α) (lo : Int), ps.Pairwise (fun p q => rank p < rank q) →
      (∀ p ∈ ps, lo ≤ rank p ∧ rank p < n) → lo ≤ n → (ps.length : Int) ≤ n - lo := by
  intro ps
  induction ps with
  | nil => intro lo _ _ h; simp; omega
  | cons p ps ih =>
    intro lo hpw hall hlo
    rw [List.pairwise_cons] at hpw
    have hp := hall p (List.mem_cons_self p ps)
    have := ih (rank p + 1) hpw.2 (fun q hq => by
      have h1 := hpw.1 q hq
      have h2 := hall q (List.mem_cons_of_mem p hq)
      omega) (by omega)
    simp only [List.length_cons, Nat.cast_add, Nat.cast_one]
    omega

theorem durRank_inj (u w : GoString) (hu : IsDurationUnit u) (hw : IsDurationUnit w)
    (h : durRank u = durRank w) : u = w := by
  rcases hu with rfl | rfl | rfl <;> rcases hw with rfl | rfl | rfl <;>
    first | rfl | (exact absurd h (by decide))

theorem durRank_range (u : GoString) (hu : IsDurationUnit u) : 0 ≤ durRank u ∧ durRank u < 3 := by
  rcases hu with rfl | rfl | rfl <;> decide

theorem pairsText_bytes (isUnit : GoString → Prop) (P : Nat → Prop)
    (hd : ∀ c, isDigit c = true → P c) (hu : ∀ u, isUnit u → ∀ c ∈ u, P c) :
    ∀ ps : List (GoString × GoString), (∀ p ∈ ps, IsDigitRun p.1 ∧ isUnit p.2) →
      ∀ c ∈ pairsText ps, P c := by
  intro ps
  induction ps with
  | nil => intro _ c hc; cases hc
  | cons p ps ih =>
    intro hall c hc
    have hp := hall p (List.mem_cons_self p ps)
    simp only [pairsText, List.mem_append] at hc
    rcases hc with hc | hc | hc
    · exact hd c (hp.1.2 c hc)
    · exact hu p.2 hp.2 c hc
    · exact ih (fun q hq => hall q (List.mem_cons_of_mem p hq)) c hc

theorem stripSign_spec (s : GoString) :
    ∃ sign, s = sign ++ (stripSign s).2 ∧ (sign = [] ∨ sign = str "+" ∨ sign = str "-") := by
  cases s with
  | nil => exact ⟨[], rfl, Or.inl rfl⟩
  | cons c rest =>
    simp only [stripSign]
    by_cases hc : c = 45 ∨ c = 43
    · rw [if_pos hc]
      rcases hc with rfl | rfl
      · exact ⟨str "-", rfl, Or.inr (Or.inr rfl)⟩
      · exact ⟨str "+", rfl, Or.inr (Or.inl rfl)⟩
    · rw [if_neg hc]
      exact ⟨[], rfl, Or.inl rfl⟩

section DurationStrict
variable (Quote : GoString → GoString)

theorem durGram_step {orig t0 : GoString} {st st1 : DurState}
    (hinv : GramInv IsDurationUnit durRank t0 st.s st.seen st.maxRank)
    (hs : st.s ≠ []) (hb : durationBody Quote orig st = .next st1) :
    GramInv IsDurationUnit durRank t0 st1.s st1.seen st1.maxRank := by
  rw [durationBody_eq Quote orig st hs] at hb
  split_ifs at hb with h1 h2
  obtain ⟨unit, hu, hseen, hrank, -, -, hst⟩ := durationUnit_next Quote hb
  rw [not_or] at h1
  subst hst
  have hunit : IsDurationUnit (unitPart st.s) := by
    rcases durationUnitMap_some hu with h | h | h
    · exact Or.inl h.1
    · exact Or.inr (Or.inl h.1)
    · exact Or.inr (Or.inr h.1)
  exact gramInv_step durRank_inj hinv (parts_append st.s).symm
    ⟨h1.1, digitPart_all st.s⟩ hunit hseen hrank

/-- C6: `ParseDuration` accepts only the strict grammar: a text it accepts
is, after at most one leading `+` or `-`, exactly "0", or a concatenation of
one, two or three pairs of a non-empty digit run and a unit h, m or s, with the
ranks of the units increasing strictly (so no unit occurs twice); in
particular every byte after the sign is a digit or one of `h`, `m`, `s`. -/
theorem ParseDuration_grammar (s : GoString) (v : Duration)
    (h : ParseDuration Quote s = .ret v none) :
    ∃ sign t, s = sign ++ t ∧ (sign = [] ∨ sign = str "+" ∨ sign = str "-") ∧
      (t = str "0" ∨ DurationGrammar t) ∧
      ∀ c ∈ t, isDigit c = true ∨ c = 104 ∨ c = 109 ∨ c = 115 := by
  obtain ⟨sign, hsign, hs⟩ := stripSign_spec s
  refine ⟨sign, (stripSign s).2, hsign, hs, ?_⟩
  rw [ParseDuration_eq] at h
  rcases durationTail_ok Quote h with ⟨ht, -⟩ | ⟨hne, stf, hrun, -⟩
  · refine ⟨Or.inl ht, ?_⟩
    rw [ht]
    decide
  · have := durationRun_next_inv Quote s
      (fun st => GramInv IsDurationUnit durRank (stripSign s).2 st.s st.seen st.maxRank)
      (fun st st1 hp hs hb => durGram_step Quote hp hs hb)
      (show GramInv IsDurationUnit durRank (stripSign s).2 (stripSign s).2 durationSeen (-1) from
        ⟨[], rfl, by simp, List.Pairwise.nil⟩) hrun
    obtain ⟨⟨ps, ht, hall, hpw⟩, hnil⟩ := this
    rw [hnil, List.append_nil] at ht
    have hall2 : ∀ p ∈ ps, IsDigitRun p.1 ∧ IsDurationUnit p.2 :=
      fun p hp => ⟨(hall p hp).1, (hall p hp).2.1⟩
    have hlen := pairwise_rank_length (fun p : GoString × GoString => durRank p.2) 3 ps 0 hpw
      (fun p hp => durRank_range p.2 (hall2 p hp).2) (by decide)
    have hpos : 1 ≤ ps.length := by
      cases ps with
      | nil => exact absurd ht hne
      | cons p ps => simp
    refine ⟨Or.inr ⟨ps, ht, hpos, by omega, hall2, hpw⟩, ?_⟩
    rw [ht]
    exact pairsText_bytes IsDurationUnit _ (fun c hc => Or.inl hc)
      (fun u hu c hc => by
        rcases hu with rfl | rfl | rfl <;> simp [str] at hc <;> simp [hc]) ps hall2

end DurationStrict

/-! ## ParseDuration: error messages -/

/-- C6, witness: the accepted text "1h2m3s". -/
theorem ParseDuration_grammar_witness :
    ∃ sign t, str "1h2m3s" = sign ++ t ∧ (sign = [] ∨ sign = str "+" ∨ sign = str "-") ∧
      (t = str "0" ∨ DurationGrammar t) ∧
      ∀ c ∈ t, isDigit c = true ∨ c = 104 ∨ c = 109 ∨ c = 115 :=
  ParseDuration_grammar quoteAscii (str "1h2m3s") (NewDuration 1 2 3) (by decide)

theorem durAfter_seen_present (d : Duration) (oh om os : Option GoString) (rest u : GoString)
    (hu : IsDurationUnit u) :
    ((durAfter d oh om os rest).seen u).getD false = true ↔ Present oh om os u := by
  obtain ⟨s1, s2, s3⟩ := durAfter_seen d oh om os rest
  rcases hu with rfl | rfl | rfl
  · rw [s1]; simp [Present, str_h, str_m, str_s]
  · rw [s2]; simp [Present, str_h, str_m, str_s]
  · rw [s3]; simp [Present, str_h, str_m, str_s]

theorem durAfter_maxRank_present (d : Duration) (oh om os : Option GoString) (rest w : GoString)
    (hw : Present oh om os w) : durRank w ≤ (durAfter d oh om os rest).maxRank := by
  rw [durAfter_maxRank]
  rcases hw with ⟨rfl, h⟩ | ⟨rfl, h⟩ | ⟨rfl, h⟩
  · have : durRank (str "h") = 0 := rfl
    rw [this]
    split_ifs <;> simp_all
  · have : durRank (str "m") = 1 := rfl
    rw [this]
    split_ifs <;> simp_all
  · have : durRank (str "s") = 2 := rfl
    rw [this, if_pos h]

section DurationErrors
variable (Quote : GoString → GoString)

/-- When the round that follows an accepted text of units stops, its outcome is
the outcome of `ParseDuration`. -/
theorem ParseDuration_stop_after_text (oh om os : Option GoString)
    (hh : OptRun oh) (hm : OptRun om) (hs : OptRun os)
    (hb : 3600 * optVal oh + 60 * optVal om + optVal os ≤ 9223372036)
    (ds u rest : GoString) (hds : IsDigitRun ds) (hv : digitsVal ds ≤ 2 ^ 63)
    (hu1 : u ≠ []) (hu2 : ∀ c ∈ u, isDigit c = false) (hr : EndOrDigit rest)
    (o : Outcome Duration)
    (hstop : durationUnit Quote (durationText oh om os ++ (ds ++ (u ++ rest)))
      (durAfter { neg := 1, hour := 0, minute := 0, second := 0 } oh om os (ds ++ (u ++ rest)))
      (digitsVal ds) u rest = .stop o) :
    ParseDuration Quote (durationText oh om os ++ (ds ++ (u ++ rest))) = o := by
  have hrest : EndOrDigit (ds ++ (u ++ rest)) := by
    have := endOrDigit_piece (some ds) (u ++ rest) [] (optRun_some ds hds) endOrDigit_nil
    simpa using this
  have hinput : EndOrDigit (durationText oh om os ++ (ds ++ (u ++ rest))) := by
    unfold durationText
    have := endOrDigit_piece oh (str "h") _ hh
      (endOrDigit_piece om (str "m") _ hm (endOrDigit_piece os (str "s") _ hs hrest))
    simpa using this
  have hlen : 2 ≤ (durationText oh om os ++ (ds ++ (u ++ rest))).length := by
    have h1 := List.length_pos.2 hds.1
    have h2 := List.length_pos.2 hu1
    simp only [List.length_append]
    omega
  have h1 : durationText oh om os ++ (ds ++ (u ++ rest)) ≠ [] := by
    intro h; rw [h] at hlen; simp at hlen
  have h2 : durationText oh om os ++ (ds ++ (u ++ rest)) ≠ str "0" := by
    intro h; rw [h] at hlen; simp [str_zero] at hlen
  rw [ParseDuration_eq, stripSign_digit _ hinput]
  unfold durationTail
  rw [if_neg h1, if_neg h2]
  simp only [Bool.false_eq_true, if_false]
  rw [durationRun_text Quote _ _ oh om os _ hh hm hs hrest hb,
    durationRun_pair Quote _ _ ds u rest (durAfter_s _ _ _ _ _) hds hu1 hu2 hr hv, hstop]
  rfl

theorem durationUnit_unknown (orig : GoString) (st : DurState) (v : Nat) (u rest : GoString)
    (hu : durationUnitMap u = none) :
    durationUnit Quote orig st v u rest =
      .stop (.ret st.d (some (str "timeapi: unknown unit " ++ Quote u ++
        str " in duration " ++ Quote orig))) := by
  unfold durationUnit
  rw [hu]

theorem durationUnit_repeated (orig : GoString) (st : DurState) (v : Nat) (u rest : GoString)
    (hu : IsDurationUnit u) (hseen : (st.seen u).getD false = true) :
    durationUnit Quote orig st v u rest =
      .stop (.ret st.d (some (str "timeapi: unit " ++ Quote u ++
        str " repeated in duration " ++ Quote orig))) := by
  unfold durationUnit
  rcases hu with rfl | rfl | rfl <;> simp [durationUnitMap, str_h, str_m, str_s] <;>
    simp [str_h, str_m, str_s] at hseen <;> simp [hseen]

theorem durationUnit_order (orig : GoString) (st : DurState) (v : Nat) (u rest : GoString)
    (hu : IsDurationUnit u) (hseen : (st.seen u).getD false = false)
    (hrank : durRank u < st.maxRank) :
    durationUnit Quote orig st v u rest =
      .stop (.ret st.d (some (str "timeapi: unit " ++ Quote u ++
        str " must be in the order of h, m, s in duration " ++ Quote orig))) := by
  unfold durationUnit
  unfold durRank at hrank
  rcases hu with rfl | rfl | rfl <;> simp [durationUnitMap, str_h, str_m, str_s] <;>
    simp [str_h, str_m, str_s] at hseen hrank <;> simp [hseen, hrank]

/-- C8: repeated unit in `ParseDuration`: on an accepted text of units in the
order h, m, s, followed by a digit run of value at most `2 ^ 63` and a unit `u`
that already occurs in the text, followed by the end of the input or a digit,
`ParseDuration` fails with exactly the message
`"timeapi: unit " + Quote(u) + " repeated in duration " + Quote(input)`; the
unit `u` may be out of order as well. -/
theorem ParseDuration_repeated_unit (oh om os : Option GoString)
    (hh : OptRun oh) (hm : OptRun om) (hs : OptRun os)
    (hb : 3600 * optVal oh + 60 * optVal om + optVal os ≤ 9223372036)
    (ds u rest : GoString) (hds : IsDigitRun ds) (hv : digitsVal ds ≤ 2 ^ 63)
    (hu : Present oh om os u) (hr : EndOrDigit rest) :
    ∃ d, ParseDuration Quote (durationText oh om os ++ (ds ++ (u ++ rest))) =
      .ret d (some (str "timeapi: unit " ++ Quote u ++ str " repeated in duration " ++
        Quote (durationText oh om os ++ (ds ++ (u ++ rest))))) := by
  have hunit : IsDurationUnit u := by
    rcases hu with h | h | h
    · exact Or.inl h.1
    · exact Or.inr (Or.inl h.1)
    · exact Or.inr (Or.inr h.1)
  have hshape := unit_shape (u := u) (by
    rcases hunit with h | h | h <;> simp [h])
  exact ⟨_, ParseDuration_stop_after_text Quote oh om os hh hm hs hb ds u rest hds hv
    hshape.1 hshape.2 hr _
    (durationUnit_repeated Quote _ _ _ u rest hunit
      ((durAfter_seen_present _ oh om os _ u hunit).2 hu))⟩

/-- C9: unit out of order in `ParseDuration`: on an accepted text of units in
the order h, m, s, followed by a digit run of value at most `2 ^ 63` and a unit
`u` of h, m, s that does not occur in the text but has a lower rank than a unit
`w` of the text, followed by the end of the input or a digit, `ParseDuration`
fails with exactly the message `"timeapi: unit " + Quote(u) +
" must be in the order of h, m, s in duration " + Quote(input)`. -/
theorem ParseDuration_unit_out_of_order (oh om os : Option GoString)
    (hh : OptRun oh) (hm : OptRun om) (hs : OptRun os)
    (hb : 3600 * optVal oh + 60 * optVal om + optVal os ≤ 9223372036)
    (ds u w rest : GoString) (hds : IsDigitRun ds) (hv : digitsVal ds ≤ 2 ^ 63)
    (hu : IsDurationUnit u) (hnew : ¬ Present oh om os u)
    (hw : Present oh om os w) (hlow : durRank u < durRank w) (hr : EndOrDigit rest) :
    ∃ d, ParseDuration Quote (durationText oh om os ++ (ds ++ (u ++ rest))) =
      .ret d (some (str "timeapi: unit " ++ Quote u ++
        str " must be in the order of h, m, s in duration " ++
        Quote (durationText oh om os ++ (ds ++ (u ++ rest))))) := by
  have hshape := unit_shape (u := u) (by
    rcases hu with h | h | h <;> simp [h])
  have hseen : ((durAfter { neg := 1, hour := 0, minute := 0, second := 0 } oh om os
      (ds ++ (u ++ rest))).seen u).getD false = false := by
    have := durAfter_seen_present { neg := 1, hour := 0, minute := 0, second := 0 } oh om os
      (ds ++ (u ++ rest)) u hu
    cases hx : ((durAfter { neg := 1, hour := 0, minute := 0, second := 0 } oh om os
      (ds ++ (u ++ rest))).seen u).getD false with
    | false => rfl
    | true => exact absurd (this.1 hx) hnew
  exact ⟨_, ParseDuration_stop_after_text Quote oh om os hh hm hs hb ds u rest hds hv
    hshape.1 hshape.2 hr _
    (durationUnit_order Quote _ _ _ u rest hu hseen
      (lt_of_lt_of_le hlow (durAfter_maxRank_present _ oh om os _ w hw)))⟩

/-- C10: unknown unit in `ParseDuration`: on a possibly empty accepted text of
units in the order h, m, s, followed by a digit run of value at most `2 ^ 63`
and a non-empty run `u` of bytes that are not digits, other than "h", "m" and
"s", followed by the end of the input or a digit, `ParseDuration` fails with
exactly the message `"timeapi: unknown unit " + Quote(u) + " in duration " +
Quote(input)`, where `u` is the whole run. -/
theorem ParseDuration_unknown_unit (oh om os : Option GoString)
    (hh : OptRun oh) (hm : OptRun om) (hs : OptRun os)
    (hb : 3600 * optVal oh + 60 * optVal om + optVal os ≤ 9223372036)
    (ds u rest : GoString) (hds : IsDigitRun ds) (hv : digitsVal ds ≤ 2 ^ 63)
    (hu1 : u ≠ []) (hu2 : ∀ c ∈ u, isDigit c = false) (hu3 : ¬ IsDurationUnit u)
    (hr : EndOrDigit rest) :
    ∃ d, ParseDuration Quote (durationText oh om os ++ (ds ++ (u ++ rest))) =
      .ret d (some (str "timeapi: unknown unit " ++ Quote u ++ str " in duration " ++
        Quote (durationText oh om os ++ (ds ++ (u ++ rest))))) := by
  have hmap : durationUnitMap u = none := by
    unfold IsDurationUnit at hu3
    unfold durationUnitMap
    rw [not_or, not_or] at hu3
    rw [if_neg hu3.1, if_neg hu3.2.1, if_neg hu3.2.2]
  exact ⟨_, ParseDuration_stop_after_text Quote oh om os hh hm hs hb ds u rest hds hv
    hu1 hu2 hr _ (durationUnit_unknown Quote _ _ _ u rest hmap)⟩

end DurationErrors

/-- C8, witness: the text "1h1h"; in "1h1m1h" the unit h is repeated and out
of order, and the message is the one of a repeated unit. -/
theorem ParseDuration_repeated_unit_witness :
    (∃ d, ParseDuration quoteAscii (str "1h1h") =
      .ret d (some (str "timeapi: unit \"h\" repeated in duration \"1h1h\""))) ∧
    ParseDuration quoteAscii (str "1h1m1h") =
      .ret (NewDuration 1 1 0)
        (some (str "timeapi: unit \"h\" repeated in duration \"1h1m1h\"")) :=
  ⟨ParseDuration_repeated_unit quoteAscii (some (str "1")) none none
      (optRun_some _ (by decide)) optRun_none optRun_none (by decide)
      (str "1") (str "h") [] (by decide) (by decide) (Or.inl ⟨rfl, rfl⟩) endOrDigit_nil,
    by decide⟩

/-- C9, witness: the text "1s1m", in which m comes after s; "1s1h" and "1m1h"
name the unit h. -/
theorem ParseDuration_unit_out_of_order_witness :
    (∃ d, ParseDuration quoteAscii (str "1s1m") =
      .ret d (some (str
        "timeapi: unit \"m\" must be in the order of h, m, s in duration \"1s1m\""))) ∧
    ParseDuration quoteAscii (str "1s1h") =
      .ret (NewDuration 0 0 1) (some (str
        "timeapi: unit \"h\" must be in the order of h, m, s in duration \"1s1h\"")) ∧
    ParseDuration quoteAscii (str "1m1h") =
      .ret (NewDuration 0 1 0) (some (str
        "timeapi: unit \"h\" must be in the order of h, m, s in duration \"1m1h\"")) :=
  ⟨ParseDuration_unit_out_of_order quoteAscii none none (some (str "1"))
      optRun_none optRun_none (optRun_some _ (by decide)) (by decide)
      (str "1") (str "m") (str "s") [] (by decide) (by decide) (Or.inr (Or.inl rfl))
      (by simp [Present, str]) (Or.inr (Or.inr ⟨rfl, rfl⟩)) (by decide) endOrDigit_nil,
    by decide, by decide⟩

/-- C10, witness: the text "1h10ns"; the texts "1h10us", "1h10ms", "1hh10ns"
and "1.5h" name the units "us", "ms", "hh" and ".". -/
theorem ParseDuration_unknown_unit_witness :
    (∃ d, ParseDuration quoteAscii (str "1h10ns") =
      .ret d (some (str "timeapi: unknown unit \"ns\" in duration \"1h10ns\""))) ∧
    ParseDuration quoteAscii (str "1h10us") =
      .ret (NewDuration 1 0 0)
        (some (str "timeapi: unknown unit \"us\" in duration \"1h10us\"")) ∧
    ParseDuration quoteAscii (str "1h10ms") =
      .ret (NewDuration 1 0 0)
        (some (str "timeapi: unknown unit \"ms\" in duration \"1h10ms\"")) ∧
    ParseDuration quoteAscii (str "1hh10ns") =
      .ret (NewDuration 0 0 0)
        (some (str "timeapi: unknown unit \"hh\" in duration \"1hh10ns\"")) ∧
    ParseDuration quoteAscii (str "1.5h") =
      .ret (NewDuration 0 0 0)
        (some (str "timeapi: unknown unit \".\" in duration \"1.5h\"")) :=
  ⟨ParseDuration_unknown_unit quoteAscii (some (str "1")) none none
      (optRun_some _ (by decide)) optRun_none optRun_none (by decide)
      (str "10") (str "ns") [] (by decide) (by decide) (by decide) (by decide)
      (by simp [IsDurationUnit, str]) endOrDigit_nil,
    by decide, by decide, by decide, by decide⟩

/-! ## ParseInterval: rounds that accept a unit -/

section IntervalRounds
variable (Quote : GoString → GoString)

theorem intervalUnit_accept (orig : GoString) (st : IvlState) (v : Nat) (u rest : GoString)
    (hseen : st.seen u = some false) (hrank : st.maxRank ≤ ivlRank u) (hv : v ≤ MaxInt) :
    intervalUnit Quote orig st v u rest = .next (ivlAccept st v u rest) := by
  have e : toInt v = (v : Int) := toInt_of_lt (by unfold MaxInt at hv; norm_num at hv ⊢; omega)
  unfold intervalUnit
  unfold ivlRank at hrank
  simp only [hseen]
  rw [if_neg (not_lt.2 hrank), if_neg (not_lt.2 hv), e]
  rfl

/-- A round that goes on with the loop accepted the unit: what then holds. -/
theorem intervalUnit_next {orig : GoString} {st st1 : IvlState} {v : Nat} {u rest : GoString}
    (h : intervalUnit Quote orig st v u rest = .next st1) :
    st.seen u = some false ∧ st.maxRank ≤ ivlRank u ∧ v ≤ MaxInt ∧
      st1 = { s := rest, ivl := st.ivl.assign u (toInt v),
              seen := fun k => if k = u then some true else st.seen k,
              maxRank := max (ivlRank u) st.maxRank } := by
  unfold intervalUnit at h
  cases hu : st.seen u with
  | none => rw [hu] at h; cases h
  | some b =>
    rw [hu] at h
    simp only at h
    split_ifs at h with h1 h2 h3
    refine ⟨by simpa using h1, not_lt.1 h2, not_lt.1 h3, ?_⟩
    cases h
    rfl

theorem intervalUnit_stop {orig : GoString} {st : IvlState} {v : Nat} {u rest : GoString}
    {o : Outcome Interval} (h : intervalUnit Quote orig st v u rest = .stop o) :
    ∃ d e, o = .ret d (some e) := by
  unfold intervalUnit at h
  cases hu : st.seen u with
  | none =>
    rw [hu] at h
    cases h
    exact ⟨_, _, rfl⟩
  | some b =>
    rw [hu] at h
    simp only at h
    split_ifs at h <;> cases h <;> exact ⟨_, _, rfl⟩

theorem intervalBody_stop {orig : GoString} {st : IvlState} {o : Outcome Interval}
    (hs : st.s ≠ []) (h : intervalBody Quote orig st = .stop o) :
    ∃ d e, o = .ret d (some e) := by
  rw [intervalBody_eq Quote orig st hs] at h
  split_ifs at h
  · cases h; exact ⟨_, _, rfl⟩
  · cases h; exact ⟨_, _, rfl⟩
  · exact intervalUnit_stop Quote h

theorem intervalBody_next_length {orig : GoString} {st st1 : IvlState}
    (hs : st.s ≠ []) (h : intervalBody Quote orig st = .next st1) :
    st1.s.length < st.s.length := by
  rw [intervalBody_eq Quote orig st hs] at h
  split_ifs at h with h1 h2
  obtain ⟨-, -, -, hst⟩ := intervalUnit_next Quote h
  have hlen := congrArg List.length (parts_append st.s)
  simp only [List.length_append] at hlen
  have : 0 < (digitPart st.s).length := by
    cases hd : digitPart st.s with
    | nil => exact absurd (Or.inl hd) h1
    | cons a l => simp
  rw [hst]
  simp only
  omega

theorem intervalRun_nil (orig : GoString) (st : IvlState) (hs : st.s = []) :
    intervalRun Quote orig st = .next st := by
  unfold intervalRun intervalLoop
  exact forLoop_done _ _ _ _ (by simp [hs])

theorem intervalRun_step (orig : GoString) (st : IvlState) (hs : st.s ≠ []) :
    intervalRun Quote orig st =
      (intervalBody Quote orig st).andThen (intervalRun Quote orig) := by
  unfold intervalRun intervalLoop
  exact forLoop_step (fun st : IvlState => decide (st.s ≠ [])) (intervalBody Quote orig)
    (fun st => st.s.length)
    (by
      intro st hg
      have : st.s ≠ [] := by simpa using hg
      exact List.length_pos.2 this)
    (by
      intro st st1 hg hb
      have : st.s ≠ [] := by simpa using hg
      exact intervalBody_next_length Quote this hb)
    st (by simp [hs])

/-- A round on a text that starts with a digit run followed by a run without
digits. -/
theorem intervalRun_pair (orig : GoString) (st : IvlState) (ds u rest : GoString)
    (hs : st.s = ds ++ (u ++ rest)) (hds : IsDigitRun ds)
    (hu1 : u ≠ []) (hu2 : ∀ c ∈ u, isDigit c = false)
    (hr : EndOrDigit rest) (hval : digitsVal ds ≤ 2 ^ 63) :
    intervalRun Quote orig st =
      (intervalUnit Quote orig st (digitsVal ds) u rest).andThen (intervalRun Quote orig) := by
  have hne : st.s ≠ [] := by
    rw [hs]
    intro h
    exact hds.1 (List.append_eq_nil.1 h).1
  obtain ⟨p1, p2, p3⟩ := parts_of_pair ds u rest hds.2 hu1 hu2 hr
  rw [intervalRun_step Quote orig st hne, intervalBody_eq Quote orig st hne, hs, p1, p2, p3,
    if_neg (by
      rw [not_or, not_lt]
      exact ⟨hds.1, hval⟩),
    if_neg hu1]

/-- The loop over an optional digit run with its unit, when the unit is new,
in order and within the range of `int`. -/
theorem intervalRun_piece (orig : GoString) (st : IvlState) (o : Option GoString)
    (u rest : GoString)
    (hs : st.s = piece o u ++ rest) (ho : OptRun o) (hu : IsIntervalUnit u)
    (hr : EndOrDigit rest) (hseen : st.seen u = some false)
    (hrank : st.maxRank ≤ ivlRank u) (hv : optVal o ≤ MaxInt) :
    intervalRun Quote orig st = intervalRun Quote orig (ivlPiece st o u rest) := by
  cases o with
  | none => rfl
  | some ds =>
    have hds : IsDigitRun ds := ho ds rfl
    have hval : digitsVal ds ≤ 2 ^ 63 := by
      simp only [optVal_some, MaxInt] at hv
      omega
    have hshape := unit_shape hu
    rw [intervalRun_pair Quote orig st ds u rest (by simpa [piece] using hs) hds hshape.1
        hshape.2 hr hval,
      intervalUnit_accept Quote orig st (digitsVal ds) u rest hseen hrank hv]
    rfl

end IntervalRounds

theorem ivlPiece_s (st : IvlState) (o : Option GoString) (u rest : GoString)
    (hs : st.s = piece o u ++ rest) : (ivlPiece st o u rest).s = rest := by
  cases o with
  | none => simpa using hs
  | some ds => rfl

theorem ivlRank_inj (u w : GoString) (hu : IsIntervalUnit u) (hw : IsIntervalUnit w)
    (h : ivlRank u = ivlRank w) : u = w := by
  rcases hu with rfl | rfl | rfl | rfl | rfl | rfl <;>
    rcases hw with rfl | rfl | rfl | rfl | rfl | rfl <;>
    first | rfl | (exact absurd h (by decide))

theorem fresh_piece (k : Int) (st : IvlState) (o : Option GoString) (u rest : GoString)
    (hf : Fresh k st) (hk : ivlRank u = k) :
    Fresh (k + 1) (ivlPiece st o u rest) := by
  obtain ⟨h1, h2⟩ := hf
  cases o with
  | none => exact ⟨by show st.maxRank < k + 1; omega, fun w hw hr => h2 w hw (by omega)⟩
  | some ds =>
    refine ⟨?_, ?_⟩
    · show max (ivlRank u) st.maxRank < k + 1
      rw [hk, max_eq_left (by omega)]
      omega
    · intro w hw hr
      have hne : w ≠ u := by
        intro he
        rw [he, hk] at hr
        omega
      show (if w = u then some true else st.seen w) = some false
      rw [if_neg hne]
      exact h2 w hw (by omega)

theorem fresh_init (s : GoString) : Fresh 0 (ivlInit s) := by
  refine ⟨by show (-1 : Int) < 0; decide, ?_⟩
  intro u hu _
  rcases hu with rfl | rfl | rfl | rfl | rfl | rfl <;> rfl

/-! ## ParseInterval on well-formed texts -/

theorem ivlAfter_ivl (oy omo od oh om os : Option GoString) (rest : GoString) :
    (ivlAfter oy omo od oh om os rest).ivl =
      { year := (optVal oy : Int), month := (optVal omo : Int), day := (optVal od : Int),
        hour := (optVal oh : Int), minute := (optVal om : Int), second := (optVal os : Int) } := by
  cases oy <;> cases omo <;> cases od <;> cases oh <;> cases om <;> cases os <;> rfl

section IntervalForward
variable (Quote : GoString → GoString)

/-- The loop of `ParseInterval` runs through every text of units in the order
y, mo, d, h, m, s whose magnitudes are within the range of `int`. -/
theorem intervalRun_text (orig : GoString) (oy omo od oh om os : Option GoString)
    (rest : GoString) (hy : OptRun oy) (hmo : OptRun omo) (hd : OptRun od) (hh : OptRun oh)
    (hm : OptRun om) (hs : OptRun os) (hr : EndOrDigit rest)
    (vy : optVal oy ≤ MaxInt) (vmo : optVal omo ≤ MaxInt) (vd : optVal od ≤ MaxInt)
    (vh : optVal oh ≤ MaxInt) (vm : optVal om ≤ MaxInt) (vs : optVal os ≤ MaxInt) :
    intervalRun Quote orig (ivlInit (intervalText oy omo od oh om os ++ rest)) =
        intervalRun Quote orig (ivlAfter oy omo od oh om os rest) ∧
      (ivlAfter oy omo od oh om os rest).s = rest := by
  have e5 : EndOrDigit (piece os (str "s") ++ rest) := endOrDigit_piece _ _ _ hs hr
  have e4 := endOrDigit_piece om (str "m") _ hm e5
  have e3 := endOrDigit_piece oh (str "h") _ hh e4
  have e2 := endOrDigit_piece od (str "d") _ hd e3
  have e1 := endOrDigit_piece omo (str "mo") _ hmo e2
  have uy : IsIntervalUnit (str "y") := Or.inl rfl
  have umo : IsIntervalUnit (str "mo") := Or.inr (Or.inl rfl)
  have ud : IsIntervalUnit (str "d") := Or.inr (Or.inr (Or.inl rfl))
  have uh : IsIntervalUnit (str "h") := Or.inr (Or.inr (Or.inr (Or.inl rfl)))
  have um : IsIntervalUnit (str "m") := Or.inr (Or.inr (Or.inr (Or.inr (Or.inl rfl))))
  have us : IsIntervalUnit (str "s") := Or.inr (Or.inr (Or.inr (Or.inr (Or.inr rfl))))
  have s0 : (ivlInit (intervalText oy omo od oh om os ++ rest)).s = piece oy (str "y") ++
      (piece omo (str "mo") ++ (piece od (str "d") ++ (piece oh (str "h") ++
        (piece om (str "m") ++ (piece os (str "s") ++ rest))))) := by
    simp [ivlInit, intervalText, List.append_assoc]
  have f0 := fresh_init (intervalText oy omo od oh om os ++ rest)
  have s1 := ivlPiece_s _ oy (str "y") _ s0
  have f1 := fresh_piece 0 _ oy (str "y") (piece omo (str "mo") ++ (piece od (str "d") ++
    (piece oh (str "h") ++ (piece om (str "m") ++ (piece os (str "s") ++ rest))))) f0 rfl
  have s2 := ivlPiece_s _ omo (str "mo") _ s1
  have f2 := fresh_piece (0 + 1) _ omo (str "mo") (piece od (str "d") ++
    (piece oh (str "h") ++ (piece om (str "m") ++ (piece os (str "s") ++ rest)))) f1 rfl
  have s3 := ivlPiece_s _ od (str "d") _ s2
  have f3 := fresh_piece (0 + 1 + 1) _ od (str "d")
    (piece oh (str "h") ++ (piece om (str "m") ++ (piece os (str "s") ++ rest))) f2 rfl
  have s4 := ivlPiece_s _ oh (str "h") _ s3
  have f4 := fresh_piece (0 + 1 + 1 + 1) _ oh (str "h")
    (piece om (str "m") ++ (piece os (str "s") ++ rest)) f3 rfl
  have s5 := ivlPiece_s _ om (str "m") _ s4
  have f5 := fresh_piece (0 + 1 + 1 + 1 + 1) _ om (str "m") (piece os (str "s") ++ rest) f4 rfl
  have s6 := ivlPiece_s _ os (str "s") _ s5
  refine ⟨?_, s6⟩
  unfold ivlAfter
  rw [intervalRun_piece Quote orig _ oy (str "y") _ s0 hy uy e1
        (f0.2 _ uy (by decide)) (le_of_lt f0.1) vy,
      intervalRun_piece Quote orig _ omo (str "mo") _ s1 hmo umo e2
        (f1.2 _ umo (by decide)) (le_of_lt f1.1) vmo,
      intervalRun_piece Quote orig _ od (str "d") _ s2 hd ud e3
        (f2.2 _ ud (by decide)) (le_of_lt f2.1) vd,
      intervalRun_piece Quote orig _ oh (str "h") _ s3 hh uh e4
        (f3.2 _ uh (by decide)) (le_of_lt f3.1) vh,
      intervalRun_piece Quote orig _ om (str "m") _ s4 hm um e5
        (f4.2 _ um (by decide)) (le_of_lt f4.1) vm,
      intervalRun_piece Quote orig _ os (str "s") _ s5 hs us hr
        (f5.2 _ us (by decide)) (le_of_lt f5.1) vs]

theorem ParseInterval_eq (s : GoString) :
    ParseInterval Quote s =
      if s = str "0" then
        .ret { year := 0, month := 0, day := 0, hour := 0, minute := 0, second := 0 } none
      else if s = [] then
        .ret { year := 0, month := 0, day := 0, hour := 0, minute := 0, second := 0 }
          (some (errInvalidInterval Quote s))
      else (intervalRun Quote s (ivlInit s)).finish (fun st => .ret st.ivl none) := by
  unfold ParseInterval
  simp only [intervalRun, ivlInit, Flow.finish]
  split_ifs <;> first | rfl | (generalize intervalLoop Quote _ _ _ = f; cases f <;> rfl)

end IntervalForward

/-! ## Round trip of intervals -/

theorem piece_length (o : Option GoString) (u : GoString) (ho : OptRun o) (hu : u ≠ []) :
    (o = none ∧ (piece o u).length = 0) ∨ 2 ≤ (piece o u).length := by
  cases o with
  | none => exact Or.inl ⟨rfl, rfl⟩
  | some ds =>
    have h1 := List.length_pos.2 (ho ds rfl).1
    have h2 := List.length_pos.2 hu
    right
    simp only [piece_some, List.length_append]
    omega

theorem intervalText_shape (oy omo od oh om os : Option GoString)
    (hy : OptRun oy) (hmo : OptRun omo) (hd : OptRun od) (hh : OptRun oh)
    (hm : OptRun om) (hs : OptRun os)
    (hne : ¬ (oy = none ∧ omo = none ∧ od = none ∧ oh = none ∧ om = none ∧ os = none)) :
    2 ≤ (intervalText oy omo od oh om os).length := by
  unfold intervalText
  simp only [List.length_append]
  rcases piece_length oy (str "y") hy (by decide) with ⟨e1, -⟩ | h
  · rcases piece_length omo (str "mo") hmo (by decide) with ⟨e2, -⟩ | h
    · rcases piece_length od (str "d") hd (by decide) with ⟨e3, -⟩ | h
      · rcases piece_length oh (str "h") hh (by decide) with ⟨e4, -⟩ | h
        · rcases piece_length om (str "m") hm (by decide) with ⟨e5, -⟩ | h
          · rcases piece_length os (str "s") hs (by decide) with ⟨e6, -⟩ | h
            · exact absurd ⟨e1, e2, e3, e4, e5, e6⟩ hne
            · omega
          · omega
        · omega
      · omega
    · omega
  · omega

theorem append_fieldRun (s : GoString) (n : Nat) (u : GoString) :
    (if (n : Int) ≠ 0 then s ++ (Itoa (n : Int) ++ u) else s) = s ++ piece (fieldRun n) u := by
  rw [piece_fieldRun]
  split_ifs <;> simp

theorem Interval_String_eq (y mo d h m s : Nat) :
    Interval.String { year := (y : Int), month := (mo : Int), day := (d : Int),
                      hour := (h : Int), minute := (m : Int), second := (s : Int) } =
      if y = 0 ∧ mo = 0 ∧ d = 0 ∧ h = 0 ∧ m = 0 ∧ s = 0 then str "0"
      else intervalText (fieldRun y) (fieldRun mo) (fieldRun d) (fieldRun h) (fieldRun m)
        (fieldRun s) := by
  unfold Interval.String intervalText Interval.IsZero
  simp only [append_fieldRun]
  simp only [List.nil_append, List.append_assoc]
  by_cases hz : y = 0 ∧ mo = 0 ∧ d = 0 ∧ h = 0 ∧ m = 0 ∧ s = 0
  · rw [if_pos hz, if_pos (by
      obtain ⟨h1, h2, h3, h4, h5, h6⟩ := hz
      subst h1 h2 h3 h4 h5 h6
      rfl)]
  · rw [if_neg hz, if_neg (by
      simp only [Bool.and_eq_true, beq_iff_eq, Nat.cast_eq_zero, and_assoc]
      exact hz)]

section IntervalTop
variable (Quote : GoString → GoString)

/-- `ParseInterval` on a text of units in the order y, mo, d, h, m, s whose
magnitudes are within the range of `int`. -/
theorem ParseInterval_text (oy omo od oh om os : Option GoString)
    (hy : OptRun oy) (hmo : OptRun omo) (hd : OptRun od) (hh : OptRun oh)
    (hm : OptRun om) (hs : OptRun os)
    (hne : ¬ (oy = none ∧ omo = none ∧ od = none ∧ oh = none ∧ om = none ∧ os = none))
    (vy : optVal oy ≤ MaxInt) (vmo : optVal omo ≤ MaxInt) (vd : optVal od ≤ MaxInt)
    (vh : optVal oh ≤ MaxInt) (vm : optVal om ≤ MaxInt) (vs : optVal os ≤ MaxInt) :
    ParseInterval Quote (intervalText oy omo od oh om os) =
      .ret { year := (optVal oy : Int), month := (optVal omo : Int), day := (optVal od : Int),
             hour := (optVal oh : Int), minute := (optVal om : Int),
             second := (optVal os : Int) } none := by
  have hlen := intervalText_shape oy omo od oh om os hy hmo hd hh hm hs hne
  have h1 : intervalText oy omo od oh om os ≠ [] := by
    intro h; rw [h] at hlen; simp at hlen
  have h2 : intervalText oy omo od oh om os ≠ str "0" := by
    intro h; rw [h] at hlen; simp [str_zero] at hlen
  have hrun := intervalRun_text Quote (intervalText oy omo od oh om os) oy omo od oh om os []
    hy hmo hd hh hm hs endOrDigit_nil vy vmo vd vh vm vs
  rw [List.append_nil] at hrun
  rw [ParseInterval_eq, if_neg h2, if_neg h1, hrun.1, intervalRun_nil Quote _ _ hrun.2]
  simp only [Flow.finish, ivlAfter_ivl]

/-- C2: `ParseInterval` accepts every well-formed text: for every choice of
non-empty digit runs for a non-empty subset of the units y, mo, d, h, m, s,
written in this order, each of value at most `math.MaxInt`, it returns the nil
error and the interval whose field for a present unit is the value of its run
and whose field for an absent unit is 0. -/
theorem ParseInterval_accepts_wellformed (oy omo od oh om os : Option GoString)
    (hy : OptRun oy) (hmo : OptRun omo) (hd : OptRun od) (hh : OptRun oh)
    (hm : OptRun om) (hs : OptRun os)
    (hne : ¬ (oy = none ∧ omo = none ∧ od = none ∧ oh = none ∧ om = none ∧ os = none))
    (vy : optVal oy ≤ MaxInt) (vmo : optVal omo ≤ MaxInt) (vd : optVal od ≤ MaxInt)
    (vh : optVal oh ≤ MaxInt) (vm : optVal om ≤ MaxInt) (vs : optVal os ≤ MaxInt) :
    ParseInterval Quote (intervalText oy omo od oh om os) =
      .ret (NewInterval (optVal oy) (optVal omo) (optVal od) (optVal oh) (optVal om)
        (optVal os)) none := by
  unfold NewInterval
  exact ParseInterval_text Quote oy omo od oh om os hy hmo hd hh hm hs hne vy vmo vd vh vm vs

/-- C2, witness: the text "1y2mo3d4h5m6s" parses to `NewInterval(1,2,3,4,5,6)`. -/
theorem ParseInterval_accepts_wellformed_witness :
    ParseInterval quoteAscii (str "1y2mo3d4h5m6s") = .ret (NewInterval 1 2 3 4 5 6) none :=
  ParseInterval_accepts_wellformed quoteAscii (some (str "1")) (some (str "2"))
    (some (str "3")) (some (str "4")) (some (str "5")) (some (str "6"))
    (optRun_some _ (by decide)) (optRun_some _ (by decide)) (optRun_some _ (by decide))
    (optRun_some _ (by decide)) (optRun_some _ (by decide)) (optRun_some _ (by decide))
    (by simp) (by decide) (by decide) (by decide) (by decide) (by decide) (by decide)

/-- C3: round trip of intervals: for every interval `i` whose six fields are
in the range `0..math.MaxInt`, the all-zero interval (written "0") included,
parsing `i.String()` returns the nil error and `i`. -/
theorem Interval_roundtrip (i : Interval)
    (hy : 0 ≤ i.year ∧ i.year ≤ MaxInt) (hmo : 0 ≤ i.month ∧ i.month ≤ MaxInt)
    (hd : 0 ≤ i.day ∧ i.day ≤ MaxInt) (hh : 0 ≤ i.hour ∧ i.hour ≤ MaxInt)
    (hm : 0 ≤ i.minute ∧ i.minute ≤ MaxInt) (hs : 0 ≤ i.second ∧ i.second ≤ MaxInt) :
    ParseInterval Quote i.String = .ret i none := by
  obtain ⟨y, mo, d, h, m, s⟩ := i
  simp only at hy hmo hd hh hm hs
  obtain ⟨y1, rfl⟩ := Int.eq_ofNat_of_zero_le hy.1
  obtain ⟨mo1, rfl⟩ := Int.eq_ofNat_of_zero_le hmo.1
  obtain ⟨d1, rfl⟩ := Int.eq_ofNat_of_zero_le hd.1
  obtain ⟨h1, rfl⟩ := Int.eq_ofNat_of_zero_le hh.1
  obtain ⟨m1, rfl⟩ := Int.eq_ofNat_of_zero_le hm.1
  obtain ⟨s1, rfl⟩ := Int.eq_ofNat_of_zero_le hs.1
  rw [Interval_String_eq]
  by_cases hz : y1 = 0 ∧ mo1 = 0 ∧ d1 = 0 ∧ h1 = 0 ∧ m1 = 0 ∧ s1 = 0
  · obtain ⟨e1, e2, e3, e4, e5, e6⟩ := hz
    subst e1 e2 e3 e4 e5 e6
    rfl
  · rw [if_neg hz]
    have hne : ¬ (fieldRun y1 = none ∧ fieldRun mo1 = none ∧ fieldRun d1 = none ∧
        fieldRun h1 = none ∧ fieldRun m1 = none ∧ fieldRun s1 = none) := by
      intro hnone
      apply hz
      have key : ∀ n : Nat, fieldRun n = none → n = 0 := by
        intro n hn
        by_contra h0
        simp [fieldRun, h0] at hn
      exact ⟨key _ hnone.1, key _ hnone.2.1, key _ hnone.2.2.1, key _ hnone.2.2.2.1,
        key _ hnone.2.2.2.2.1, key _ hnone.2.2.2.2.2⟩
    have hv : ∀ n : Nat, (n : Int) ≤ (MaxInt : Int) → optVal (fieldRun n) ≤ MaxInt := by
      intro n hn
      rw [fieldRun_val]
      exact_mod_cast hn
    have := ParseInterval_text Quote (fieldRun y1) (fieldRun mo1) (fieldRun d1)
      (fieldRun h1) (fieldRun m1) (fieldRun s1) (fieldRun_optRun _) (fieldRun_optRun _)
      (fieldRun_optRun _) (fieldRun_optRun _) (fieldRun_optRun _) (fieldRun_optRun _) hne
      (hv _ hy.2) (hv _ hmo.2) (hv _ hd.2) (hv _ hh.2) (hv _ hm.2) (hv _ hs.2)
    rw [this]
    simp only [fieldRun_val]

end IntervalTop

/-- C3, witness: the interval `NewInterval(1, 2, 3, 4, 5, 6)`, written
"1y2mo3d4h5m6s". -/
theorem Interval_roundtrip_witness :
    (NewInterval 1 2 3 4 5 6).String = str "1y2mo3d4h5m6s" ∧
      ParseInterval quoteAscii (NewInterval 1 2 3 4 5 6).String =
        .ret (NewInterval 1 2 3 4 5 6) none :=
  ⟨by decide, Interval_roundtrip quoteAscii (NewInterval 1 2 3 4 5 6)
    (by decide) (by decide) (by decide) (by decide) (by decide) (by decide)⟩

/-! ## ParseInterval: the strict grammar -/

theorem ivlRank_range (u : GoString) (hu : IsIntervalUnit u) : 0 ≤ ivlRank u ∧ ivlRank u < 6 := by
  rcases hu with rfl | rfl | rfl | rfl | rfl | rfl <;> decide

theorem intervalSeen_unit (u : GoString) (b : Bool) (h : intervalSeen u = some b) :
    IsIntervalUnit u := by
  unfold intervalSeen at h
  split_ifs at h with hu
  exact hu

section IntervalStrict
variable (Quote : GoString → GoString)

/-- Invariant rule for the loop of `ParseInterval` when it runs to its end. -/
theorem intervalRun_next_inv (orig : GoString) (P : IvlState → Prop)
    (hstep : ∀ st st1, P st → st.s ≠ [] → intervalBody Quote orig st = .next st1 → P st1)
    {st stf : IvlState} (hP : P st) (h : intervalRun Quote orig st = .next stf) :
    P stf ∧ stf.s = [] := by
  have := forLoop_next_inv (fun st : IvlState => decide (st.s ≠ [])) (intervalBody Quote orig) P
    (fun st st1 hp hg hb => hstep st st1 hp (by simpa using hg) hb) st.s.length st stf hP h
  exact ⟨this.1, by simpa using this.2⟩

/-- A `return` inside the loop of `ParseInterval` carries an error. -/
theorem intervalRun_stop (orig : GoString) {st : IvlState} {o : Outcome Interval}
    (h : intervalRun Quote orig st = .stop o) : ∀ d, o ≠ .ret d none := by
  refine forLoop_stop_inv (fun st : IvlState => decide (st.s ≠ [])) (intervalBody Quote orig)
    (fun _ => True) (fun o => ∀ d, o ≠ .ret d none) (fun _ _ _ _ _ => trivial) ?_ ?_
    st.s.length st o trivial h
  · intro st o _ hg hb d hd
    obtain ⟨d1, e, he⟩ := intervalBody_stop Quote (by simpa using hg) hb
    rw [he] at hd
    cases hd
  · intro d hd
    cases hd

theorem ivlGram_step {orig t0 : GoString} {st st1 : IvlState} (hinv : IvlGramInv t0 st)
    (hs : st.s ≠ []) (hb : intervalBody Quote orig st = .next st1) : IvlGramInv t0 st1 := by
  rw [intervalBody_eq Quote orig st hs] at hb
  split_ifs at hb with h1 h2
  obtain ⟨hseen, hrank, -, hst⟩ := intervalUnit_next Quote hb
  rw [not_or] at h1
  subst hst
  have hunit : IsIntervalUnit (unitPart st.s) := hinv.2 _ _ hseen
  refine ⟨gramInv_step ivlRank_inj hinv.1 (parts_append st.s).symm
    ⟨h1.1, digitPart_all st.s⟩ hunit (by rw [hseen]; rfl) hrank, ?_⟩
  intro u b hub
  simp only at hub
  split_ifs at hub with hu
  · rw [hu]; exact hunit
  · exact hinv.2 u b hub

/-- C7: `ParseInterval` accepts only the strict grammar: a text it accepts is
exactly "0", or a concatenation of between one and six pairs of a non-empty
digit run and a unit y, mo, d, h, m or s, with the ranks of the units
increasing strictly (so no unit occurs twice). -/
theorem ParseInterval_grammar (s : GoString) (v : Interval)
    (h : ParseInterval Quote s = .ret v none) : s = str "0" ∨ IntervalGrammar s := by
  rw [ParseInterval_eq] at h
  by_cases h0 : s = str "0"
  · exact Or.inl h0
  · right
    rw [if_neg h0] at h
    by_cases hne : s = []
    · rw [if_pos hne] at h
      cases h
    · rw [if_neg hne] at h
      cases hrun : intervalRun Quote s (ivlInit s) with
      | stop o =>
        rw [hrun] at h
        exact absurd h (intervalRun_stop Quote s hrun v)
      | next stf =>
        have := intervalRun_next_inv Quote s (IvlGramInv s)
          (fun st st1 hp hs hb => ivlGram_step Quote hp hs hb)
          (show IvlGramInv s (ivlInit s) from
            ⟨⟨[], rfl, by simp, List.Pairwise.nil⟩, intervalSeen_unit⟩) hrun
        obtain ⟨⟨⟨ps, ht, hall, hpw⟩, -⟩, hnil⟩ := this
        rw [hnil, List.append_nil] at ht
        have hall2 : ∀ p ∈ ps, IsDigitRun p.1 ∧ IsIntervalUnit p.2 :=
          fun p hp => ⟨(hall p hp).1, (hall p hp).2.1⟩
        have hlen := pairwise_rank_length (fun p : GoString × GoString => ivlRank p.2) 6 ps 0
          hpw (fun p hp => ivlRank_range p.2 (hall2 p hp).2) (by decide)
        have hpos : 1 ≤ ps.length := by
          cases ps with
          | nil => exact absurd ht hne
          | cons p ps => simp
        exact ⟨ps, ht, hpos, by omega, hall2, hpw⟩

end IntervalStrict

/-- C7, witness: the accepted text "1y2mo3d4h5m6s"; the texts "1s1s", "1s1m",
"1y1mo4h3d" and "1sm" are rejected. -/
theorem ParseInterval_grammar_witness :
    (str "1y2mo3d4h5m6s" = str "0" ∨ IntervalGrammar (str "1y2mo3d4h5m6s")) ∧
      ParseInterval quoteAscii (str "1s1s") =
        .ret (NewInterval 0 0 0 0 0 1)
          (some (str "timeapi: unit \"s\" repeated in interval \"1s1s\"")) ∧
      ParseInterval quoteAscii (str "1s1m") =
        .ret (NewInterval 0 0 0 0 0 1) (some (str
          "timeapi: unit \"m\" must be in the order of y, mo, d, h, m, s in interval \"1s1m\"")) ∧
      ParseInterval quoteAscii (str "1y1mo4h3d") =
        .ret (NewInterval 1 1 0 4 0 0) (some (str
          "timeapi: unit \"d\" must be in the order of y, mo, d, h, m, s in interval \"1y1mo4h3d\"")) ∧
      ParseInterval quoteAscii (str "1sm") =
        .ret (NewInterval 0 0 0 0 0 0)
          (some (str "timeapi: unknown unit \"sm\" in interval \"1sm\"")) :=
  ⟨ParseInterval_grammar quoteAscii (str "1y2mo3d4h5m6s") (NewInterval 1 2 3 4 5 6) (by decide),
    by decide, by decide, by decide, by decide⟩

/-! ## Malformed texts and missing units -/

theorem stripSign_snd (s : GoString) : (stripSign s).2 = dropSign s := by
  cases s with
  | nil => rfl
  | cons c rest =>
    simp only [stripSign, dropSign]
    by_cases hc : c = 45 ∨ c = 43
    · rw [if_pos hc, if_pos (Or.symm hc)]
    · rw [if_neg hc, if_neg (fun h => hc (Or.symm h))]

theorem parts_of_digits (s : GoString) (hs : ∀ c ∈ s, isDigit c = true) :
    digitPart s = s ∧ unitPart s = [] := by
  have h := takeWhile_run (p := isDigit) s [] hs (by intro a ha; cases ha)
  rw [List.append_nil] at h
  refine ⟨h.1, ?_⟩
  unfold unitPart
  rw [h.2]
  rfl

theorem endOrDigit_of_run (s : GoString) (hs : IsDigitRun s) : EndOrDigit s := by
  have := endOrDigit_piece (some s) [] [] (optRun_some s hs) endOrDigit_nil
  simpa using this

theorem parts_of_nondigit (t : GoString) (ht : ∀ c ∈ t.head?, isDigit c = false) :
    digitPart t = [] := by
  cases t with
  | nil => rfl
  | cons c rest =>
    have hc : isDigit c = false := ht c rfl
    simp [digitPart, List.takeWhile, hc]

section Malformed
variable (Quote : GoString → GoString)

/-- C11: missing unit: for every non-empty text `s` of ASCII decimal digits
other than "0", of value at most `2 ^ 63`, `ParseDuration` fails with exactly
`"timeapi: missing unit in duration " + Quote(s)` and `ParseInterval` fails
with exactly `"timeapi: missing unit in interval " + Quote(s)`. -/
theorem Parse_missing_unit (s : GoString) (hs : IsDigitRun s) (h0 : s ≠ str "0")
    (hv : digitsVal s ≤ 2 ^ 63) :
    (∃ d, ParseDuration Quote s =
      .ret d (some (str "timeapi: missing unit in duration " ++ Quote s))) ∧
    (∃ i, ParseInterval Quote s =
      .ret i (some (str "timeapi: missing unit in interval " ++ Quote s))) := by
  obtain ⟨p1, p2⟩ := parts_of_digits s hs.2
  have hcond : ¬ (digitPart s = [] ∨ 2 ^ 63 < digitsVal (digitPart s)) := by
    rw [p1, not_or, not_lt]
    exact ⟨hs.1, hv⟩
  constructor
  · rw [ParseDuration_eq, stripSign_digit s (endOrDigit_of_run s hs)]
    unfold durationTail
    rw [if_neg hs.1, if_neg h0,
      durationRun_step Quote s _ (show (durInit s _).s ≠ [] from hs.1),
      durationBody_eq Quote s _ (show (durInit s _).s ≠ [] from hs.1)]
    simp only [durInit]
    rw [if_neg hcond, if_pos p2]
    exact ⟨_, rfl⟩
  · rw [ParseInterval_eq, if_neg h0, if_neg hs.1,
      intervalRun_step Quote s _ (show (ivlInit s).s ≠ [] from hs.1),
      intervalBody_eq Quote s _ (show (ivlInit s).s ≠ [] from hs.1)]
    simp only [ivlInit]
    rw [if_neg hcond, if_pos p2]
    exact ⟨_, rfl⟩

/-- C11, witness: the text "1"; the text "00" is rejected in the same way,
although "0" is accepted. -/
theorem Parse_missing_unit_witness :
    ((∃ d, ParseDuration quoteAscii (str "1") =
        .ret d (some (str "timeapi: missing unit in duration \"1\""))) ∧
      (∃ i, ParseInterval quoteAscii (str "1") =
        .ret i (some (str "timeapi: missing unit in interval \"1\"")))) ∧
    ParseDuration quoteAscii (str "00") =
      .ret (NewDuration 0 0 0) (some (str "timeapi: missing unit in duration \"00\"")) ∧
    ParseInterval quoteAscii (str "00") =
      .ret (NewInterval 0 0 0 0 0 0)
        (some (str "timeapi: missing unit in interval \"00\"")) :=
  ⟨Parse_missing_unit quoteAscii (str "1") (by decide) (by decide) (by decide),
    by decide, by decide⟩

/-- C12: malformed duration: let `t` be `s` with one leading `+` or `-`
removed if present; when `t` is empty or its first byte is not an ASCII digit,
`ParseDuration(s)` fails with exactly `"timeapi: invalid duration " + Quote(s)`. -/
theorem ParseDuration_malformed (s : GoString)
    (ht : ∀ c ∈ (dropSign s).head?, isDigit c = false) :
    ∃ d, ParseDuration Quote s = .ret d (some (str "timeapi: invalid duration " ++ Quote s)) := by
  rw [← stripSign_snd] at ht
  rw [ParseDuration_eq]
  unfold durationTail
  by_cases h1 : (stripSign s).2 = []
  · rw [if_pos h1]
    exact ⟨_, rfl⟩
  · have h2 : (stripSign s).2 ≠ str "0" := by
      intro h
      rw [h] at ht
      exact absurd (ht 48 rfl) (by decide)
    rw [if_neg h1, if_neg h2,
      durationRun_step Quote s _ (show (durInit (stripSign s).2 _).s ≠ [] from h1),
      durationBody_eq Quote s _ (show (durInit (stripSign s).2 _).s ≠ [] from h1)]
    simp only [durInit]
    rw [if_pos (Or.inl (parts_of_nondigit _ ht))]
    exact ⟨_, rfl⟩

/-- C12, witness: the text "+-1h", with a doubled sign. -/
theorem ParseDuration_malformed_witness :
    ∃ d, ParseDuration quoteAscii (str "+-1h") =
      .ret d (some (str "timeapi: invalid duration \"+-1h\"")) :=
  ParseDuration_malformed quoteAscii (str "+-1h") (by decide)

/-- C13: malformed interval, no sign: for every text `s` that is empty or whose
first byte is not an ASCII digit, `+` and `-` included, `ParseInterval(s)` fails
with exactly `"timeapi: invalid interval " + Quote(s)`. -/
theorem ParseInterval_malformed (s : GoString) (hs : ∀ c ∈ s.head?, isDigit c = false) :
    ∃ i, ParseInterval Quote s = .ret i (some (str "timeapi: invalid interval " ++ Quote s)) := by
  rw [ParseInterval_eq]
  have h0 : s ≠ str "0" := by
    intro h
    rw [h] at hs
    exact absurd (hs 48 rfl) (by decide)
  rw [if_neg h0]
  by_cases h1 : s = []
  · rw [if_pos h1]
    exact ⟨_, rfl⟩
  · rw [if_neg h1, intervalRun_step Quote s _ (show (ivlInit s).s ≠ [] from h1),
      intervalBody_eq Quote s _ (show (ivlInit s).s ≠ [] from h1)]
    simp only [ivlInit]
    rw [if_pos (Or.inl (parts_of_nondigit _ hs))]
    exact ⟨_, rfl⟩

/-- C13, witness: the text "-0", and the texts "", "+0" and ".". -/
theorem ParseInterval_malformed_witness :
    (∃ i, ParseInterval quoteAscii (str "-0") =
      .ret i (some (str "timeapi: invalid interval \"-0\""))) ∧
    ParseInterval quoteAscii (str "") =
      .ret (NewInterval 0 0 0 0 0 0) (some (str "timeapi: invalid interval \"\"")) ∧
    ParseInterval quoteAscii (str "+0") =
      .ret (NewInterval 0 0 0 0 0 0) (some (str "timeapi: invalid interval \"+0\"")) ∧
    ParseInterval quoteAscii (str ".") =
      .ret (NewInterval 0 0 0 0 0 0) (some (str "timeapi: invalid interval \".\"")) :=
  ⟨ParseInterval_malformed quoteAscii (str "-0") (by decide), by decide, by decide, by decide⟩

end Malformed

/-! ## Bare zero and the accessors of a duration -/

/-- C19: bare zero: for each of the sign prefixes "", "+" and "-",
`ParseDuration` of the prefix followed by "0" returns the nil error and a
duration `d` with `d.Hours() = d.Minutes() = d.Seconds() = 0`, `d.IsZero()` true
and `d.String() = "0h0m0s"`; `ParseDuration("0")` is `NewDuration(0, 0, 0)`, and
`ParseInterval("0")` returns the nil error and the all-zero interval. -/
theorem Parse_bare_zero (Quote : GoString → GoString) :
    (∃ d, ParseDuration Quote (str "0") = .ret d none ∧ d.Hours = 0 ∧ d.Minutes = 0 ∧
      d.Seconds = 0 ∧ d.IsZero = true ∧ d.String = str "0h0m0s") ∧
    (∃ d, ParseDuration Quote (str "+0") = .ret d none ∧ d.Hours = 0 ∧ d.Minutes = 0 ∧
      d.Seconds = 0 ∧ d.IsZero = true ∧ d.String = str "0h0m0s") ∧
    (∃ d, ParseDuration Quote (str "-0") = .ret d none ∧ d.Hours = 0 ∧ d.Minutes = 0 ∧
      d.Seconds = 0 ∧ d.IsZero = true ∧ d.String = str "0h0m0s") ∧
    ParseDuration Quote (str "0") = .ret (NewDuration 0 0 0) none ∧
    ParseInterval Quote (str "0") = .ret (NewInterval 0 0 0 0 0 0) none := by
  refine ⟨⟨{ neg := 1, hour := 0, minute := 0, second := 0 }, rfl, ?_⟩,
    ⟨{ neg := 1, hour := 0, minute := 0, second := 0 }, rfl, ?_⟩,
    ⟨{ neg := -1, hour := 0, minute := 0, second := 0 }, rfl, ?_⟩, rfl, rfl⟩ <;> decide

/-- C20, the code at the failing input: for `NewDuration(-1, 2, 3)`, stored as
sign -1 with hour 1, minute 2 and second 3, `GoDuration` returns
`-1h + 2m + 3s = -3477000000000` nanoseconds, whereas
`d.Hours()*time.Hour + d.Minutes()*time.Minute + d.Seconds()*time.Second` is
`-(1h + 2m + 3s) = -3723000000000`; for `NewDuration(1, 2, 3)` the two agree. -/
theorem GoDuration_sign_on_hours_only :
    NewDuration (-1) 2 3 = { neg := -1, hour := 1, minute := 2, second := 3 } ∧
    (NewDuration (-1) 2 3).GoDuration = -3477000000000 ∧
    (NewDuration (-1) 2 3).Hours * timeHour + (NewDuration (-1) 2 3).Minutes * timeMinute +
      (NewDuration (-1) 2 3).Seconds * timeSecond = -3723000000000 ∧
    (NewDuration 1 2 3).GoDuration = timeHour + 2 * timeMinute + 3 * timeSecond := by
  decide

/-! ## ParseInterval: the range of a field -/

section IntervalField
variable (Quote : GoString → GoString)

theorem intervalUnit_overflow (orig : GoString) (st : IvlState) (v : Nat) (u rest : GoString)
    (hseen : st.seen u = some false) (hrank : st.maxRank ≤ ivlRank u) (hv : MaxInt < v) :
    intervalUnit Quote orig st v u rest =
      .stop (.ret st.ivl (some (errInvalidInterval Quote orig))) := by
  unfold intervalUnit
  unfold ivlRank at hrank
  simp only [hseen]
  rw [if_neg (not_lt.2 hrank), if_pos hv]
  rfl

/-- C15: range of an interval field on a 64-bit platform: for every unit `u`
of y, mo, d, h, m, s and every non-empty digit run of value `v`,
`ParseInterval(digits + u)` succeeds if and only if `v <= math.MaxInt`; on
success the field of `u` is `v` and the other fields are 0; otherwise, for the
value `2 ^ 63` as well, it fails with `"timeapi: invalid interval " + Quote(input)`. -/
theorem ParseInterval_field_boundary (ds u : GoString) (hds : IsDigitRun ds)
    (hu : IsIntervalUnit u) :
    ((∃ i, ParseInterval Quote (ds ++ u) = .ret i none) ↔ digitsVal ds ≤ MaxInt) ∧
    (digitsVal ds ≤ MaxInt →
      ParseInterval Quote (ds ++ u) =
        .ret ((NewInterval 0 0 0 0 0 0).assign u (digitsVal ds : Int)) none) ∧
    (MaxInt < digitsVal ds →
      ParseInterval Quote (ds ++ u) =
        .ret (NewInterval 0 0 0 0 0 0)
          (some (str "timeapi: invalid interval " ++ Quote (ds ++ u)))) := by
  have hshape := unit_shape hu
  have hlen : 2 ≤ (ds ++ u).length := by
    have h1 := List.length_pos.2 hds.1
    have h2 := List.length_pos.2 hshape.1
    simp only [List.length_append]
    omega
  have h1 : ds ++ u ≠ [] := by
    intro h; rw [h] at hlen; simp at hlen
  have h2 : ds ++ u ≠ str "0" := by
    intro h; rw [h] at hlen; simp [str_zero] at hlen
  have hs : (ivlInit (ds ++ u)).s = ds ++ (u ++ []) := by simp [ivlInit]
  have hseen : (ivlInit (ds ++ u)).seen u = some false :=
    (fresh_init (ds ++ u)).2 u hu (ivlRank_range u hu).1
  have hrank : (ivlInit (ds ++ u)).maxRank ≤ ivlRank u := by
    have := (ivlRank_range u hu).1
    show (-1 : Int) ≤ ivlRank u
    omega
  have hgood : digitsVal ds ≤ MaxInt →
      ParseInterval Quote (ds ++ u) =
        .ret ((NewInterval 0 0 0 0 0 0).assign u (digitsVal ds : Int)) none := by
    intro hv
    rw [ParseInterval_eq, if_neg h2, if_neg h1,
      intervalRun_pair Quote _ _ ds u [] hs hds hshape.1 hshape.2 endOrDigit_nil
        (by unfold MaxInt at hv; omega),
      intervalUnit_accept Quote _ _ _ u [] hseen hrank hv]
    simp only [Flow.andThen]
    rw [intervalRun_nil Quote _ _ rfl]
    rfl
  have hbad : MaxInt < digitsVal ds →
      ParseInterval Quote (ds ++ u) =
        .ret (NewInterval 0 0 0 0 0 0)
          (some (str "timeapi: invalid interval " ++ Quote (ds ++ u))) := by
    intro hv
    rw [ParseInterval_eq, if_neg h2, if_neg h1]
    by_cases hbig : digitsVal ds ≤ 2 ^ 63
    · rw [intervalRun_pair Quote _ _ ds u [] hs hds hshape.1 hshape.2 endOrDigit_nil hbig,
        intervalUnit_overflow Quote _ _ _ u [] hseen hrank hv]
      rfl
    · obtain ⟨p1, -, -⟩ := parts_of_pair ds u [] hds.2 hshape.1 hshape.2 endOrDigit_nil
      rw [intervalRun_step Quote _ _ (show (ivlInit (ds ++ u)).s ≠ [] from h1),
        intervalBody_eq Quote _ _ (show (ivlInit (ds ++ u)).s ≠ [] from h1), hs, p1,
        if_pos (Or.inr (not_le.1 hbig))]
      rfl
  refine ⟨⟨?_, fun hv => ⟨_, hgood hv⟩⟩, hgood, hbad⟩
  rintro ⟨i, hi⟩
  by_contra hv
  rw [hbad (not_le.1 hv)] at hi
  cases hi

end IntervalField

/-- C15, witness: with the unit "d", the value `2 ^ 63 - 1` is stored as
read and the value `2 ^ 63` is rejected. -/
theorem ParseInterval_field_boundary_witness :
    ParseInterval quoteAscii (str "9223372036854775807" ++ str "d") =
      .ret (NewInterval 0 0 9223372036854775807 0 0 0) none ∧
    ParseInterval quoteAscii (str "9223372036854775808" ++ str "d") =
      .ret (NewInterval 0 0 0 0 0 0)
        (some (str "timeapi: invalid interval \"9223372036854775808d\"")) ∧
    leadingInt (str "9223372036854775808d") = (9223372036854775808, str "d", none) :=
  ⟨(ParseInterval_field_boundary quoteAscii (str "9223372036854775807") (str "d")
      (by decide) (Or.inr (Or.inr (Or.inl rfl)))).2.1 (by decide),
    (ParseInterval_field_boundary quoteAscii (str "9223372036854775808") (str "d")
      (by decide) (Or.inr (Or.inr (Or.inl rfl)))).2.2 (by decide),
    by decide⟩

/-! ## ParseDuration: overflow -/

theorem stripSign_signed (sign t : GoString) (hsign : sign = [] ∨ sign = str "+" ∨ sign = str "-")
    (ht : EndOrDigit t) :
    stripSign (sign ++ t) = (decide (sign = str "-"), t) := by
  rcases hsign with rfl | rfl | rfl
  · rw [List.nil_append, stripSign_digit t ht]
    rfl
  · rfl
  · rfl

section DurationOverflow
variable (Quote : GoString → GoString)

theorem durationUnit_overflow (orig : GoString) (st : DurState) (v : Nat) (u rest : GoString)
    (unit : Nat) (hu : durationUnitMap u = some unit)
    (hseen : (st.seen u).getD false = false)
    (hrank : st.maxRank ≤ (durationUnitRank u).getD 0) (hd : st.dtmp ≤ 2 ^ 63)
    (hbad : ¬ (v ≤ 2 ^ 63 / unit ∧ st.dtmp + v * unit ≤ 2 ^ 63)) :
    ∃ d, durationUnit Quote orig st v u rest =
      .stop (.ret d (some (errInvalidDuration Quote orig))) := by
  unfold durationUnit
  simp only [hu, hseen]
  rw [if_neg (by simp), if_neg (not_lt.2 hrank)]
  by_cases hv : v > 2 ^ 63 / unit
  · rw [if_pos hv]
    exact ⟨_, rfl⟩
  · rw [if_neg hv]
    have hv2 : v ≤ 2 ^ 63 / unit := not_lt.1 hv
    have hsum : 2 ^ 63 < st.dtmp + v * unit := by
      by_contra h
      exact hbad ⟨hv2, not_lt.1 h⟩
    have hmod : (st.dtmp + v * unit % 2 ^ 64) % 2 ^ 64 = st.dtmp + v * unit := by
      rcases durationUnitMap_some hu with ⟨-, rfl⟩ | ⟨-, rfl⟩ | ⟨-, rfl⟩ <;>
        norm_num at hv2 hd ⊢ <;> omega
    rw [hmod, if_pos hsum]
    exact ⟨_, rfl⟩

/-- The loop on a digit run with a new unit in order whose magnitude or
running total is out of bounds stops with the error of an invalid duration. -/
theorem durationRun_piece_overflow (orig : GoString) (st : DurState) (o : Option GoString)
    (u rest : GoString) (unit : Nat)
    (hs : st.s = piece o u ++ rest) (ho : OptRun o) (hu : durationUnitMap u = some unit)
    (hr : EndOrDigit rest) (hseen : (st.seen u).getD false = false)
    (hrank : st.maxRank ≤ (durationUnitRank u).getD 0) (hd : st.dtmp ≤ 2 ^ 63)
    (hbad : ¬ (optVal o ≤ 2 ^ 63 / unit ∧ st.dtmp + optVal o * unit ≤ 2 ^ 63)) :
    ∃ d, durationRun Quote orig st = .stop (.ret d (some (errInvalidDuration Quote orig))) := by
  cases o with
  | none =>
    exfalso
    apply hbad
    simp only [optVal_none, Nat.zero_mul, Nat.add_zero]
    exact ⟨Nat.zero_le _, hd⟩
  | some ds =>
    have hds : IsDigitRun ds := ho ds rfl
    have hshape := durationUnit_shape hu
    have hs2 : st.s = ds ++ (u ++ rest) := by simpa [piece] using hs
    by_cases hbig : digitsVal ds ≤ 2 ^ 63
    · obtain ⟨d, hd2⟩ := durationUnit_overflow Quote orig st (digitsVal ds) u rest unit hu hseen
        hrank hd hbad
      rw [durationRun_pair Quote orig st ds u rest hs2 hds hshape.1 hshape.2 hr hbig, hd2]
      exact ⟨d, rfl⟩
    · have hne : st.s ≠ [] := by
        rw [hs2]
        intro h
        exact hds.1 (List.append_eq_nil.1 h).1
      obtain ⟨p1, -, -⟩ := parts_of_pair ds u rest hds.2 hshape.1 hshape.2 hr
      rw [durationRun_step Quote orig st hne, durationBody_eq Quote orig st hne, hs2, p1,
        if_pos (Or.inr (not_le.1 hbig))]
      exact ⟨_, rfl⟩

/-- The loop of `ParseDuration` on a text of units in the order h, m, s whose
total exceeds 9223372036 seconds stops with the error of an invalid duration. -/
theorem durationRun_text_overflow (orig : GoString) (d : Duration)
    (oh om os : Option GoString) (hh : OptRun oh) (hm : OptRun om) (hs : OptRun os)
    (hb : 9223372036 < 3600 * optVal oh + 60 * optVal om + optVal os) :
    ∃ d1, durationRun Quote orig (durInit (durationText oh om os) d) =
      .stop (.ret d1 (some (errInvalidDuration Quote orig))) := by
  have e3 : EndOrDigit (piece os (str "s") ++ []) := endOrDigit_piece _ _ _ hs endOrDigit_nil
  have e2 : EndOrDigit (piece om (str "m") ++ (piece os (str "s") ++ [])) :=
    endOrDigit_piece _ _ _ hm e3
  by_cases okh : optVal oh ≤ 2 ^ 63 / 3600000000000 ∧
      (durInit (durationText oh om os) d).dtmp + optVal oh * 3600000000000 ≤ 2 ^ 63
  · rw [durationRun_piece Quote orig _ oh (str "h") _ 3600000000000
        (by simp [durInit, durationText, List.append_assoc]) hh rfl e2
        (by simp [durInit, durationSeen, str_h, str_m, str_s])
        (by simp [durInit, durationUnitRank]) okh.1 okh.2]
    have okh2 : optVal oh * 3600000000000 ≤ 2 ^ 63 := by
      have := okh.2
      simp only [durInit] at this
      omega
    by_cases okm : optVal om ≤ 2 ^ 63 / 60000000000 ∧
        (durPiece (durInit (durationText oh om os) d) oh (str "h") 3600000000000
          (piece om (str "m") ++ (piece os (str "s") ++ []))).dtmp +
          optVal om * 60000000000 ≤ 2 ^ 63
    · rw [durationRun_piece Quote orig _ om (str "m") _ 60000000000
          (by cases oh <;> simp [durPiece, durAccept, durInit, durationText])
          hm rfl e3
          (by cases oh <;> simp [durPiece, durAccept, durInit, durationSeen, str_h, str_m, str_s])
          (by
            cases oh <;>
              simp [durPiece, durAccept, durInit, durationUnitRank, str_h, str_m, str_s])
          okm.1 okm.2]
      have okm2 : optVal oh * 3600000000000 + optVal om * 60000000000 ≤ 2 ^ 63 := by
        have := okm.2
        cases oh <;> simp only [durPiece, durAccept, durInit, optVal] at this ⊢ <;> omega
      refine durationRun_piece_overflow Quote orig _ os (str "s") [] 1000000000
        (by cases oh <;> cases om <;> simp [durPiece, durAccept, durInit, durationText])
        hs rfl endOrDigit_nil
        (by
          cases oh <;> cases om <;>
            simp [durPiece, durAccept, durInit, durationSeen, str_h, str_m, str_s])
        (by
          cases oh <;> cases om <;>
            simp [durPiece, durAccept, durInit, durationUnitRank, str_h, str_m, str_s])
        (by
          cases oh <;> cases om <;> simp only [durPiece, durAccept, durInit, optVal] at okm2 ⊢ <;>
            omega)
        ?_
      intro hok
      have h3 := hok.2
      have : optVal oh * 3600000000000 + optVal om * 60000000000 + optVal os * 1000000000
          ≤ 2 ^ 63 := by
        cases oh <;> cases om <;> simp only [durPiece, durAccept, durInit, optVal] at h3 ⊢ <;>
          omega
      norm_num at this
      omega
    · exact durationRun_piece_overflow Quote orig _ om (str "m") _ 60000000000
        (by cases oh <;> simp [durPiece, durAccept, durInit, durationText])
        hm rfl e3
        (by cases oh <;> simp [durPiece, durAccept, durInit, durationSeen, str_h, str_m, str_s])
        (by cases oh <;> simp [durPiece, durAccept, durInit, durationUnitRank, str_h, str_m, str_s])
        (by
          cases oh <;> simp only [durPiece, durAccept, durInit, optVal] at okh2 ⊢ <;> omega)
        okm
  · exact durationRun_piece_overflow Quote orig _ oh (str "h") _ 3600000000000
      (by simp [durInit, durationText, List.append_assoc]) hh rfl e2
      (by simp [durInit, durationSeen, str_h, str_m, str_s])
      (by simp [durInit, durationUnitRank])
      (by simp [durInit]) okh

/-- C14: overflow of a duration: for every text of an optional sign followed
by digit runs with the units h, m, s in this order, with values `vh`, `vm`, `vs`
(0 when omitted), when the total `(3600*vh + 60*vm + vs) * 10^9` in nanoseconds
exceeds `2 ^ 63 - 1`, `ParseDuration` fails with exactly
`"timeapi: invalid duration " + Quote(input)`, whatever the sign, and whether
one magnitude is too large or only the sum. -/
theorem ParseDuration_overflow (sign : GoString)
    (hsign : sign = [] ∨ sign = str "+" ∨ sign = str "-")
    (oh om os : Option GoString) (hh : OptRun oh) (hm : OptRun om) (hs : OptRun os)
    (hb : 2 ^ 63 - 1 < (3600 * optVal oh + 60 * optVal om + optVal os) * 10 ^ 9) :
    ∃ d, ParseDuration Quote (sign ++ durationText oh om os) =
      .ret d (some (str "timeapi: invalid duration " ++
        Quote (sign ++ durationText oh om os))) := by
  have hb2 : 9223372036 < 3600 * optVal oh + 60 * optVal om + optVal os := by
    norm_num at hb
    omega
  have hne : ¬ (oh = none ∧ om = none ∧ os = none) := by
    rintro ⟨rfl, rfl, rfl⟩
    simp at hb2
  have hlen := durationText_shape oh om os hh hm hs hne
  have h1 : durationText oh om os ≠ [] := by
    intro h; rw [h] at hlen; simp at hlen
  have h2 : durationText oh om os ≠ str "0" := by
    intro h; rw [h] at hlen; simp [str_zero] at hlen
  obtain ⟨d1, hd1⟩ := durationRun_text_overflow Quote (sign ++ durationText oh om os)
    { neg := if decide (sign = str "-") then -1 else 1, hour := 0, minute := 0, second := 0 }
    oh om os hh hm hs hb2
  rw [ParseDuration_eq,
    stripSign_signed sign _ hsign (endOrDigit_durationText oh om os hh hm hs)]
  unfold durationTail
  rw [if_neg h1, if_neg h2, hd1]
  exact ⟨d1, rfl⟩

end DurationOverflow

/-- C14, witness: "2562048h" is rejected for its magnitude alone; "2562047h47m17s"
and "-2562047h47m17s" are rejected for the sum, and "2562047h47m16s" is accepted. -/
theorem ParseDuration_overflow_witness :
    (∃ d, ParseDuration quoteAscii (str "2562048h") =
      .ret d (some (str "timeapi: invalid duration \"2562048h\""))) ∧
    ParseDuration quoteAscii (str "2562047h47m17s") =
      .ret (NewDuration 2562047 47 17)
        (some (str "timeapi: invalid duration \"2562047h47m17s\"")) ∧
    ParseDuration quoteAscii (str "-2562047h47m17s") =
      .ret (NewDuration (-2562047) 47 17)
        (some (str "timeapi: invalid duration \"-2562047h47m17s\"")) ∧
    ParseDuration quoteAscii (str "2562047h47m16s") =
      .ret (NewDuration 2562047 47 16) none :=
  ⟨ParseDuration_overflow quoteAscii [] (Or.inl rfl) (some (str "2562048")) none none
      (optRun_some _ (by decide)) optRun_none optRun_none (by decide),
    by decide, by decide, by decide⟩

/-! ## The sign of a duration -/

section LoopRel

variable {σ α : Type} (guard : σ → Bool) (body1 body2 : σ → Flow σ α)

/-- Simulation rule: two loops with the same guard whose rounds keep a relation
between their states end in related flows. -/
theorem forLoop_rel (R : σ → σ → Prop) (Ro : Outcome α → Outcome α → Prop)
    (hg : ∀ a b, R a b → guard a = guard b)
    (hb : ∀ a b, R a b → guard a = true → FlowRel R Ro (body1 a) (body2 b))
    (hf : Ro .outOfFuel .outOfFuel) :
    ∀ fuel a b, R a b →
      FlowRel R Ro (forLoop guard body1 fuel a) (forLoop guard body2 fuel b) := by
  intro fuel
  induction fuel with
  | zero =>
    intro a b hR
    have hgab := hg a b hR
    cases hga : guard a with
    | false =>
      rw [hga] at hgab
      simp only [forLoop, hga, ← hgab]
      exact hR
    | true =>
      rw [hga] at hgab
      simp only [forLoop, hga, ← hgab, if_true]
      exact hf
  | succ k ih =>
    intro a b hR
    have hgab := hg a b hR
    cases hga : guard a with
    | false =>
      rw [hga] at hgab
      simp only [forLoop, hga, ← hgab]
      exact hR
    | true =>
      rw [hga] at hgab
      have hbb := hb a b hR hga
      simp only [forLoop, hga, ← hgab, if_true]
      cases h1 : body1 a with
      | stop o =>
        cases h2 : body2 b with
        | stop p =>
          rw [h1, h2] at hbb
          exact hbb
        | next b1 =>
          rw [h1, h2] at hbb
          exact hbb.elim
      | next a1 =>
        cases h2 : body2 b with
        | stop p =>
          rw [h1, h2] at hbb
          exact hbb.elim
        | next b1 =>
          rw [h1, h2] at hbb
          exact ih a1 b1 hbb

/-- With a measure that every round decreases and fuel at least the measure,
a `stop` of the loop is the `stop` of one of its rounds. -/
theorem forLoop_stop_body (μ : σ → Nat) (hpos : ∀ st, guard st = true → 0 < μ st)
    (hdec : ∀ st st1, guard st = true → body1 st = .next st1 → μ st1 < μ st) :
    ∀ fuel st o, μ st ≤ fuel → forLoop guard body1 fuel st = .stop o →
      ∃ st1, guard st1 = true ∧ body1 st1 = .stop o := by
  intro fuel
  induction fuel with
  | zero =>
    intro st o hμ h
    cases hg : guard st with
    | false => simp [forLoop, hg] at h
    | true => have := hpos st hg; omega
  | succ k ih =>
    intro st o hμ h
    cases hg : guard st with
    | false => simp [forLoop, hg] at h
    | true =>
      simp only [forLoop, hg, if_true] at h
      cases hb : body1 st with
      | stop o1 =>
        rw [hb] at h
        cases h
        exact ⟨st, hg, hb⟩
      | next st1 =>
        rw [hb] at h
        have := hdec st st1 hg hb
        exact ih st1 o (by omega) h

end LoopRel

theorem assign_withNeg (d : Duration) (u : GoString) (v n : Int) :
    ({ d with neg := n } : Duration).assign u v = { d.assign u v with neg := n } := by
  unfold Duration.assign
  split_ifs <;> rfl

theorem assign_neg (d : Duration) (u : GoString) (v : Int) : (d.assign u v).neg = d.neg := by
  unfold Duration.assign
  split_ifs <;> rfl

theorem wrapInt_of_small (z : Int) (h1 : -2 ^ 63 ≤ z) (h2 : z < 2 ^ 63) : wrapInt z = z := by
  unfold wrapInt
  omega

theorem stripSign_unsigned (s : GoString) (hs : ∀ c ∈ s.head?, c ≠ 43 ∧ c ≠ 45) :
    stripSign s = (false, s) := by
  cases s with
  | nil => rfl
  | cons c rest =>
    have hc := hs c rfl
    simp only [stripSign]
    rw [if_neg (by omega)]

section DurationSign
variable (Quote : GoString → GoString)

theorem durationUnit_withNeg (o1 o2 : GoString) (st : DurState) (m n : Int) (v : Nat)
    (u rest : GoString) (hm : st.d.neg = m) :
    FlowRel (fun a b => a.d.neg = m ∧ b = a.withNeg n) (OutRel m n)
      (durationUnit Quote o1 st v u rest) (durationUnit Quote o2 (st.withNeg n) v u rest) := by
  unfold durationUnit
  simp only [DurState.withNeg]
  cases durationUnitMap u with
  | none => simp [FlowRel, OutRel, hm]
  | some unit =>
    simp only
    split_ifs <;>
      simp [FlowRel, OutRel, hm, DurState.withNeg, assign_withNeg, assign_neg,
        errInvalidDuration]

theorem durationBody_withNeg (o1 o2 : GoString) (st : DurState) (m n : Int)
    (hs : st.s ≠ []) (hm : st.d.neg = m) :
    FlowRel (fun a b => a.d.neg = m ∧ b = a.withNeg n) (OutRel m n)
      (durationBody Quote o1 st) (durationBody Quote o2 (st.withNeg n)) := by
  rw [durationBody_eq Quote o1 st hs,
    durationBody_eq Quote o2 (st.withNeg n) (show (st.withNeg n).s ≠ [] from hs)]
  simp only [show (st.withNeg n).s = st.s from rfl]
  split_ifs
  · simp [FlowRel, OutRel, hm, DurState.withNeg, errInvalidDuration]
  · simp [FlowRel, OutRel, hm, DurState.withNeg]
  · exact durationUnit_withNeg Quote o1 o2 st m n _ _ _ hm

/-- The loop of `ParseDuration` does not depend on the sign recorded in `d`,
nor, up to the text of the error, on the original input. -/
theorem durationRun_withNeg (o1 o2 : GoString) (st : DurState) (m n : Int)
    (hm : st.d.neg = m) :
    FlowRel (fun a b => a.d.neg = m ∧ b = a.withNeg n) (OutRel m n)
      (durationRun Quote o1 st) (durationRun Quote o2 (st.withNeg n)) := by
  unfold durationRun durationLoop
  exact forLoop_rel (fun st : DurState => decide (st.s ≠ [])) (durationBody Quote o1)
    (durationBody Quote o2) _ _
    (by
      rintro a b ⟨-, rfl⟩
      rfl)
    (by
      rintro a b ⟨ha, rfl⟩ hg
      exact durationBody_withNeg Quote o1 o2 a m n (by simpa using hg) ha)
    trivial st.s.length st (st.withNeg n) ⟨hm, rfl⟩

/-- A `stop` of the loop of `ParseDuration` returns a duration and an error. -/
theorem durationRun_stop_ret (orig : GoString) {st : DurState} {o : Outcome Duration}
    (h : durationRun Quote orig st = .stop o) : ∃ d e, o = .ret d (some e) := by
  obtain ⟨st1, hg, hb⟩ := forLoop_stop_body (fun st : DurState => decide (st.s ≠ []))
    (durationBody Quote orig) (fun st => st.s.length)
    (by
      intro st hg
      have : st.s ≠ [] := by simpa using hg
      exact List.length_pos.2 this)
    (by
      intro st st1 hg hb
      have : st.s ≠ [] := by simpa using hg
      exact durationBody_next_length Quote this hb)
    st.s.length st o (Nat.le_refl _) h
  exact durationBody_stop Quote (by simpa using hg) hb

end DurationSign

theorem withNeg_self (st : DurState) (n : Int) (h : st.d.neg = n) : st.withNeg n = st := by
  obtain ⟨s, ⟨neg, a, b, c⟩, dtmp, seen, maxRank⟩ := st
  simp only at h
  subst h
  rfl

section SignTheorems
variable (Quote : GoString → GoString)

/-- For a text without a sign that `ParseDuration` accepts with value `d`, the
sign of `d` is +1 and the text with a leading `-` is accepted with the value
`d` of sign -1. -/
theorem ParseDuration_minus (s : GoString) (d : Duration)
    (hs : ∀ c ∈ s.head?, c ≠ 43 ∧ c ≠ 45) (h : ParseDuration Quote s = .ret d none) :
    d.neg = 1 ∧ ParseDuration Quote (str "-" ++ s) = .ret { d with neg := -1 } none := by
  rw [ParseDuration_eq, stripSign_unsigned s hs] at h
  rw [ParseDuration_eq, show stripSign (str "-" ++ s) = (true, s) from rfl]
  unfold durationTail at h ⊢
  by_cases h1 : s = []
  · rw [if_pos h1] at h
    cases h
  · rw [if_neg h1] at h ⊢
    by_cases h2 : s = str "0"
    · rw [if_pos h2] at h ⊢
      cases h
      exact ⟨rfl, rfl⟩
    · rw [if_neg h2] at h ⊢
      have hrel := durationRun_withNeg Quote s (str "-" ++ s)
        (durInit s { neg := 1, hour := 0, minute := 0, second := 0 }) 1 (-1) rfl
      have e : (durInit s { neg := 1, hour := 0, minute := 0, second := 0 }).withNeg (-1) =
          durInit s { neg := -1, hour := 0, minute := 0, second := 0 } := rfl
      rw [e] at hrel
      simp only [Bool.false_eq_true, if_false, if_true] at h ⊢
      cases hrun1 : durationRun Quote s
          (durInit s { neg := 1, hour := 0, minute := 0, second := 0 }) with
      | stop o =>
        rw [hrun1] at h
        exact absurd h (durationRun_stop Quote s hrun1 d)
      | next a =>
        rw [hrun1] at h hrel
        cases hrun2 : durationRun Quote (str "-" ++ s)
            (durInit s { neg := -1, hour := 0, minute := 0, second := 0 }) with
        | stop p =>
          rw [hrun2] at hrel
          exact hrel.elim
        | next b =>
          rw [hrun2] at hrel
          obtain ⟨ha, hb⟩ := hrel
          simp only [Flow.finish] at h ⊢
          have hd : d = a.d := by
            split_ifs at h <;> cases h
            rfl
          subst hd
          subst hb
          exact ⟨ha, rfl⟩

/-- C17: negative durations: for every text `s` that does not begin with `+`
or `-`, when `ParseDuration(s)` succeeds with value `d`, `ParseDuration("-" + s)`
succeeds as well, with a value `d1` such that `d1.Hours() = -d.Hours()`,
`d1.Minutes() = -d.Minutes()` and `d1.Seconds() = -d.Seconds()`. -/
theorem ParseDuration_negative (s : GoString) (d : Duration)
    (hs : ∀ c ∈ s.head?, c ≠ 43 ∧ c ≠ 45) (h : ParseDuration Quote s = .ret d none) :
    ∃ d1, ParseDuration Quote (str "-" ++ s) = .ret d1 none ∧ d1.Hours = -d.Hours ∧
      d1.Minutes = -d.Minutes ∧ d1.Seconds = -d.Seconds := by
  obtain ⟨hn, hminus⟩ := ParseDuration_minus Quote s d hs h
  obtain ⟨-, b1, b2, b3, b4⟩ := ParseDuration_ok Quote h
  refine ⟨_, hminus, ?_, ?_, ?_⟩
  · simp only [Duration.Hours, hn]
    rw [wrapInt_of_small _ (by omega) (by omega), wrapInt_of_small _ (by omega) (by omega)]
    omega
  · simp only [Duration.Minutes, hn]
    rw [wrapInt_of_small _ (by omega) (by omega), wrapInt_of_small _ (by omega) (by omega)]
    omega
  · simp only [Duration.Seconds, hn]
    rw [wrapInt_of_small _ (by omega) (by omega), wrapInt_of_small _ (by omega) (by omega)]
    omega

/-- C18: a leading `+` has the effect of no sign: for every text `s` that does
not begin with `+` or `-`, `ParseDuration("+" + s)` and `ParseDuration(s)` return
the same duration, in all four fields, and one returns an error exactly when
the other does. -/
theorem ParseDuration_plus_sign (s : GoString) (hs : ∀ c ∈ s.head?, c ≠ 43 ∧ c ≠ 45) :
    ∃ d e1 e2, ParseDuration Quote (str "+" ++ s) = .ret d e1 ∧
      ParseDuration Quote s = .ret d e2 ∧ (e1 = none ↔ e2 = none) := by
  rw [ParseDuration_eq Quote s, stripSign_unsigned s hs,
    ParseDuration_eq Quote (str "+" ++ s), show stripSign (str "+" ++ s) = (false, s) from rfl]
  unfold durationTail
  by_cases h1 : s = []
  · rw [if_pos h1, if_pos h1]
    exact ⟨_, _, _, rfl, rfl, by simp⟩
  · rw [if_neg h1, if_neg h1]
    by_cases h2 : s = str "0"
    · rw [if_pos h2, if_pos h2]
      exact ⟨_, _, _, rfl, rfl, by simp⟩
    · rw [if_neg h2, if_neg h2]
      have hrel := durationRun_withNeg Quote s (str "+" ++ s)
        (durInit s { neg := 1, hour := 0, minute := 0, second := 0 }) 1 1 rfl
      have e : (durInit s { neg := 1, hour := 0, minute := 0, second := 0 }).withNeg 1 =
          durInit s { neg := 1, hour := 0, minute := 0, second := 0 } := rfl
      rw [e] at hrel
      simp only [Bool.false_eq_true, if_false]
      cases hrun1 : durationRun Quote s
          (durInit s { neg := 1, hour := 0, minute := 0, second := 0 }) with
      | stop o =>
        obtain ⟨d, e1, ho⟩ := durationRun_stop_ret Quote s hrun1
        rw [hrun1] at hrel
        cases hrun2 : durationRun Quote (str "+" ++ s)
            (durInit s { neg := 1, hour := 0, minute := 0, second := 0 }) with
        | next b =>
          rw [hrun2] at hrel
          exact hrel.elim
        | stop p =>
          rw [hrun2, ho] at hrel
          cases p with
          | ret d1 e2 =>
            obtain ⟨hn, hd1, he⟩ := hrel
            have : d1 = d := by
              rw [hd1]
              obtain ⟨n, a, b, c⟩ := d
              simp only at hn
              subst hn
              rfl
            subst this
            rw [ho]
            exact ⟨d1, e2, some e1, rfl, rfl, he.symm⟩
          | panic => exact hrel.elim
          | outOfFuel => exact hrel.elim
      | next a =>
        rw [hrun1] at hrel
        cases hrun2 : durationRun Quote (str "+" ++ s)
            (durInit s { neg := 1, hour := 0, minute := 0, second := 0 }) with
        | stop p =>
          rw [hrun2] at hrel
          exact hrel.elim
        | next b =>
          rw [hrun2] at hrel
          obtain ⟨ha, hb⟩ := hrel
          rw [withNeg_self a 1 ha] at hb
          subst hb
          simp only [Flow.finish]
          split_ifs
          · exact ⟨_, _, _, rfl, rfl, by simp⟩
          · exact ⟨_, _, _, rfl, rfl, by simp⟩

end SignTheorems

/-- C17, witness: "1h2m3s" and "-1h2m3s"; the latter has `Hours() = -1`,
`Minutes() = -2`, `Seconds() = -3` and is `NewDuration(-1, 2, 3)`. -/
theorem ParseDuration_negative_witness :
    (∃ d1, ParseDuration quoteAscii (str "-" ++ str "1h2m3s") = .ret d1 none ∧
      d1.Hours = -(NewDuration 1 2 3).Hours ∧ d1.Minutes = -(NewDuration 1 2 3).Minutes ∧
      d1.Seconds = -(NewDuration 1 2 3).Seconds) ∧
    ParseDuration quoteAscii (str "-1h2m3s") = .ret (NewDuration (-1) 2 3) none ∧
    (NewDuration (-1) 2 3).Hours = -1 ∧ (NewDuration (-1) 2 3).Minutes = -2 ∧
    (NewDuration (-1) 2 3).Seconds = -3 :=
  ⟨ParseDuration_negative quoteAscii (str "1h2m3s") (NewDuration 1 2 3) (by decide) (by decide),
    by decide, by decide, by decide, by decide⟩

/-- C18, witness: "+1h2m3s" and "1h2m3s" give `NewDuration(1, 2, 3)`; "+1h1h" and
"1h1h" give the same duration with an error. -/
theorem ParseDuration_plus_sign_witness :
    (∃ d e1 e2, ParseDuration quoteAscii (str "+" ++ str "1h2m3s") = .ret d e1 ∧
      ParseDuration quoteAscii (str "1h2m3s") = .ret d e2 ∧ (e1 = none ↔ e2 = none)) ∧
    ParseDuration quoteAscii (str "+1h2m3s") = .ret (NewDuration 1 2 3) none ∧
    ParseDuration quoteAscii (str "+1h1h") =
      .ret (NewDuration 1 0 0) (some (str "timeapi: unit \"h\" repeated in duration \"+1h1h\"")) ∧
    ParseDuration quoteAscii (str "1h1h") =
      .ret (NewDuration 1 0 0) (some (str "timeapi: unit \"h\" repeated in duration \"1h1h\"")) :=
  ⟨ParseDuration_plus_sign quoteAscii (str "1h2m3s") (by decide), by decide, by decide,
    by decide⟩

/-! ## ParseDuration: the duration returned with an error -/

theorem field_assign_self (d : Duration) (u : GoString) (x : Int) (hu : IsDurationUnit u) :
    (d.assign u x).field u = x := by
  rcases hu with rfl | rfl | rfl <;> rfl

theorem field_assign_ne (d : Duration) (u u0 : GoString) (x : Int) (hne : u ≠ u0) :
    (d.assign u x).field u0 = d.field u0 := by
  unfold Duration.assign Duration.field
  split_ifs <;> simp_all

theorem isDurationUnit_of_map {u : GoString} {unit : Nat} (h : durationUnitMap u = some unit) :
    IsDurationUnit u := by
  rcases durationUnitMap_some h with h | h | h
  · exact Or.inl h.1
  · exact Or.inr (Or.inl h.1)
  · exact Or.inr (Or.inr h.1)

section ErrorValue
variable (Quote : GoString → GoString)

/-- The duration that the second half of a round returns with an error: the
one of the state, or, for a unit that was not seen before, the one of the state
with the field of this unit assigned. -/
theorem durationUnit_stop_value {orig : GoString} {st : DurState} {v : Nat} {u rest : GoString}
    {d : Duration} {e : Option Error}
    (h : durationUnit Quote orig st v u rest = .stop (.ret d e)) :
    d = st.d ∨ ((st.seen u).getD false = false ∧ d = st.d.assign u (toInt v)) := by
  unfold durationUnit at h
  cases hu : durationUnitMap u with
  | none =>
    rw [hu] at h
    cases h
    exact Or.inl rfl
  | some unit =>
    rw [hu] at h
    simp only at h
    split_ifs at h with h1 h2 h3 h4
    · cases h; exact Or.inl rfl
    · cases h; exact Or.inl rfl
    · cases h; exact Or.inl rfl
    · cases h; exact Or.inr ⟨by simpa using h1, rfl⟩

/-- The first round of `ParseDuration` on a text whose first pair it does not
accept returns the initial duration with an error. -/
theorem durationBody_first_rejected (orig t : GoString) (d0 : Duration) (ht : t ≠ [])
    (hrej : ¬ FirstAccepted t) :
    ∃ e, durationBody Quote orig (durInit t d0) = .stop (.ret d0 (some e)) := by
  rw [durationBody_eq Quote orig _ (show (durInit t d0).s ≠ [] from ht)]
  simp only [durInit]
  by_cases h1 : digitPart t = [] ∨ 2 ^ 63 < digitsVal (digitPart t)
  · rw [if_pos h1]
    exact ⟨_, rfl⟩
  · rw [if_neg h1]
    by_cases h2 : unitPart t = []
    · rw [if_pos h2]
      exact ⟨_, rfl⟩
    · rw [if_neg h2]
      rw [not_or] at h1
      unfold durationUnit
      cases hu : durationUnitMap (unitPart t) with
      | none => exact ⟨_, rfl⟩
      | some unit =>
        have hv : digitsVal (digitPart t) > 2 ^ 63 / unit := by
          by_contra hle
          exact hrej ⟨h1.1, unit, hu, not_lt.1 hle⟩
        have hseen : (durationSeen (unitPart t)).getD false = false := by
          unfold durationSeen
          split_ifs <;> rfl
        have hrank : ¬ ((durationUnitRank (unitPart t)).getD 0 < -1) := by
          rcases durationUnitMap_some hu with h | h | h <;> rw [h.1] <;> decide
        simp only [hseen]
        rw [if_neg (by simp), if_neg hrank, if_pos hv]
        exact ⟨_, rfl⟩

/-- Rule for a `stop` of the loop of `ParseDuration` under an invariant. -/
theorem durationRun_stop_inv (orig : GoString) (P : DurState → Prop)
    (R : Outcome Duration → Prop)
    (hstep : ∀ st st1, P st → st.s ≠ [] → durationBody Quote orig st = .next st1 → P st1)
    (hstop : ∀ st o, P st → st.s ≠ [] → durationBody Quote orig st = .stop o → R o)
    (hfuel : R .outOfFuel)
    {st : DurState} {o : Outcome Duration} (hP : P st)
    (h : durationRun Quote orig st = .stop o) : R o :=
  forLoop_stop_inv (fun st : DurState => decide (st.s ≠ [])) (durationBody Quote orig) P R
    (fun st st1 hp hg hb => hstep st st1 hp (by simpa using hg) hb)
    (fun st o hp hg hb => hstop st o hp (by simpa using hg) hb)
    hfuel st.s.length st o hP h

theorem fieldInv_step {orig : GoString} {u0 : GoString} {v0 : Int} {st st1 : DurState}
    (hP : st.seen u0 = some true ∧ st.d.field u0 = v0) (hs : st.s ≠ [])
    (hb : durationBody Quote orig st = .next st1) :
    st1.seen u0 = some true ∧ st1.d.field u0 = v0 := by
  rw [durationBody_eq Quote orig st hs] at hb
  split_ifs at hb with h1 h2
  obtain ⟨unit, -, hseen, -, -, -, hst⟩ := durationUnit_next Quote hb
  have hne : unitPart st.s ≠ u0 := by
    intro he
    rw [he, hP.1] at hseen
    simp at hseen
  subst hst
  refine ⟨?_, ?_⟩
  · show (if u0 = unitPart st.s then some true else st.seen u0) = some true
    rw [if_neg (fun h => hne h.symm)]
    exact hP.1
  · show (st.d.assign (unitPart st.s) _).field u0 = v0
    rw [field_assign_ne _ _ _ _ hne]
    exact hP.2

theorem fieldInv_stop {orig : GoString} {u0 : GoString} {v0 : Int} {st : DurState}
    {o : Outcome Duration}
    (hP : st.seen u0 = some true ∧ st.d.field u0 = v0) (hs : st.s ≠ [])
    (hb : durationBody Quote orig st = .stop o) :
    ∀ d e, o = .ret d e → d.field u0 = v0 := by
  intro d e ho
  subst ho
  rw [durationBody_eq Quote orig st hs] at hb
  split_ifs at hb with h1 h2
  · cases hb; exact hP.2
  · cases hb; exact hP.2
  · rcases durationUnit_stop_value Quote hb with hd | ⟨hseen, hd⟩
    · rw [hd]; exact hP.2
    · have hne : unitPart st.s ≠ u0 := by
        intro he
        rw [he, hP.1] at hseen
        simp at hseen
      rw [hd, field_assign_ne _ _ _ _ hne]
      exact hP.2

/-- C16 (as amended): the duration returned with an error holds the fields
recorded before the error: for every text `s` on which `ParseDuration` returns
a non-nil error with the duration `d`, and `t` the text after the sign, when
`t` does not start with a pair that the first round accepts, `d` has hour,
minute and second 0; when `t` starts with such a pair, of value `v` and unit
`u`, the field of `u` in `d` is `v`. -/
theorem ParseDuration_error_value (s : GoString) (d : Duration) (e : Error)
    (h : ParseDuration Quote s = .ret d (some e)) :
    (¬ FirstAccepted (dropSign s) → d.hour = 0 ∧ d.minute = 0 ∧ d.second = 0) ∧
    (FirstAccepted (dropSign s) →
      d.field (unitPart (dropSign s)) = (digitsVal (digitPart (dropSign s)) : Int)) := by
  rw [ParseDuration_eq, stripSign_snd] at h
  generalize (stripSign s).1 = neg at h
  generalize dropSign s = t at h
  unfold durationTail at h
  constructor
  · intro hrej
    by_cases h1 : t = []
    · rw [if_pos h1] at h
      cases h
      exact ⟨rfl, rfl, rfl⟩
    · rw [if_neg h1] at h
      by_cases h2 : t = str "0"
      · rw [if_pos h2] at h
        cases h
      · rw [if_neg h2] at h
        obtain ⟨e1, he1⟩ := durationBody_first_rejected Quote s t
          { neg := if neg then -1 else 1, hour := 0, minute := 0, second := 0 } h1 hrej
        rw [durationRun_step Quote s _ (show (durInit t _).s ≠ [] from h1), he1] at h
        simp only [Flow.andThen, Flow.finish] at h
        cases h
        exact ⟨rfl, rfl, rfl⟩
  · rintro ⟨hd, unit, hu, hv⟩
    have hunit := isDurationUnit_of_map hu
    have hshape := durationUnit_shape hu
    have h1 : t ≠ [] := by
      intro ht
      rw [ht] at hd
      exact hd rfl
    have h2 : t ≠ str "0" := by
      intro ht
      rw [ht] at hshape
      exact hshape.1 rfl
    rw [if_neg h1, if_neg h2] at h
    have hvu : digitsVal (digitPart t) * unit ≤ 2 ^ 63 :=
      Nat.le_trans (Nat.mul_le_mul_right unit hv) (Nat.div_mul_le_self _ _)
    have hv63 : digitsVal (digitPart t) ≤ 2 ^ 63 := Nat.le_trans hv (Nat.div_le_self _ _)
    have hbody : durationBody Quote s
        (durInit t { neg := if neg then -1 else 1, hour := 0, minute := 0, second := 0 }) =
        .next (durAccept
          (durInit t { neg := if neg then -1 else 1, hour := 0, minute := 0, second := 0 })
          (digitsVal (digitPart t)) (unitPart t) unit (restPart t)) := by
      rw [durationBody_eq Quote s _ (show (durInit t _).s ≠ [] from h1)]
      simp only [durInit]
      rw [if_neg (by
          rw [not_or, not_lt]
          exact ⟨hd, hv63⟩),
        if_neg hshape.1]
      exact durationUnit_accept Quote s _ _ _ _ unit hu
        (by
          show (durationSeen (unitPart t)).getD false = false
          unfold durationSeen
          split_ifs <;> rfl)
        (by
          show (-1 : Int) ≤ (durationUnitRank (unitPart t)).getD 0
          rcases hunit with h | h | h <;> rw [h] <;> decide)
        hv (by
          show 0 + digitsVal (digitPart t) * unit ≤ 2 ^ 63
          omega)
    rw [durationRun_step Quote s _ (show (durInit t _).s ≠ [] from h1), hbody] at h
    simp only [Flow.andThen] at h
    have hP : (durAccept
        (durInit t { neg := if neg then -1 else 1, hour := 0, minute := 0, second := 0 })
        (digitsVal (digitPart t)) (unitPart t) unit (restPart t)).seen (unitPart t) = some true ∧
        (durAccept
          (durInit t { neg := if neg then -1 else 1, hour := 0, minute := 0, second := 0 })
          (digitsVal (digitPart t)) (unitPart t) unit (restPart t)).d.field (unitPart t) =
          (digitsVal (digitPart t) : Int) := by
      refine ⟨by simp [durAccept], ?_⟩
      simp only [durAccept]
      rw [field_assign_self _ _ _ hunit]
      exact toInt_of_lt (by norm_num at hv63 hvu ⊢; rcases durationUnitMap_some hu with
        ⟨-, rfl⟩ | ⟨-, rfl⟩ | ⟨-, rfl⟩ <;> omega)
    cases hrun : durationRun Quote s (durAccept
        (durInit t { neg := if neg then -1 else 1, hour := 0, minute := 0, second := 0 })
        (digitsVal (digitPart t)) (unitPart t) unit (restPart t)) with
    | stop o =>
      rw [hrun] at h
      simp only [Flow.finish] at h
      exact durationRun_stop_inv Quote s _ _
        (fun st st1 hp hs hb => fieldInv_step Quote hp hs hb)
        (fun st o hp hs hb => fieldInv_stop Quote hp hs hb)
        (by intro d e hde; cases hde) hP hrun d (some e) h
    | next stf =>
      rw [hrun] at h
      simp only [Flow.finish] at h
      have hPf := (durationRun_next_inv Quote s _
        (fun st st1 hp hs hb => fieldInv_step Quote hp hs hb) hP hrun).1
      have hdf : d = stf.d := by
        split_ifs at h <;> cases h
        rfl
      rw [hdf]
      exact hPf.2

end ErrorValue

/-- C16, witness: "1h1h" is rejected and the duration returned has hour 1;
"h" is rejected in the first round and the duration returned has all fields 0. -/
theorem ParseDuration_error_value_witness :
    ((¬ FirstAccepted (dropSign (str "1h1h")) →
        (NewDuration 1 0 0).hour = 0 ∧ (NewDuration 1 0 0).minute = 0 ∧
          (NewDuration 1 0 0).second = 0) ∧
      (FirstAccepted (dropSign (str "1h1h")) →
        (NewDuration 1 0 0).field (unitPart (dropSign (str "1h1h"))) =
          (digitsVal (digitPart (dropSign (str "1h1h"))) : Int))) ∧
    FirstAccepted (dropSign (str "1h1h")) ∧
    ParseDuration quoteAscii (str "h") =
      .ret (NewDuration 0 0 0) (some (str "timeapi: invalid duration \"h\"")) :=
  ⟨ParseDuration_error_value quoteAscii (str "1h1h") (NewDuration 1 0 0)
      (str "timeapi: unit \"h\" repeated in duration \"1h1h\"") (by decide),
    ⟨by decide, 3600000000000, by decide, by decide⟩, by decide⟩

/-- C16, counterexample: `ParseDuration("1h1h")` returns an error together with
a duration whose hour is 1, and `ParseDuration("1h9999999999m")` likewise. -/
theorem ParseDuration_error_value_counterexample :
    ParseDuration quoteAscii (str "1h1h") =
      .ret { neg := 1, hour := 1, minute := 0, second := 0 }
        (some (str "timeapi: unit \"h\" repeated in duration \"1h1h\"")) ∧
    ParseDuration quoteAscii (str "1h9999999999m") =
      .ret { neg := 1, hour := 1, minute := 0, second := 0 }
        (some (str "timeapi: invalid duration \"1h9999999999m\"")) := by
  decide

/-! ## NewDuration and its accessors -/

/-- C21: for all `int` values `h`, `m`, `s` other than the minimum `int`,
`NewDuration(h, m, s).Hours()` is `g * |h|`, `.Minutes()` is `g * |m|` and
`.Seconds()` is `g * |s|`, where `g` is `-1` if at least one of `h`, `m`, `s` is
negative and `+1` otherwise; when `h`, `m`, `s` are all non-negative the
accessors return `h`, `m`, `s` themselves, whatever their size. -/
theorem NewDuration_accessors (h m s : Int)
    (hh : -2 ^ 63 < h ∧ h < 2 ^ 63) (hm : -2 ^ 63 < m ∧ m < 2 ^ 63)
    (hs : -2 ^ 63 < s ∧ s < 2 ^ 63) :
    (NewDuration h m s).Hours = (if h < 0 ∨ m < 0 ∨ s < 0 then -1 else 1) * (h.natAbs : Int) ∧
    (NewDuration h m s).Minutes = (if h < 0 ∨ m < 0 ∨ s < 0 then -1 else 1) * (m.natAbs : Int) ∧
    (NewDuration h m s).Seconds = (if h < 0 ∨ m < 0 ∨ s < 0 then -1 else 1) * (s.natAbs : Int) ∧
    (0 ≤ h ∧ 0 ≤ m ∧ 0 ≤ s → (NewDuration h m s).Hours = h ∧
      (NewDuration h m s).Minutes = m ∧ (NewDuration h m s).Seconds = s) := by
  have key : ∀ (g x : Int), (g = 1 ∨ g = -1) → -2 ^ 63 < x → x < 2 ^ 63 →
      wrapInt (g * abs x) = g * (x.natAbs : Int) := by
    intro g x hg h1 h2
    unfold abs wrapInt
    rcases hg with rfl | rfl <;> split_ifs <;> omega
  have hg : ((if h < 0 ∨ m < 0 ∨ s < 0 then (-1 : Int) else 1) = 1 ∨
      (if h < 0 ∨ m < 0 ∨ s < 0 then (-1 : Int) else 1) = -1) := by
    split_ifs
    · exact Or.inr rfl
    · exact Or.inl rfl
  have e1 : (NewDuration h m s).Hours =
      (if h < 0 ∨ m < 0 ∨ s < 0 then -1 else 1) * (h.natAbs : Int) := key _ h hg hh.1 hh.2
  have e2 : (NewDuration h m s).Minutes =
      (if h < 0 ∨ m < 0 ∨ s < 0 then -1 else 1) * (m.natAbs : Int) := key _ m hg hm.1 hm.2
  have e3 : (NewDuration h m s).Seconds =
      (if h < 0 ∨ m < 0 ∨ s < 0 then -1 else 1) * (s.natAbs : Int) := key _ s hg hs.1 hs.2
  refine ⟨e1, e2, e3, ?_⟩
  rintro ⟨p1, p2, p3⟩
  have hn : ¬ (h < 0 ∨ m < 0 ∨ s < 0) := by omega
  rw [if_neg hn] at e1 e2 e3
  refine ⟨e1.trans ?_, e2.trans ?_, e3.trans ?_⟩ <;> omega

/-- C21, witness: `NewDuration(2, 70, 59)` has hours 2 and minutes 70,
`NewDuration(1, 2, 61)` has seconds 61, and `NewDuration(-1, 2, 3)` has minutes -2. -/
theorem NewDuration_accessors_witness :
    (NewDuration 2 70 59).Hours = 2 ∧ (NewDuration 2 70 59).Minutes = 70 ∧
      (NewDuration 1 2 61).Seconds = 61 ∧ (NewDuration (-1) 2 3).Minutes = -2 :=
  ⟨((NewDuration_accessors 2 70 59 (by decide) (by decide) (by decide)).2.2.2
      (by decide)).1,
    ((NewDuration_accessors 2 70 59 (by decide) (by decide) (by decide)).2.2.2
      (by decide)).2.1,
    ((NewDuration_accessors 1 2 61 (by decide) (by decide) (by decide)).2.2.2
      (by decide)).2.2,
    (NewDuration_accessors (-1) 2 3 (by decide) (by decide) (by decide)).2.1⟩

/-! ## Canonical text of a duration -/

theorem formatBits_head : ∀ fuel n, n < fuel → 0 < n →
    ∀ c ∈ (formatBits fuel n).head?, c ≠ 48 := by
  intro fuel
  induction fuel with
  | zero => intro n h; omega
  | succ k ih =>
    intro n hn hpos c hc
    unfold formatBits at hc
    split_ifs at hc with h
    · simp at hc
      omega
    · have hne : formatBits k (n / 10) ≠ [] := (formatBits_spec k (n / 10) (by omega)).1.1
      rw [List.head?_append_of_ne_nil _ hne] at hc
      exact ih (n / 10) (by omega) (by omega) c hc

/-- C22: for every duration `d` with non-negative fields, in particular with
`neg` in `{+1, -1}`: `d.String()` is `"0h0m0s"` if the three fields are 0; otherwise it is
`"-"` if `neg = -1` (else nothing), then `Itoa(hour) + "h"` if `hour != 0`, then
`Itoa(minute) + "m"` if `minute != 0`, then `Itoa(second) + "s"` if
`second != 0`, in this order; and `Itoa` of a non-negative field is its decimal
text: a non-empty run of digits of that value, without a leading zero for a
field other than 0. -/
theorem Duration_String_canonical (d : Duration)
    (hh : 0 ≤ d.hour) (hm : 0 ≤ d.minute) (hs : 0 ≤ d.second) :
    d.String =
      (if d.hour = 0 ∧ d.minute = 0 ∧ d.second = 0 then str "0h0m0s"
      else (if d.neg = -1 then str "-" else []) ++
        ((if d.hour ≠ 0 then Itoa d.hour ++ str "h" else []) ++
          ((if d.minute ≠ 0 then Itoa d.minute ++ str "m" else []) ++
            (if d.second ≠ 0 then Itoa d.second ++ str "s" else [])))) ∧
    (∀ n ∈ [d.hour, d.minute, d.second],
      IsDigitRun (Itoa n) ∧ (digitsVal (Itoa n) : Int) = n ∧
        (n ≠ 0 → ∀ c ∈ (Itoa n).head?, c ≠ 48)) := by
  constructor
  · unfold Duration.String
    by_cases h0 : d.hour = 0 ∧ d.minute = 0 ∧ d.second = 0
    · rw [if_pos h0, if_pos h0]
    · rw [if_neg h0, if_neg h0]
      simp only [List.nil_append]
      split_ifs <;> simp
  · have key : ∀ n : Int, 0 ≤ n → IsDigitRun (Itoa n) ∧ (digitsVal (Itoa n) : Int) = n ∧
        (n ≠ 0 → ∀ c ∈ (Itoa n).head?, c ≠ 48) := by
      intro n hn
      obtain ⟨k, rfl⟩ := Int.eq_ofNat_of_zero_le hn
      refine ⟨(Itoa_run k).1, by rw [(Itoa_run k).2], ?_⟩
      intro hk
      rw [Itoa_nat]
      exact formatBits_head (k + 1) k (by omega) (by omega)
    intro n hmem
    simp only [List.mem_cons, List.mem_singleton, List.not_mem_nil, or_false] at hmem
    rcases hmem with rfl | rfl | rfl
    · exact key _ hh
    · exact key _ hm
    · exact key _ hs

/-- C22, witness: the texts of `NewDuration(0, 0, 0)`, `NewDuration(0, 1, 0)` and
`NewDuration(-1, 2, 3)`. -/
theorem Duration_String_canonical_witness :
    (NewDuration 0 0 0).String = str "0h0m0s" ∧ (NewDuration 0 1 0).String = str "1m" ∧
      (NewDuration (-1) 2 3).String = str "-1h2m3s" :=
  ⟨(Duration_String_canonical (NewDuration 0 0 0) (by decide) (by decide)
      (by decide)).1.trans (by decide),
    (Duration_String_canonical (NewDuration 0 1 0) (by decide) (by decide)
      (by decide)).1.trans (by decide),
    (Duration_String_canonical (NewDuration (-1) 2 3) (by decide) (by decide)
      (by decide)).1.trans (by decide)⟩

/-! ## Comparison of times -/

theorem Time_Before_iff (t u : Time) :
    t.Before u = true ↔
      t.hour < u.hour ∨ (t.hour = u.hour ∧ (t.min < u.min ∨ (t.min = u.min ∧ t.sec < u.sec))) := by
  simp [Time.Before]

theorem Time_After_iff (t u : Time) :
    t.After u = true ↔
      u.hour < t.hour ∨ (t.hour = u.hour ∧ (u.min < t.min ∨ (t.min = u.min ∧ u.sec < t.sec))) := by
  simp [Time.After]

theorem Time_Equal_iff (t u : Time) :
    t.Equal u = true ↔ t.hour = u.hour ∧ t.min = u.min ∧ t.sec = u.sec := by
  simp [Time.Equal, and_assoc]

/-- C30: for all times `t`, `u`, `w` (any integer `hour`, `min`, `sec`): exactly
one of `t.Before(u)`, `t.Equal(u)`, `t.After(u)` is true; `t.After(u)` is
`u.Before(t)`; `t.Equal(u)` holds exactly when `t` and `u` are the same value;
`t.Before(u)` is the lexicographic order on `(hour, min, sec)`; `Before` is
irreflexive and transitive. -/
theorem Time_strict_total_order (t u w : Time) :
    ((t.Before u = true ∧ t.Equal u = false ∧ t.After u = false) ∨
      (t.Before u = false ∧ t.Equal u = true ∧ t.After u = false) ∨
      (t.Before u = false ∧ t.Equal u = false ∧ t.After u = true)) ∧
    t.After u = u.Before t ∧
    (t.Equal u = true ↔ t = u) ∧
    (t.Before u = true ↔
      toLex (t.hour, toLex (t.min, t.sec)) < toLex (u.hour, toLex (u.min, u.sec))) ∧
    t.Before t = false ∧
    (t.Before u = true → u.Before w = true → t.Before w = true) := by
  have hb := Time_Before_iff t u
  have ha := Time_After_iff t u
  have he := Time_Equal_iff t u
  refine ⟨?_, ?_, ?_, ?_, ?_, ?_⟩
  · cases h1 : t.Before u <;> cases h2 : t.Equal u <;> cases h3 : t.After u <;>
      simp only [h1, h2, h3, Bool.false_eq_true, false_iff, true_iff] at hb ha he <;>
      first
        | omega
        | simp
  · rw [Bool.eq_iff_iff, ha, Time_Before_iff]
    constructor <;> intro h <;> omega
  · rw [he]
    constructor
    · rintro ⟨h1, h2, h3⟩
      cases t
      cases u
      simp only at h1 h2 h3
      simp [h1, h2, h3]
    · rintro rfl
      exact ⟨rfl, rfl, rfl⟩
  · rw [hb, Prod.Lex.lt_iff, Prod.Lex.lt_iff]
  · rw [Bool.eq_false_iff]
    intro h
    rw [Time_Before_iff] at h
    omega
  · intro h1 h2
    rw [Time_Before_iff] at h1 h2 ⊢
    omega

/-- C30, witness: 01:02:03 is before 01:02:04, which is before 02:00:00, so
01:02:03 is before 02:00:00. -/
theorem Time_strict_total_order_witness :
    Time.Before ⟨1, 2, 3⟩ ⟨2, 0, 0⟩ = true :=
  (Time_strict_total_order ⟨1, 2, 3⟩ ⟨1, 2, 4⟩ ⟨2, 0, 0⟩).2.2.2.2.2 (by decide) (by decide)

/-! ## The lexer on a digit run and what follows it -/

theorem leadingInt_run (p r : GoString) (hp : ∀ c ∈ p, isDigit c = true)
    (hr : ∀ c ∈ r.head?, isDigit c = false) :
    leadingInt (p ++ r) =
      if digitsVal p ≤ 2 ^ 63 then (digitsVal p, r, none)
      else (0, [], some (str "timeapi: bad [0-9]*")) := by
  rw [leadingInt_eq, (takeWhile_run p r hp hr).1, (takeWhile_run p r hp hr).2]

/-- C25: let `p` be the maximal prefix of `s` made of ASCII decimal digits, `r`
the rest of `s` after it, and `N` the natural number `p` denotes (0 when `p` is
empty, leading zeros allowed).  `leadingInt(s)` returns `(N, r, nil)` exactly
when `N <= 2^63`, and a non-nil error exactly when `N > 2^63`; the value
returned with the nil error is `N` itself, not `N` reduced modulo `2^64`. -/
theorem leadingInt_lexer (p r : GoString) (hp : ∀ c ∈ p, isDigit c = true)
    (hr : ∀ c ∈ r.head?, isDigit c = false) :
    (leadingInt (p ++ r) = (digitsVal p, r, none) ↔ digitsVal p ≤ 2 ^ 63) ∧
    ((leadingInt (p ++ r)).2.2 ≠ none ↔ 2 ^ 63 < digitsVal p) ∧
    ((leadingInt (p ++ r)).2.2 = none → (leadingInt (p ++ r)).1 = digitsVal p ∧
      (leadingInt (p ++ r)).2.1 = r) := by
  rw [leadingInt_run p r hp hr]
  by_cases h : digitsVal p ≤ 2 ^ 63
  · rw [if_pos h]
    refine ⟨⟨fun _ => h, fun _ => rfl⟩, ⟨fun h1 => absurd rfl h1, fun h1 => ?_⟩, fun _ => ⟨rfl, rfl⟩⟩
    omega
  · rw [if_neg h]
    refine ⟨⟨fun h1 => ?_, fun h1 => absurd h1 h⟩, ⟨fun _ => by omega, fun _ => ?_⟩, fun h1 => ?_⟩
    · cases (congrArg (fun x => x.2.2) h1)
    · simp
    · cases h1

/-- C25, witness: leading zeros do not change the value, and `2^63` is returned
with the rest of the text. -/
theorem leadingInt_lexer_witness :
    leadingInt (str "0009223372036854775808mo1d") = (2 ^ 63, str "mo1d", none) :=
  (leadingInt_lexer (str "0009223372036854775808") (str "mo1d") (by decide) (by decide)).1.2
    (by decide)

/-- Counterexample to C26 as stated: the digit run of value exactly `2^63` is
returned with the nil error. -/
theorem leadingInt_ceiling_counterexample :
    leadingInt (str "9223372036854775808") = (2 ^ 63, [], none) := by
  decide

/-- C26 (amended): `leadingInt` returns a digit run whose value is exactly
`2^63` with the nil error, and rejects every digit run whose value exceeds
`2^63`; the magnitude it returns never exceeds `2^63`, and `2^63` itself is
returned, so the largest magnitude the lexer can return is `2^63`. -/
theorem leadingInt_ceiling (p r : GoString) (hp : ∀ c ∈ p, isDigit c = true)
    (hr : ∀ c ∈ r.head?, isDigit c = false) :
    (digitsVal p = 2 ^ 63 → leadingInt (p ++ r) = (2 ^ 63, r, none)) ∧
    (2 ^ 63 < digitsVal p →
      leadingInt (p ++ r) = (0, [], some (str "timeapi: bad [0-9]*"))) ∧
    (leadingInt (p ++ r)).1 ≤ 2 ^ 63 := by
  rw [leadingInt_run p r hp hr]
  by_cases h : digitsVal p ≤ 2 ^ 63
  · rw [if_pos h]
    refine ⟨fun h1 => by rw [h1], fun h1 => ?_, h⟩
    omega
  · rw [if_neg h]
    refine ⟨fun h1 => ?_, fun _ => rfl, Nat.zero_le _⟩
    omega

/-- C26, witness: the digit run of value `2^63` is returned, the one of value
`2^63 + 1` is rejected. -/
theorem leadingInt_ceiling_witness :
    leadingInt (str "9223372036854775808h") = (2 ^ 63, str "h", none) ∧
      leadingInt (str "9223372036854775809h") = (0, [], some (str "timeapi: bad [0-9]*")) :=
  ⟨(leadingInt_ceiling (str "9223372036854775808") (str "h") (by decide) (by decide)).1
      (by decide),
    (leadingInt_ceiling (str "9223372036854775809") (str "h") (by decide) (by decide)).2.1
      (by decide)⟩

/-! ## The parsers return -/

section Totality
variable (Quote : GoString → GoString)

/-- A `stop` of the loop of `ParseInterval` returns an interval and an error. -/
theorem intervalRun_stop_ret (orig : GoString) {st : IvlState} {o : Outcome Interval}
    (h : intervalRun Quote orig st = .stop o) : ∃ d e, o = .ret d (some e) := by
  obtain ⟨st1, hg, hb⟩ := forLoop_stop_body (fun st : IvlState => decide (st.s ≠ []))
    (intervalBody Quote orig) (fun st => st.s.length)
    (by
      intro st hg
      have : st.s ≠ [] := by simpa using hg
      exact List.length_pos.2 this)
    (by
      intro st st1 hg hb
      have : st.s ≠ [] := by simpa using hg
      exact intervalBody_next_length Quote this hb)
    st.s.length st o (Nat.le_refl _) h
  exact intervalBody_stop Quote (by simpa using hg) hb

theorem ParseDuration_total (s : GoString) : ∃ d e, ParseDuration Quote s = .ret d e := by
  rw [ParseDuration_eq]
  unfold durationTail
  by_cases h1 : (stripSign s).2 = []
  · rw [if_pos h1]
    exact ⟨_, _, rfl⟩
  · rw [if_neg h1]
    by_cases h2 : (stripSign s).2 = str "0"
    · rw [if_pos h2]
      exact ⟨_, _, rfl⟩
    · rw [if_neg h2]
      cases hrun : durationRun Quote s (durInit (stripSign s).2
          { neg := if (stripSign s).1 = true then -1 else 1, hour := 0, minute := 0,
            second := 0 }) with
      | stop o =>
        obtain ⟨d, e, rfl⟩ := durationRun_stop_ret Quote s hrun
        exact ⟨d, some e, rfl⟩
      | next st =>
        simp only [Flow.finish]
        split_ifs
        · exact ⟨_, _, rfl⟩
        · exact ⟨_, _, rfl⟩
        · exact ⟨_, _, rfl⟩

theorem ParseInterval_total (s : GoString) : ∃ i e, ParseInterval Quote s = .ret i e := by
  rw [ParseInterval_eq]
  by_cases h1 : s = str "0"
  · rw [if_pos h1]
    exact ⟨_, _, rfl⟩
  · rw [if_neg h1]
    by_cases h2 : s = []
    · rw [if_pos h2]
      exact ⟨_, _, rfl⟩
    · rw [if_neg h2]
      cases hrun : intervalRun Quote s (ivlInit s) with
      | stop o =>
        obtain ⟨d, e, rfl⟩ := intervalRun_stop_ret Quote s hrun
        exact ⟨d, some e, rfl⟩
      | next st => exact ⟨_, _, rfl⟩

theorem unitEnd_le (s : GoString) : unitEnd s ≤ s.length := by
  induction s with
  | nil => exact Nat.le_refl _
  | cons c rest ih =>
    unfold unitEnd
    split_ifs
    · exact Nat.zero_le _
    · simpa using ih

theorem leadingInt_suffix (s : GoString) : (leadingInt s).2.1 <:+ s := by
  rw [leadingInt_eq]
  split_ifs
  · exact List.dropWhile_suffix _
  · exact List.nil_suffix

/-- C24: for every input `s` (any bytes, any length, the empty string
included), `ParseDuration(s)` and `ParseInterval(s)` each return a value with
an error or nil: the outcome is neither the out-of-range panic of the index
`s[0]` nor an exhausted loop.  The index `i` at which the unit scan cuts
`s[:i]` and `s[i:]` is at most `len(s)`, and the rest that `leadingInt` returns
is a suffix `s[i:]` of its argument. -/
theorem Parse_never_panics (s : GoString) :
    (∃ d e, ParseDuration Quote s = .ret d e) ∧
    (∃ i e, ParseInterval Quote s = .ret i e) ∧
    ParseDuration Quote s ≠ .panic ∧ ParseInterval Quote s ≠ .panic ∧
    unitEnd s ≤ s.length ∧ (leadingInt s).2.1 <:+ s := by
  refine ⟨ParseDuration_total Quote s, ParseInterval_total Quote s, ?_, ?_, unitEnd_le s,
    leadingInt_suffix s⟩
  · obtain ⟨d, e, h⟩ := ParseDuration_total Quote s
    rw [h]
    intro hp
    cases hp
  · obtain ⟨d, e, h⟩ := ParseInterval_total Quote s
    rw [h]
    intro hp
    cases hp

/-! ## UnmarshalJSON -/

/-- C23, the code at the failing input: the three bytes `100` (a JSON number,
not enclosed in double quotes) are accepted by `(*Duration).UnmarshalJSON` and
by `(*Interval).UnmarshalJSON` with the nil error: the first and the last byte
are removed unchecked and the remaining `0` parses as zero.  Likewise `x1hy` is
accepted as the duration `1h`.  The single byte `0` is rejected. -/
theorem UnmarshalJSON_unquoted (d0 : Duration) (i0 : Interval) :
    Duration.UnmarshalJSON Quote d0 (str "100") =
      .ret { neg := 1, hour := 0, minute := 0, second := 0 } none ∧
    Interval.UnmarshalJSON Quote i0 (str "100") =
      .ret { year := 0, month := 0, day := 0, hour := 0, minute := 0, second := 0 } none ∧
    Duration.UnmarshalJSON Quote d0 (str "x1hy") =
      .ret { neg := 1, hour := 1, minute := 0, second := 0 } none ∧
    Duration.UnmarshalJSON Quote d0 (str "0") =
      .ret d0 (some (str "timeapi: duration " ++ Quote (str "0") ++ str " is invalid")) :=
  ⟨rfl, rfl, rfl, rfl⟩

theorem take_drop_eq_tail_dropLast (b : GoString) :
    (b.take (b.length - 1)).drop 1 = b.dropLast.tail := by
  rw [List.dropLast_eq_take, List.drop_one]

/-- C29: for every duration `d0` and every byte string `b`,
`(*Duration).UnmarshalJSON(b)` on a receiver holding `d0` returns, and either
the error is non-nil and the receiver still holds `d0`, or the error is nil,
`b` has at least two bytes and the receiver holds the value that
`ParseDuration` returns, with the nil error, for `b` without its first and last
byte.  The same holds for `(*Interval).UnmarshalJSON` with `ParseInterval`. -/
theorem UnmarshalJSON_atomic (d0 : Duration) (i0 : Interval) (b : GoString) :
    (∃ d e, Duration.UnmarshalJSON Quote d0 b = .ret d e ∧
      ((e ≠ none ∧ d = d0) ∨
        (e = none ∧ 2 ≤ b.length ∧ ParseDuration Quote b.dropLast.tail = .ret d none))) ∧
    (∃ i e, Interval.UnmarshalJSON Quote i0 b = .ret i e ∧
      ((e ≠ none ∧ i = i0) ∨
        (e = none ∧ 2 ≤ b.length ∧ ParseInterval Quote b.dropLast.tail = .ret i none))) := by
  constructor
  · unfold Duration.UnmarshalJSON
    by_cases hlen : b.length < 2
    · rw [if_pos hlen]
      exact ⟨_, _, rfl, Or.inl ⟨Option.some_ne_none _, rfl⟩⟩
    · rw [if_neg hlen]
      simp only [take_drop_eq_tail_dropLast]
      obtain ⟨d, e, hp⟩ := ParseDuration_total Quote b.dropLast.tail
      rw [hp]
      cases e with
      | none => exact ⟨_, _, rfl, Or.inr ⟨rfl, by omega, rfl⟩⟩
      | some e => exact ⟨_, _, rfl, Or.inl ⟨Option.some_ne_none _, rfl⟩⟩
  · unfold Interval.UnmarshalJSON
    by_cases hlen : b.length < 2
    · rw [if_pos hlen]
      exact ⟨_, _, rfl, Or.inl ⟨Option.some_ne_none _, rfl⟩⟩
    · rw [if_neg hlen]
      simp only [take_drop_eq_tail_dropLast]
      obtain ⟨d, e, hp⟩ := ParseInterval_total Quote b.dropLast.tail
      rw [hp]
      cases e with
      | none => exact ⟨_, _, rfl, Or.inr ⟨rfl, by omega, rfl⟩⟩
      | some e => exact ⟨_, _, rfl, Or.inl ⟨Option.some_ne_none _, rfl⟩⟩

end Totality

/-! ## ParseDuration: acceptance and the sign -/

section SignIndependence
variable (Quote : GoString → GoString)

/-- At the end of the loop of `ParseDuration` the total `dtmp` is a multiple of
`10^9` and at most `2^63 - 1`. -/
theorem durationRun_final_total (orig t : GoString) (n : Int) {stf : DurState}
    (h : durationRun Quote orig
      (durInit t { neg := n, hour := 0, minute := 0, second := 0 }) = .next stf) :
    1000000000 ∣ stf.dtmp ∧ stf.dtmp ≤ 2 ^ 63 - 1 := by
  obtain ⟨h1, h2, h3, h4, h5, -⟩ := (durationRun_next_inv Quote orig DurInv
    (fun st st1 hP hs hb => (durInv_step Quote hP hs hb).1) (durInv_init t n) h).1
  have hk : stf.dtmp = 1000000000 * (3600 * stf.d.hour + 60 * stf.d.minute + stf.d.second).toNat := by
    omega
  refine ⟨⟨_, hk⟩, ?_⟩
  norm_num at h5 ⊢
  omega

/-- When `ParseDuration` accepts a text with a leading `-`, it accepts the text
without the sign. -/
theorem ParseDuration_unminus (s : GoString) (d : Duration)
    (h : ParseDuration Quote (str "-" ++ s) = .ret d none) :
    ∃ d1, durationTail Quote s false s = .ret d1 none := by
  rw [ParseDuration_eq, show stripSign (str "-" ++ s) = (true, s) from rfl] at h
  unfold durationTail at h ⊢
  by_cases h1 : s = []
  · rw [if_pos h1] at h
    cases h
  · rw [if_neg h1] at h ⊢
    by_cases h2 : s = str "0"
    · rw [if_pos h2]
      exact ⟨_, rfl⟩
    · rw [if_neg h2] at h ⊢
      have hrel := durationRun_withNeg Quote (str "-" ++ s) s
        (durInit s { neg := -1, hour := 0, minute := 0, second := 0 }) (-1) 1 rfl
      have e : (durInit s { neg := -1, hour := 0, minute := 0, second := 0 }).withNeg 1 =
          durInit s { neg := 1, hour := 0, minute := 0, second := 0 } := rfl
      rw [e] at hrel
      simp only [Bool.false_eq_true, if_false, if_true] at h ⊢
      cases hrun1 : durationRun Quote (str "-" ++ s)
          (durInit s { neg := -1, hour := 0, minute := 0, second := 0 }) with
      | stop o =>
        rw [hrun1] at h
        exact absurd h (durationRun_stop Quote _ hrun1 d)
      | next a =>
        rw [hrun1] at hrel
        cases hrun2 : durationRun Quote s
            (durInit s { neg := 1, hour := 0, minute := 0, second := 0 }) with
        | stop p =>
          rw [hrun2] at hrel
          exact hrel.elim
        | next b =>
          have hb := (durationRun_final_total Quote s s 1 hrun2).2
          simp only [Flow.finish]
          rw [if_neg (by omega)]
          exact ⟨_, rfl⟩

/-- C28: for every text `s` that does not begin with `+` or `-`,
`ParseDuration("-" + s)` returns the nil error if and only if `ParseDuration(s)`
does.  The check `dtmp > 2^63 - 1` after the loop never fails: whenever the
loop of `ParseDuration` runs to its end, from the state in which the function
enters it, the total `dtmp` is a multiple of `10^9` and at most `2^63 - 1`. -/
theorem ParseDuration_sign_independent (s : GoString)
    (hs : ∀ c ∈ s.head?, c ≠ 43 ∧ c ≠ 45) :
    ((∃ d, ParseDuration Quote (str "-" ++ s) = .ret d none) ↔
      ∃ d, ParseDuration Quote s = .ret d none) ∧
    (∀ orig n stf,
      durationRun Quote orig
        (durInit s { neg := n, hour := 0, minute := 0, second := 0 }) = .next stf →
      1000000000 ∣ stf.dtmp ∧ ¬ stf.dtmp > 2 ^ 63 - 1) := by
  refine ⟨⟨?_, ?_⟩, ?_⟩
  · rintro ⟨d, h⟩
    rw [ParseDuration_eq, stripSign_unsigned s hs]
    exact ParseDuration_unminus Quote s d h
  · rintro ⟨d, h⟩
    exact ⟨_, (ParseDuration_minus Quote s d hs h).2⟩
  · intro orig n stf h
    have := durationRun_final_total Quote orig s n h
    exact ⟨this.1, by omega⟩

end SignIndependence

/-- C28, witness: the largest duration is accepted with a leading `-`, and one
second more is rejected with a leading `-` as it is without. -/
theorem ParseDuration_sign_independent_witness :
    (∃ d, ParseDuration quoteAscii (str "-" ++ str "2562047h47m16s") = .ret d none) ∧
      ParseDuration quoteAscii (str "-2562047h47m16s") =
        .ret (NewDuration (-2562047) 47 16) none ∧
      ¬ ∃ d, ParseDuration quoteAscii (str "-2562047h47m17s") = .ret d none :=
  ⟨(ParseDuration_sign_independent quoteAscii (str "2562047h47m16s") (by decide)).1.2
      ⟨NewDuration 2562047 47 16, by decide⟩,
    by decide,
    fun h => absurd
      ((ParseDuration_sign_independent quoteAscii (str "2562047h47m17s") (by decide)).1.1 h)
      (by
        rintro ⟨d, hd⟩
        have he : ParseDuration quoteAscii (str "2562047h47m17s") =
            .ret { neg := 1, hour := 2562047, minute := 47, second := 17 }
              (some (str "timeapi: invalid duration \"2562047h47m17s\"")) := by decide
        rw [he] at hd
        cases hd)⟩

section Traces
variable (Quote : GoString → GoString)

/-! ## No wrap-around in the unsigned arithmetic -/

theorem leadingIntTrace_fst (s : GoString) :
    ∀ x, (leadingIntTrace s x).1 = leadingIntLoop s x := by
  induction s with
  | nil => intro x; rfl
  | cons c rest ih =>
    intro x
    unfold leadingIntTrace leadingIntLoop
    dsimp only
    split_ifs
    · rfl
    · rfl
    · rfl
    · exact ih _

theorem leadingIntTrace_bound (s : GoString) :
    ∀ x, ∀ v ∈ (leadingIntTrace s x).2, 48 ≤ v ∧ v < 2 ^ 64 := by
  induction s with
  | nil =>
    intro x v hv
    simp [leadingIntTrace] at hv
  | cons c rest ih =>
    intro x v hv
    unfold leadingIntTrace at hv
    dsimp only at hv
    split_ifs at hv with h1 h2
    · simp at hv
    · simp at hv
    · simp only [List.mem_singleton] at hv
      subst hv
      norm_num at h2 ⊢
      omega
    · simp only [List.mem_cons] at hv
      rcases hv with rfl | hv
      · norm_num at h2 ⊢
        omega
      · exact ih _ v hv

theorem forLoopTrace_fst {σ α τ : Type} (guard : σ → Bool) (body : σ → Flow σ α × List τ) :
    ∀ fuel st, (forLoopTrace guard body fuel st).1 =
      forLoop guard (fun st => (body st).1) fuel st := by
  intro fuel
  induction fuel with
  | zero => intro st; rfl
  | succ k ih =>
    intro st
    unfold forLoopTrace forLoop
    by_cases hg : guard st = true
    · rw [if_pos hg, if_pos hg]
      rcases hb : body st with ⟨f, tr⟩
      cases f with
      | stop o => rfl
      | next st1 => exact ih st1
    · rw [if_neg hg, if_neg hg]

theorem forLoopTrace_all {σ α τ : Type} (guard : σ → Bool) (body : σ → Flow σ α × List τ)
    (P : σ → Prop) (Q : τ → Prop)
    (hstep : ∀ st st1, P st → guard st = true → (body st).1 = .next st1 → P st1)
    (hq : ∀ st, P st → guard st = true → ∀ v ∈ (body st).2, Q v) :
    ∀ fuel st, P st → ∀ v ∈ (forLoopTrace guard body fuel st).2, Q v := by
  intro fuel
  induction fuel with
  | zero =>
    intro st _ v hv
    simp [forLoopTrace] at hv
  | succ k ih =>
    intro st hP v hv
    unfold forLoopTrace at hv
    by_cases hg : guard st = true
    · rw [if_pos hg] at hv
      have h1 := hstep st
      have h2 := hq st hP hg
      rcases hb : body st with ⟨f, tr⟩
      rw [hb] at hv h1 h2
      cases f with
      | stop o => exact h2 v hv
      | next st1 =>
        simp only [List.mem_append] at hv
        rcases hv with hv | hv
        · exact h2 v hv
        · exact ih st1 (h1 st1 hP hg rfl) v hv
    · rw [if_neg hg] at hv
      simp at hv

theorem durationUnitTrace_fst (orig : GoString) (st : DurState) (v : Nat) (u s : GoString) :
    (durationUnitTrace Quote orig st v u s).1 = durationUnit Quote orig st v u s := by
  unfold durationUnitTrace durationUnit
  cases durationUnitMap u with
  | none => rfl
  | some unit =>
    dsimp only
    split_ifs <;> rfl

theorem durationBodyTrace_fst (orig : GoString) (st : DurState) :
    (durationBodyTrace Quote orig st).1 = durationBody Quote orig st := by
  unfold durationBodyTrace durationBody
  cases st.s with
  | nil => rfl
  | cons c rest =>
    dsimp only
    by_cases hc : ¬ (48 ≤ c ∧ c ≤ 57)
    · rw [if_pos hc, if_pos hc]
    · rw [if_neg hc, if_neg hc]
      rcases leadingInt (c :: rest) with ⟨v, s, e⟩
      cases e with
      | some e => rfl
      | none =>
        dsimp only
        by_cases hi : unitEnd s = 0
        · rw [if_pos hi, if_pos hi]
        · rw [if_neg hi, if_neg hi]
          exact durationUnitTrace_fst Quote orig st v _ _

theorem durationUnitTrace_bound (orig : GoString) (st : DurState) (v : Nat) (u s : GoString)
    (hinv : DurInv st) : ∀ x ∈ (durationUnitTrace Quote orig st v u s).2, x < 2 ^ 64 := by
  obtain ⟨h1, h2, h3, h4, h5, -⟩ := hinv
  intro x hx
  unfold durationUnitTrace at hx
  cases hu : durationUnitMap u with
  | none =>
    rw [hu] at hx
    simp at hx
  | some unit =>
    rw [hu] at hx
    dsimp only at hx
    have hunit := durationUnitMap_some hu
    have hmem : x ∈ [v * unit, st.dtmp + v * unit % 2 ^ 64] ∧ v ≤ 2 ^ 63 / unit := by
      split_ifs at hx with a b c d
      · simp at hx
      · simp at hx
      · simp at hx
      · exact ⟨hx, by omega⟩
      · exact ⟨hx, by omega⟩
    obtain ⟨hx, hv⟩ := hmem
    simp only [List.mem_cons, List.mem_singleton, List.not_mem_nil, or_false] at hx
    have hmod : v * unit % 2 ^ 64 = v * unit := by
      apply Nat.mod_eq_of_lt
      norm_num at hv ⊢
      rcases hunit with ⟨-, rfl⟩ | ⟨-, rfl⟩ | ⟨-, rfl⟩ <;> omega
    rw [hmod] at hx
    norm_num at h5 hv ⊢
    rcases hunit with ⟨-, rfl⟩ | ⟨-, rfl⟩ | ⟨-, rfl⟩ <;> rcases hx with rfl | rfl <;> omega

theorem durationBodyTrace_bound (orig : GoString) (st : DurState) (hinv : DurInv st) :
    ∀ x ∈ (durationBodyTrace Quote orig st).2, x < 2 ^ 64 := by
  intro x hx
  unfold durationBodyTrace at hx
  cases hs : st.s with
  | nil =>
    rw [hs] at hx
    simp at hx
  | cons c rest =>
    rw [hs] at hx
    dsimp only at hx
    by_cases hc : ¬ (48 ≤ c ∧ c ≤ 57)
    · rw [if_pos hc] at hx
      simp at hx
    · rw [if_neg hc] at hx
      rcases hl : leadingInt (c :: rest) with ⟨v, s, e⟩
      rw [hl] at hx
      cases e with
      | some e => simp at hx
      | none =>
        dsimp only at hx
        by_cases hi : unitEnd s = 0
        · rw [if_pos hi] at hx
          simp at hx
        · rw [if_neg hi] at hx
          exact durationUnitTrace_bound Quote orig st v _ _ hinv x hx

theorem durationLoopTrace_fst (orig : GoString) (fuel : Nat) (st : DurState) :
    (forLoopTrace (fun st => decide (st.s ≠ [])) (durationBodyTrace Quote orig) fuel st).1 =
      durationLoop Quote orig fuel st := by
  rw [forLoopTrace_fst]
  unfold durationLoop
  congr 1
  funext st
  exact durationBodyTrace_fst Quote orig st

theorem durationLoopTrace_bound (orig : GoString) (fuel : Nat) (st : DurState)
    (hinv : DurInv st) :
    ∀ x ∈ (forLoopTrace (fun st => decide (st.s ≠ [])) (durationBodyTrace Quote orig)
      fuel st).2, x < 2 ^ 64 :=
  forLoopTrace_all _ _ DurInv (fun x => x < 2 ^ 64)
    (fun st st1 hP hg hb =>
      (durInv_step Quote hP (by simpa using hg)
        ((durationBodyTrace_fst Quote orig st).symm.trans hb)).1)
    (fun st hP _ => durationBodyTrace_bound Quote orig st hP) fuel st hinv

theorem ParseDurationTrace_fst (s : GoString) :
    (ParseDurationTrace Quote s).1 = ParseDuration Quote s := by
  cases s with
  | nil => rfl
  | cons c rest =>
    unfold ParseDurationTrace ParseDuration
    by_cases hc : c = 45 ∨ c = 43
    · simp only [if_pos hc, ← durationLoopTrace_fst]
      split_ifs <;> first
        | rfl
        | (generalize forLoopTrace _ (durationBodyTrace Quote _) _ _ = p
           rcases p with ⟨f, tr⟩
           cases f <;> rfl)
    · simp only [if_neg hc, ← durationLoopTrace_fst]
      split_ifs <;> first
        | rfl
        | (generalize forLoopTrace _ (durationBodyTrace Quote _) _ _ = p
           rcases p with ⟨f, tr⟩
           cases f <;> rfl)

theorem ParseDurationTrace_snd (s : GoString) :
    (ParseDurationTrace Quote s).2 =
      if (stripSign s).2 = [] then []
      else if (stripSign s).2 = str "0" then []
      else (forLoopTrace (fun st => decide (st.s ≠ [])) (durationBodyTrace Quote s)
        (stripSign s).2.length
        (durInit (stripSign s).2
          { neg := if (stripSign s).1 then -1 else 1, hour := 0, minute := 0,
            second := 0 })).2 := by
  cases s with
  | nil => rfl
  | cons c rest =>
    unfold ParseDurationTrace stripSign
    by_cases hc : c = 45 ∨ c = 43
    · simp only [if_pos hc, durInit]
      split_ifs <;> first
        | rfl
        | (generalize forLoopTrace _ (durationBodyTrace Quote _) _ _ = p
           rcases p with ⟨f, tr⟩
           cases f <;> rfl)
    · simp only [if_neg hc, durInit]
      split_ifs <;> first
        | rfl
        | (generalize forLoopTrace _ (durationBodyTrace Quote _) _ _ = p
           rcases p with ⟨f, tr⟩
           cases f <;> rfl)

theorem ParseDurationTrace_bound (s : GoString) :
    ∀ x ∈ (ParseDurationTrace Quote s).2, x < 2 ^ 64 := by
  intro x hx
  rw [ParseDurationTrace_snd] at hx
  by_cases h1 : (stripSign s).2 = []
  · rw [if_pos h1] at hx
    simp at hx
  · rw [if_neg h1] at hx
    by_cases h2 : (stripSign s).2 = str "0"
    · rw [if_pos h2] at hx
      simp at hx
    · rw [if_neg h2] at hx
      exact durationLoopTrace_bound Quote s _ _ (durInv_init _ _) x hx

/-- C27: no operation of the unsigned 64-bit arithmetic wraps around.  For
every input `s`: in every round of `leadingInt(s)` that computes
`x = x*10 + uint64(c) - '0'`, the exact value of `x*10 + uint64(c)` is at least
`'0'` and below `2^64`; and in `ParseDuration(s)` the exact value of every
product `v * unit` of `v *= unit` and of every sum of `dtmp += v` is below
`2^64`.  The values are those recorded by `leadingIntTrace` and
`ParseDurationTrace`, which compute what `leadingInt` and `ParseDuration`
compute. -/
theorem no_wraparound (s : GoString) :
    (leadingIntTrace s 0).1 = leadingInt s ∧
    (∀ v ∈ (leadingIntTrace s 0).2, 48 ≤ v ∧ v < 2 ^ 64) ∧
    (ParseDurationTrace Quote s).1 = ParseDuration Quote s ∧
    (∀ v ∈ (ParseDurationTrace Quote s).2, v < 2 ^ 64) :=
  ⟨leadingIntTrace_fst s 0, leadingIntTrace_bound s 0, ParseDurationTrace_fst Quote s,
    ParseDurationTrace_bound Quote s⟩

end Traces

/-- C27, witness: in "2562047h153722867m" both the total so far and the new
product are close to `2^63`; their exact sum is below `2^64`.  The last value
that `leadingInt` computes on the digits of `2^63 + 1` is below `2^64`. -/
theorem no_wraparound_witness :
    (ParseDurationTrace quoteAscii (str "2562047h153722867m")).2 =
        [9223369200000000000, 9223369200000000000, 9223372020000000000,
          18446741220000000000] ∧
      (18446741220000000000 : Nat) < 2 ^ 64 ∧
      (leadingIntTrace (str "9223372036854775809") 0).2.getLast? = some 9223372036854775857 ∧
      48 ≤ 9223372036854775857 ∧ 9223372036854775857 < 2 ^ 64 :=
  ⟨by decide,
    (no_wraparound quoteAscii (str "2562047h153722867m")).2.2.2 18446741220000000000
      (by decide),
    by decide,
    (no_wraparound quoteAscii (str "9223372036854775809")).2.1 9223372036854775857
      (by decide)⟩

end Timeapi
